import Mathlib

/-!
A verification development of `resources_compiler`.

Shallow embedding of `src/resources_compiler.cpp`.

* `std::string` / `std::string_view` are lists of characters (`Str`).
* The content of an input file is a list of raw bytes (`Nat`, each `< 256`);
  the `std::vector<char>` it is read into holds `char` values (`Int`), signed
  or unsigned depending on the platform.
* `fmt::format("{}", n)` for an unsigned integer is the decimal numeral of
  `n` (`Nat.toDigits 10`).
* `std::filesystem` is a finite map from file identities to file contents. Which file a
  path names, whether its status can be determined, whether it can be removed or read, and
  whether an output stream opens it for writing are parameters of the run (`Env`).
* The generated definition document is read as C++ by a reader for the form the program
  writes; a text of another form, a name that is no usable identifier, a redefinition and
  a narrowing initializer give no program.
* Log output is left out.
-/

namespace ResourcesCompiler

/-- Text held in a `std::string` or `std::string_view`. -/
abbrev Str := List Char

/-! ## Library functions used by the program -/

/-- The call `fmt::format("{}", n)` for an unsigned integral `n`: its decimal numeral. -/
def fmt_unsigned (n : Nat) : Str := Nat.toDigits 10 n

/-- The algorithm `std::replace(first, last, old_value, new_value)` over a whole string. -/
def std_replace (s : Str) (old_value new_value : Char) : Str :=
  s.map (fun c => if c = old_value then new_value else c)

/-- The member `std::string::rfind(pattern)`: the greatest position at which `pattern` occurs,
`none` standing for `npos`. -/
def rfind (s pattern : Str) : Option Nat :=
  (List.range (s.length + 1)).reverse.find? (fun i => pattern.isPrefixOf (s.drop i))

/-- The member `std::string::replace(pos, count, str)` for `pos ≤ size`: the `count` characters
from `pos` on (fewer when the string ends before) give way to `str`. -/
def string_replace (s : Str) (pos count : Nat) (str : Str) : Str :=
  s.take pos ++ str ++ s.drop (pos + min count (s.length - pos))

/-- The value of a `char` that stores the raw byte `b`, on a platform where `char` is signed
(`-128..127`) or unsigned (`0..255`). -/
def char_of_byte (char_is_signed : Bool) (b : Nat) : Int :=
  if char_is_signed && decide (128 ≤ b) then (b : Int) - 256 else (b : Int)

/-- The conversion of a `char` value to `unsigned char`: reduction modulo `2^8`. -/
def to_unsigned_char (c : Int) : Nat := (c % 256).toNat

/-! ## The byte array renderer (`main`, lines 233-271) -/

/-- The local `end_token`. -/
def end_token : Str := ['}', ';', '\n', '\n']

/-- The local `token_at_end`. -/
def token_at_end : Str := [',']

/-- The value `precalc_stirng_size` reserved for an array entry of `size` bytes. -/
def precalc_stirng_size (size : Nat) : Nat := size * 4 + size / 0x1F + 64

/-- The header appended first: `fmt::format("constexpr const char {}[{}] = ", name, size)`
and then the opening brace. -/
def array_header (resource_name : Str) (size : Nat) : Str :=
  "constexpr const char ".toList ++ resource_name ++ "[".toList ++ fmt_unsigned size
    ++ "] = ".toList ++ ['{']

/-- The loop `for (unsigned char byte : binary_buffer)`: `char_counter` counts the bytes done,
`source_array_entry` is the text built so far. -/
def render_loop : List Int → Nat → Str → Str
  | [], _, source_array_entry => source_array_entry
  | c :: rest, char_counter, source_array_entry =>
    let byte := to_unsigned_char c
    let with_break :=
      if char_counter &&& 0x1F = 0 then source_array_entry ++ ['\n'] else source_array_entry
    render_loop rest (char_counter + 1) (with_break ++ (fmt_unsigned byte ++ [',']))

/-- The text of `source_array_entry` when the loop over the buffer is done. -/
def array_before_close (resource_name : Str) (binary_buffer : List Int) : Str :=
  render_loop binary_buffer 0 (array_header resource_name binary_buffer.length)

/-- The end of the rendering: the last `,` gives way to `end_token`, or `end_token` is
appended when no `,` is found. -/
def close_array (source_array_entry : Str) : Str :=
  match rfind source_array_entry token_at_end with
  | some last_comma =>
    string_replace source_array_entry last_comma (last_comma + token_at_end.length) end_token
  | none => source_array_entry ++ end_token

/-- The array literal `source_array_entry` built for a resource name and a buffer. -/
def render (resource_name : Str) (binary_buffer : List Int) : Str :=
  close_array (array_before_close resource_name binary_buffer)

/-- The registration `source_map_entry` built for a resource name. -/
def source_map_entry (resource_name : Str) : Str :=
  "  resources_.insert(\x7b\"".toList ++ resource_name ++ "\", std::string_view(".toList
    ++ resource_name ++ ", array_size(".toList ++ resource_name ++ "))\x7d);\n".toList

/-! ## Fixed text fragments (lines 21-102) -/

/-- The constant `kHeaderTop`. -/
def kHeaderTop : Str :=
  "#pragma once\n\n".toList
    ++ "/*".toList

/-- The constant `kHeaderBottom`. -/
def kHeaderBottom : Str :=
  "\n".toList
    ++ "*/\n\n".toList
    ++ "#include <string>\n".toList
    ++ "#include <string_view>\n".toList
    ++ "#include <unordered_map>\n\n".toList
    ++ "namespace resources \x7b\n\n".toList
    ++ "class manager final \x7b\n".toList
    ++ " public:\n".toList
    ++ "  manager();\n\n".toList
    ++ "  std::string_view get(const std::string_view& name) const;\n\n".toList
    ++ " private:\n".toList
    ++ "  std::unordered_map<std::string_view, std::string_view> resources_;\n".toList
    ++ "\x7d;\n\n".toList
    ++ "\x7d  // namespace resources\n".toList

/-- The constant `kSourceTop`. -/
def kSourceTop : Str :=
  "\n".toList
    ++ "*/\n\n".toList
    ++ "namespace resources \x7b\n".toList
    ++ "namespace \x7b\n".toList
    ++ "// resources list\n\n".toList

/-- The constant `kSourceMiddle`. -/
def kSourceMiddle : Str :=
  "// resources list\n\n".toList
    ++ "template <typename T, size_t size>\n".toList
    ++ "size_t array_size(T (&)[size]) \x7b\n".toList
    ++ "  return size;\n".toList
    ++ "\x7d\n\n".toList
    ++ "\x7d  // namespace\n\n".toList
    ++ "manager::manager() \x7b\n".toList
    ++ "  // resources list\n\n".toList

/-- The constant `kSourceBottom`. -/
def kSourceBottom : Str :=
  "\n".toList
    ++ "  // resources list\n".toList
    ++ "\x7d\n\n".toList
    ++ "std::string_view manager::get(const std::string_view& name) const \x7b\n".toList
    ++ "  const auto iterator = resources_.find(name);\n".toList
    ++ "  if (iterator == resources_.end()) \x7b\n".toList
    ++ "    return \x7b\x7d;\n".toList
    ++ "  \x7d\n".toList
    ++ "  return iterator->second;\n".toList
    ++ "\x7d\n\n".toList
    ++ "\x7d  // namespace resources\n".toList

/-- The constant `kBanner`. -/
def kBanner : Str :=
  "\n\n".toList
    ++ "      .:+oooooooooooooooooooooooooooooooooooooo: `/ooooooooooo/` :ooooo+/-`\n".toList
    ++ "   `+d##########################################sh#############do#########Ns.\n".toList
    ++ "  :#####N#ddddddddddddddddddddddddddddddN######h.:hdddddddddddh/.ydddd######N+\n".toList
    ++ " :N###N+.        .-----------.`       `+#####d/   .-----------.        `:#####/\n".toList
    ++ " h####/         :############Nd.    `/d#####+`   sN###########Ny         -#####\n".toList
    ++ " h####/         :#N##########Nd.   :h####No`     oN###########Ny         -#####\n".toList
    ++ " :N###No.`       `-----------.`  -yN###Ns.       `.-----------.`       `/#####/\n".toList
    ++ "  :#####N#####d/.yd##########do.sN#####################################N####N+\n".toList
    ++ "   `+d#########do#############N+###########################################s.\n".toList
    ++ "      .:+ooooo/` :+oooooooooo+. .+ooooooooooooooooooooooooooooooooooooo+/.\n\n".toList
    ++ "        C E Z E O  S O F T W A R E    R E S O U R C E S  C O M P I L E R\n".toList

/-- The constant `kSourcesListTag`. -/
def kSourcesListTag : Str := "--sources=".toList

/-- The constant `kOutputPathTag`. -/
def kOutputPathTag : Str := "--output=".toList

/-! ## Command line helpers (lines 108-134) -/

/-- The loop of `each_slice_view`: `first` and `current` are offsets into `s`, the first
argument is what is left between `begin` and `end`. -/
def each_slice_view_loop (s : Str) (delimiter : Char) :
    Str → Nat → Nat → List Str → Nat × Nat × List Str
  | [], first, current, container => (first, current, container)
  | c :: rest, first, current, container =>
    if c = delimiter then
      let container :=
        if first ≠ current then container ++ [(s.drop first).take (current - first)]
        else container
      each_slice_view_loop s delimiter rest (current + 1) (current + 1) container
    else
      each_slice_view_loop s delimiter rest first (current + 1) container

/-- The function `each_slice_view`: the pieces of `s` between delimiters are appended to
`container`, pieces of length zero are skipped. -/
def each_slice_view (s : Str) (delimiter : Char) (container : List Str) : List Str :=
  match each_slice_view_loop s delimiter s 0 0 container with
  | (first, current, container) =>
    if first ≠ current then container ++ [(s.drop first).take (current - first)]
    else container

/-- The function `begins_with`. -/
def begins_with (input mtch : Str) : Bool :=
  decide (input.length ≥ mtch.length) && (input.take mtch.length == mtch)

/-- The argument loop of `main` (lines 173-185): the state is `source_files` and
`output_file`, the latter `none` while its `data()` is null. -/
def parse_arguments : List Str → List Str → Option Str → List Str × Option Str
  | [], source_files, output_file => (source_files, output_file)
  | argument :: rest, source_files, output_file =>
    if begins_with argument kSourcesListTag then
      parse_arguments rest
        (each_slice_view (argument.drop kSourcesListTag.length) ',' source_files) output_file
    else if begins_with argument kOutputPathTag then
      parse_arguments rest source_files (some (argument.drop kOutputPathTag.length))
    else
      parse_arguments rest source_files output_file

/-! ## Paths and files (`std::filesystem`, POSIX form) -/

/-- The member `fs::path::filename()`: what follows the last directory separator. -/
def path_filename (p : Str) : Str :=
  (p.reverse.takeWhile (fun c => c ≠ '/')).reverse

/-- The member `fs::path::extension()`: the part of the file name from its last period on,
empty when the file name is `.` or `..` or has no period after its first character. -/
def path_extension (p : Str) : Str :=
  let f := path_filename p
  if f = ['.', '.'] then []
  else if '.' ∈ f then
    let ext := '.' :: (f.reverse.takeWhile (fun c => c ≠ '.')).reverse
    if ext.length = f.length then [] else ext
  else []

/-- The member `fs::path::replace_extension(replacement)`. -/
def path_replace_extension (p replacement : Str) : Str :=
  let without := p.take (p.length - (path_extension p).length)
  let dot := if replacement ≠ [] ∧ replacement.head? ≠ some '.' then ['.'] else []
  without ++ dot ++ replacement

/-- The files that exist, each under the identity of the file with its content as raw
bytes. -/
abbrev FileSystem := List (Str × List Nat)

/-- What the program runs on. `file_id` gives the file a path names (two spellings of one
file have one identity); `status_fails` tells for which paths the status of the file cannot
be determined, so that `fs::exists` and `fs::file_size` throw; `can_remove` tells which
files `fs::remove` can delete; `can_read` which files an input stream reads; `can_open`
which paths an output stream opens for writing; `reserved_name` which names the C++
implementation that compiles the generated source keeps for itself (macros of its
headers). -/
structure Env where
  char_is_signed : Bool
  can_open : Str → Bool
  file_id : Str → Str
  status_fails : Str → Bool
  can_remove : Str → Bool
  can_read : Str → Bool
  reserved_name : Str → Bool

/-- A platform without faults: every path names itself, every status query, removal and
read succeeds, and no name is reserved. -/
def plain_env (char_is_signed : Bool) (can_open : Str → Bool) : Env :=
  { char_is_signed := char_is_signed,
    can_open := can_open,
    file_id := fun p => p,
    status_fails := fun _ => false,
    can_remove := fun _ => true,
    can_read := fun _ => true,
    reserved_name := fun _ => false }

/-- Whether the file that `p` names is among the files. -/
def file_present (env : Env) (files : FileSystem) (p : Str) : Bool :=
  files.any (fun e => e.1 == env.file_id p)

/-- The content of the file that `p` names, `none` when there is no such file. -/
def fs_content (env : Env) (files : FileSystem) (p : Str) : Option (List Nat) :=
  (files.find? (fun e => e.1 == env.file_id p)).map (fun e => e.2)

/-- The files without the file that `p` names. -/
def drop_file (env : Env) (files : FileSystem) (p : Str) : FileSystem :=
  files.filter (fun e => e.1 != env.file_id p)

/-- The call `fs::exists(p)`: it throws when the status of `p` cannot be determined. -/
def fs_exists (env : Env) (files : FileSystem) (p : Str) : Except Str Bool :=
  if env.status_fails p then Except.error "filesystem error: status".toList
  else Except.ok (file_present env files p)

/-- The call `fs::remove(p)`: it throws when the file is there and cannot be deleted, and
then the file stays. -/
def fs_remove (env : Env) (files : FileSystem) (p : Str) : Except Str FileSystem :=
  if file_present env files p then
    if env.can_remove p then Except.ok (drop_file env files p)
    else Except.error "filesystem error: cannot remove".toList
  else Except.ok files

/-- The call `fs::file_size(p)`: it throws when the status of `p` cannot be determined and
when there is no such file. -/
def fs_file_size (env : Env) (files : FileSystem) (p : Str) : Except Str Nat :=
  if env.status_fails p then Except.error "filesystem error: status".toList
  else
    match fs_content env files p with
    | none => Except.error "filesystem error: cannot get file size".toList
    | some content => Except.ok content.length

/-- The buffer after `binary_buffer.resize(file_size)` and `file_stream.read`: the bytes of
the file as `char` values, or `file_size` zeros when the stream did not open (the program
does not test the stream). -/
def read_buffer (env : Env) (files : FileSystem) (p : Str) (file_size : Nat) : List Int :=
  if env.can_read p then
    (((fs_content env files p).getD []).take file_size).map (char_of_byte env.char_is_signed)
  else List.replicate file_size 0

/-- The files of a run: the files found (`files`) and the documents the program has
written (`written`), each with the path it was written to. -/
structure Disk where
  files : FileSystem
  written : List (Str × Str)

/-- The function `save_string_to_file`: when the stream opens the file holds `data`,
otherwise nothing is written (an error is logged). -/
def save_string_to_file (env : Env) (disk : Disk) (data file_path : Str) : Disk :=
  if env.can_open file_path then
    { files := drop_file env disk.files file_path,
      written := disk.written.filter (fun e => e.1 != file_path) ++ [(file_path, data)] }
  else disk

/-! ## The compilation (`main`, lines 163-340) -/

/-- The struct `file_entry`. -/
structure file_entry where
  source_array_entry : Str
  source_map_entry : Str
deriving DecidableEq, Repr

/-- The resource name of a source file: its file name with every `.` made `_`
(lines 243-244). -/
def resource_name (file_path : Str) : Str :=
  std_replace (path_filename file_path) '.' '_'

/-- The loop over `source_files` (lines 222-293), `result_data` being the entries so far.
`fs::file_size` throws for a path that does not exist; a file of size zero is skipped. -/
def process_files (env : Env) (files : FileSystem) :
    List Str → List file_entry → Except Str (List file_entry)
  | [], result_data => Except.ok result_data
  | source_file :: rest, result_data =>
    match fs_file_size env files source_file with
    | Except.error e => Except.error e
    | Except.ok file_size =>
      if file_size > 0 then
        let binary_buffer := read_buffer env files source_file file_size
        let name := resource_name source_file
        process_files env files rest
          (result_data ++ [file_entry.mk (render name binary_buffer) (source_map_entry name)])
      else
        process_files env files rest result_data

/-- The text of `result_header` (lines 303-307). -/
def build_header : Str :=
  (([] ++ kHeaderTop) ++ kBanner) ++ kHeaderBottom

/-- The text of `result_source` (lines 313-329) for the file name of the header and the
entries of `result_data`. -/
def build_source (header_filename : Str) (result_data : List file_entry) : Str :=
  let result_source : Str := "#include \"".toList ++ header_filename ++ "\"\n\n/*".toList
  let result_source := result_source ++ kBanner
  let result_source := result_source ++ kSourceTop
  let result_source :=
    result_data.foldl (fun acc result_entry => acc ++ result_entry.source_array_entry)
      result_source
  let result_source := result_source ++ kSourceMiddle
  let result_source :=
    result_data.foldl (fun acc result_entry => acc ++ result_entry.source_map_entry)
      result_source
  result_source ++ kSourceBottom

/-- The result of a run of `main`: the exit code and the files it leaves. -/
structure Outcome where
  exit_code : Int
  disk : Disk

/-- The deletion of a stale output (lines 205-209 and 211-215): when `fs::exists(p)` the
file is removed; both calls may throw. -/
def remove_stale (env : Env) (files : FileSystem) (p : Str) : Except Str FileSystem :=
  match fs_exists env files p with
  | Except.error e => Except.error e
  | Except.ok true => fs_remove env files p
  | Except.ok false => Except.ok files

/-- The function `main`, `argv` holding the program name and the arguments. Every
exception of the `try` block ends the run with -255 and the files as they are then. -/
def main (env : Env) (argv : List Str) (files : FileSystem) : Outcome :=
  if argv.length < 2 then ⟨-1, ⟨files, []⟩⟩
  else
    match parse_arguments (argv.drop 1) [] none with
    | (_, none) => ⟨-3, ⟨files, []⟩⟩
    | (source_files, some output_file) =>
      if output_file.length = 0 then ⟨-3, ⟨files, []⟩⟩
      else
        let output_header_path := path_replace_extension output_file ".h".toList
        let output_source_path := path_replace_extension output_file ".cpp".toList
        match remove_stale env files output_header_path with
        | Except.error _ => ⟨-255, ⟨files, []⟩⟩
        | Except.ok files1 =>
          match remove_stale env files1 output_source_path with
          | Except.error _ => ⟨-255, ⟨files1, []⟩⟩
          | Except.ok files2 =>
            match process_files env files2 source_files [] with
            | Except.error _ => ⟨-255, ⟨files2, []⟩⟩
            | Except.ok result_data =>
              let disk := save_string_to_file env ⟨files2, []⟩ build_header output_header_path
              let disk := save_string_to_file env disk
                (build_source (path_filename output_header_path) result_data)
                output_source_path
              ⟨0, disk⟩

/-! ## Reading a rendered array back -/

/-- The value of a decimal numeral, `none` for the empty text and for a text with a
character that is no digit. -/
def parse_decimal_from : Str → Nat → Option Nat
  | [], value => some value
  | c :: rest, value =>
    if '0' ≤ c ∧ c ≤ '9' then parse_decimal_from rest (10 * value + (c.toNat - '0'.toNat))
    else none

/-- The value of a decimal numeral. -/
def parse_decimal (s : Str) : Option Nat :=
  if s = [] then none else parse_decimal_from s 0

/-- The text between the opening brace of an array literal (the last `{` of the text) and
the first `}` after it. -/
def between_braces (literal : Str) : Option Str :=
  if '{' ∈ literal then
    let tail := (literal.reverse.takeWhile (fun c => c ≠ '{')).reverse
    if '}' ∈ tail then some (tail.takeWhile (fun c => c ≠ '}')) else none
  else none

/-- The numbers of a list of decimal numerals. -/
def parse_numbers : List Str → Option (List Nat)
  | [] => some []
  | s :: rest =>
    match parse_decimal s, parse_numbers rest with
    | some n, some ns => some (n :: ns)
    | _, _ => none

/-- The elements of an array literal: the text between its braces, line breaks dropped,
split at every `,`, each piece read as a decimal numeral. -/
def parse_array_literal (literal : Str) : Option (List Nat) :=
  match between_braces literal with
  | none => none
  | some body => parse_numbers ((body.filter (fun c => c ≠ '\n')).splitOn ',')

/-! ## The generated program

The definition document is C++ text. `parse_document` reads a text of the form that
`build_source` writes: the include line, the banner comment and `kSourceTop`, array
declarations, `kSourceMiddle`, registration statements, `kSourceBottom`. The program it
denotes has the arrays declared in order and the constructor `manager::manager()` running
the registrations in order; `manager::get` is the lookup of `kSourceBottom`. -/

/-- What a `std::string_view` over a constant array shows: its bytes. -/
abbrev View := List Nat

/-- A declaration `constexpr const char name[size] = {values};` of the generated source. -/
structure ArrayDecl where
  name : Str
  size : Nat
  values : List Nat
deriving DecidableEq, Repr

/-- A statement `resources_.insert({"key", std::string_view(array, array_size(size_of))});`
of the generated initializer. -/
structure Registration where
  key : Str
  array : Str
  size_of : Str
deriving DecidableEq, Repr

/-- The definition document read as a program: its arrays and the statements of
`manager::manager()`, both in source order. -/
structure TranslationUnit where
  arrays : List ArrayDecl
  registrations : List Registration
deriving DecidableEq, Repr

/-- Why a definition document is no program. -/
inductive ProgramError where
  | malformed
  | redefinition (name : Str)
  | excess_elements (name : Str)
  | narrowing (name : Str) (value : Nat)
  | undeclared (name : Str)
  | out_of_range (name : Str)
deriving DecidableEq, Repr

/-- The keywords of C++ (and its alternative operator spellings). -/
def cpp_keywords : List Str :=
  ["alignas".toList, "alignof".toList, "and".toList, "and_eq".toList, "asm".toList,
   "auto".toList, "bitand".toList, "bitor".toList, "bool".toList, "break".toList,
   "case".toList, "catch".toList, "char".toList, "char8_t".toList, "char16_t".toList,
   "char32_t".toList, "class".toList, "compl".toList, "concept".toList, "const".toList,
   "consteval".toList, "constexpr".toList, "constinit".toList, "const_cast".toList,
   "continue".toList, "co_await".toList, "co_return".toList, "co_yield".toList,
   "decltype".toList, "default".toList, "delete".toList, "do".toList, "double".toList,
   "dynamic_cast".toList, "else".toList, "enum".toList, "explicit".toList, "export".toList,
   "extern".toList, "false".toList, "float".toList, "for".toList, "friend".toList,
   "goto".toList, "if".toList, "inline".toList, "int".toList, "long".toList, "mutable".toList,
   "namespace".toList, "new".toList, "noexcept".toList, "not".toList, "not_eq".toList,
   "nullptr".toList, "operator".toList, "or".toList, "or_eq".toList, "private".toList,
   "protected".toList, "public".toList, "register".toList, "reinterpret_cast".toList,
   "requires".toList, "return".toList, "short".toList, "signed".toList, "sizeof".toList,
   "static".toList, "static_assert".toList, "static_cast".toList, "struct".toList,
   "switch".toList, "template".toList, "this".toList, "thread_local".toList, "throw".toList,
   "true".toList, "try".toList, "typedef".toList, "typeid".toList, "typename".toList,
   "union".toList, "unsigned".toList, "using".toList, "virtual".toList, "void".toList,
   "volatile".toList, "wchar_t".toList, "while".toList, "xor".toList, "xor_eq".toList]

/-- The names an array of the generated source cannot take because of the fixed text:
`array_size` and `size_t` are used as a function and a type in the namespace of the
arrays, `manager`, `resources_` and `get` name the class and its members inside the
constructor. -/
def template_names : List Str :=
  ["array_size".toList, "size_t".toList, "manager".toList, "resources_".toList, "get".toList]

/-- A character of an identifier: a letter, a digit or `_`. -/
def is_identifier_char (c : Char) : Bool :=
  decide ('a' ≤ c ∧ c ≤ 'z') || decide ('A' ≤ c ∧ c ≤ 'Z') || decide ('0' ≤ c ∧ c ≤ '9')
    || c == '_'

/-- A decimal digit. -/
def is_digit (c : Char) : Bool := decide ('0' ≤ c ∧ c ≤ '9')

/-- A name that the generated source can give to an array: a non-empty text of identifier
characters that does not begin with a digit, is no keyword, no name of the fixed text and
no name reserved by the C++ implementation. -/
def usable_identifier (env : Env) (name : Str) : Bool :=
  name.all is_identifier_char && !(name.head?.map is_digit).getD true
    && !cpp_keywords.contains name && !template_names.contains name && !env.reserved_name name

/-- The maximum of `char`: a larger value in a braced initializer is a narrowing
conversion. -/
def char_max (char_is_signed : Bool) : Nat := if char_is_signed then 127 else 255

/-- The text `s` after the text `expected`, `none` when `s` does not begin with it. -/
def expect_text (expected s : Str) : Option Str :=
  if expected.isPrefixOf s then some (s.drop expected.length) else none

/-- An identifier at the start of `s` and the text after it. -/
def read_identifier (env : Env) (s : Str) : Option (Str × Str) :=
  if usable_identifier env (s.takeWhile is_identifier_char) then
    some (s.takeWhile is_identifier_char, s.dropWhile is_identifier_char)
  else none

/-- A decimal integer literal at the start of `s` and the text after it. A literal of more
than one digit that begins with `0` is octal; the generated source has none and the reader
takes none. -/
def read_number (s : Str) : Option (Nat × Str) :=
  if (s.takeWhile is_digit).head? = some '0' ∧ s.takeWhile is_digit ≠ ['0'] then none
  else
    match parse_decimal (s.takeWhile is_digit) with
    | none => none
    | some n => some (n, s.dropWhile is_digit)

/-- The text `s` without the line break it may begin with. -/
def skip_line_break (s : Str) : Str :=
  match s with
  | '\n' :: rest => rest
  | _ => s

/-- The elements of a braced initializer up to the closing `};` and the two line breaks:
each a number, after an optional line break, followed by `,` or by the closing text. -/
def parse_elements : Nat → Str → List Nat → Option (List Nat × Str)
  | 0, _, _ => none
  | fuel + 1, s, values =>
    match read_number (skip_line_break s) with
    | none => none
    | some (v, rest) =>
      match rest with
      | ',' :: rest2 => parse_elements fuel rest2 (values ++ [v])
      | _ =>
        match expect_text "\x7d;\n\n".toList rest with
        | none => none
        | some rest2 => some (values ++ [v], rest2)

/-- An array declaration at the start of `s` and the text after it. -/
def parse_array (env : Env) (s : Str) : Option (ArrayDecl × Str) :=
  match expect_text "constexpr const char ".toList s with
  | none => none
  | some s1 =>
    match read_identifier env s1 with
    | none => none
    | some (name, s2) =>
      match expect_text "[".toList s2 with
      | none => none
      | some s3 =>
        match read_number s3 with
        | none => none
        | some (size, s4) =>
          match expect_text "] = \x7b".toList s4 with
          | none => none
          | some s5 =>
            match parse_elements s5.length s5 [] with
            | none => none
            | some (values, s6) => some (ArrayDecl.mk name size values, s6)

/-- The array declarations at the start of `s`, as long as the text begins with
`constexpr const char `, and the text after them. -/
def parse_arrays (env : Env) : Nat → Str → List ArrayDecl → Option (List ArrayDecl × Str)
  | 0, _, _ => none
  | fuel + 1, s, arrays =>
    if "constexpr const char ".toList.isPrefixOf s then
      match parse_array env s with
      | none => none
      | some (d, rest) => parse_arrays env fuel rest (arrays ++ [d])
    else some (arrays, s)

/-- A registration statement at the start of `s` and the text after it. The key is a
string literal without escape sequences. -/
def parse_registration (env : Env) (s : Str) : Option (Registration × Str) :=
  match expect_text "  resources_.insert(\x7b\"".toList s with
  | none => none
  | some s1 =>
    match expect_text "\", std::string_view(".toList
        (s1.dropWhile (fun c => c != '"' && c != '\\' && c != '\n')) with
    | none => none
    | some s2 =>
      match read_identifier env s2 with
      | none => none
      | some (array, s3) =>
        match expect_text ", array_size(".toList s3 with
        | none => none
        | some s4 =>
          match read_identifier env s4 with
          | none => none
          | some (size_of, s5) =>
            match expect_text "))\x7d);\n".toList s5 with
            | none => none
            | some s6 =>
              some (Registration.mk
                (s1.takeWhile (fun c => c != '"' && c != '\\' && c != '\n')) array size_of, s6)

/-- The registration statements at the start of `s`, as long as the text begins with
`  resources_.insert(`, and the text after them. -/
def parse_registrations (env : Env) :
    Nat → Str → List Registration → Option (List Registration × Str)
  | 0, _, _ => none
  | fuel + 1, s, registrations =>
    if "  resources_.insert(".toList.isPrefixOf s then
      match parse_registration env s with
      | none => none
      | some (r, rest) => parse_registrations env fuel rest (registrations ++ [r])
    else some (registrations, s)

/-- The definition document read as a program: the include line with a header name
without `"` and line break, the comment with the banner and `kSourceTop`, the arrays,
`kSourceMiddle`, the registrations, and `kSourceBottom` to the end. -/
def parse_document (env : Env) (doc : Str) : Option TranslationUnit :=
  match expect_text "#include \"".toList doc with
  | none => none
  | some s1 =>
    match expect_text ("\"\n\n/*".toList ++ kBanner ++ kSourceTop)
        (s1.dropWhile (fun c => c != '"' && c != '\n')) with
    | none => none
    | some s2 =>
      match parse_arrays env (s2.length + 1) s2 [] with
      | none => none
      | some (arrays, s3) =>
        match expect_text kSourceMiddle s3 with
        | none => none
        | some s4 =>
          match parse_registrations env (s4.length + 1) s4 [] with
          | none => none
          | some (registrations, s5) =>
            if s5 = kSourceBottom then some (TranslationUnit.mk arrays registrations)
            else none

/-- The declarations checked in order, `declared` being the arrays before: a name declared
before is a redefinition, more values than the declared size are too many initializers,
and a value above the maximum of `char` is a narrowing conversion. -/
def check_arrays (char_is_signed : Bool) :
    List ArrayDecl → List ArrayDecl → Except ProgramError (List ArrayDecl)
  | [], declared => Except.ok declared
  | d :: rest, declared =>
    if declared.any (fun a => a.name == d.name) then
      Except.error (ProgramError.redefinition d.name)
    else if d.size < d.values.length then Except.error (ProgramError.excess_elements d.name)
    else
      match d.values.find? (fun v => decide (char_max char_is_signed < v)) with
      | some v => Except.error (ProgramError.narrowing d.name v)
      | none => check_arrays char_is_signed rest (declared ++ [d])

/-- The bytes of the array object of a declaration: the listed values, then zeros up to the
declared size. -/
def array_object (d : ArrayDecl) : List Nat :=
  d.values ++ List.replicate (d.size - d.values.length) 0

/-- The function template `array_size` of `kSourceMiddle`: the declared size. -/
def array_size (d : ArrayDecl) : Nat := d.size

/-- The member `std::unordered_map::insert`: the pair is added when no element with that
key is present, otherwise the map is left as it is. -/
def umap_insert (resources_ : List (Str × View)) (key : Str) (view : View) :
    List (Str × View) :=
  if resources_.any (fun e => e.1 == key) then resources_ else resources_ ++ [(key, view)]

/-- One registration statement run on `resources_`: both names must be declared arrays,
and the view of `array_size(size_of)` bytes must lie within the array. -/
def run_registration (declared : List ArrayDecl) (resources_ : List (Str × View))
    (r : Registration) : Except ProgramError (List (Str × View)) :=
  match declared.find? (fun d => d.name == r.array) with
  | none => Except.error (ProgramError.undeclared r.array)
  | some a =>
    match declared.find? (fun d => d.name == r.size_of) with
    | none => Except.error (ProgramError.undeclared r.size_of)
    | some b =>
      if array_size b ≤ array_size a then
        Except.ok (umap_insert resources_ r.key ((array_object a).take (array_size b)))
      else Except.error (ProgramError.out_of_range r.array)

/-- The statements of the initializer run in order from the state `resources_`. -/
def run_registrations (declared : List ArrayDecl) :
    List Registration → List (Str × View) → Except ProgramError (List (Str × View))
  | [], resources_ => Except.ok resources_
  | r :: rest, resources_ =>
    match run_registration declared resources_ r with
    | Except.error e => Except.error e
    | Except.ok next => run_registrations declared rest next

/-- The constructor `manager::manager()` of a program: the map after all registrations. -/
def manager_ctor (char_is_signed : Bool) (tu : TranslationUnit) :
    Except ProgramError (List (Str × View)) :=
  match check_arrays char_is_signed tu.arrays [] with
  | Except.error e => Except.error e
  | Except.ok declared => run_registrations declared tu.registrations []

/-- The program that a definition document is, run to the end of its initializer: the
lookup map `resources_`, or the reason why the document is no program. -/
def generated_program (env : Env) (doc : Str) : Except ProgramError (List (Str × View)) :=
  match parse_document env doc with
  | none => Except.error ProgramError.malformed
  | some tu => manager_ctor env.char_is_signed tu

/-- The member `manager::get` of `kSourceBottom`. -/
def manager_get (resources_ : List (Str × View)) (name : Str) : View :=
  match resources_.find? (fun e => e.1 == name) with
  | none => []
  | some e => e.2

/-! ## The layout of the element list, stated directly -/

/-- The text of the element at 0-based position `index`: a line break when `index` is a
multiple of 32, then the decimal numeral of the byte. -/
def element_text (index byte : Nat) : Str :=
  (if index % 32 = 0 then ['\n'] else []) ++ fmt_unsigned byte

/-- The element list of the bytes that start at position `index`: the element texts with
one `,` between neighbours and none at the end. -/
def elements_text : List Nat → Nat → Str
  | [], _ => []
  | [byte], index => element_text index byte
  | byte :: next :: rest, index =>
    element_text index byte ++ [','] ++ elements_text (next :: rest) (index + 1)

/-! ## What a run reads, stated directly -/

/-- The bytes of the file that `p` names, no bytes when there is no such file. -/
def file_bytes (env : Env) (files : FileSystem) (p : Str) : List Nat :=
  (fs_content env files p).getD []

/-- The resources of a run: for every source file of non-zero size, in the order given,
its resource name and the buffer it is read into. -/
def resources_read (env : Env) (files : FileSystem) (source_files : List Str) :
    List (Str × List Int) :=
  (source_files.filter (fun p => decide (0 < (file_bytes env files p).length))).map
    (fun p => (resource_name p, read_buffer env files p (file_bytes env files p).length))

/-- The entry built for a resource: its array literal and its registration. -/
def entry_of (r : Str × List Int) : file_entry :=
  file_entry.mk (render r.1 r.2) (source_map_entry r.1)

/-! ## The text of the element loop, stated directly -/

/-- What the loop appends for the buffer `cs` when `index` bytes are done: for every byte a
line break when its position is a multiple of 32, its numeral and a `,`. -/
def loop_text : List Int → Nat → Str
  | [], _ => []
  | c :: rest, index =>
    ((if index % 32 = 0 then ['\n'] else []) ++ fmt_unsigned (to_unsigned_char c) ++ [','])
      ++ loop_text rest (index + 1)

/-- The text of one line of elements: every value of the line followed by a `,`. -/
def line_text (chunk : List Int) : Str :=
  (chunk.map (fun c => fmt_unsigned (to_unsigned_char c) ++ [','])).flatten

/-! ## Environments with faults -/

/-- The environment in which a file, once there, cannot be removed. -/
def no_remove_env : Env :=
  { plain_env true (fun _ => true) with can_remove := fun _ => false }

/-! ## Decimal numerals -/

theorem toDigitsCore_append (fuel : Nat) : ∀ (n : Nat) (acc : List Char),
    Nat.toDigitsCore 10 fuel n acc = Nat.toDigitsCore 10 fuel n [] ++ acc := by
  induction fuel with
  | zero => intro n acc; simp [Nat.toDigitsCore]
  | succ f ih =>
    intro n acc
    simp only [Nat.toDigitsCore]
    by_cases h : n / 10 = 0
    · simp [h]
    · simp only [h, if_false]
      rw [ih (n / 10) (Nat.digitChar (n % 10) :: acc), ih (n / 10) [Nat.digitChar (n % 10)]]
      simp

theorem toDigitsCore_fuel (n : Nat) : ∀ fuel, n < fuel →
    Nat.toDigitsCore 10 fuel n [] = Nat.toDigitsCore 10 (n + 1) n [] := by
  induction n using Nat.strong_induction_on with
  | _ n ih =>
    intro fuel hf
    obtain ⟨f, rfl⟩ : ∃ f, fuel = f + 1 := ⟨fuel - 1, by omega⟩
    simp only [Nat.toDigitsCore]
    by_cases h : n / 10 = 0
    · simp [h]
    · simp only [h, if_false]
      have hlt : n / 10 < n := by omega
      rw [toDigitsCore_append f, toDigitsCore_append n, ih (n / 10) hlt f (by omega),
        ih (n / 10) hlt n hlt]

theorem fmt_unsigned_small (n : Nat) (h : n < 10) : fmt_unsigned n = [Nat.digitChar n] := by
  have h0 : n / 10 = 0 := by omega
  have h1 : n % 10 = n := by omega
  simp [fmt_unsigned, Nat.toDigits, Nat.toDigitsCore, h0, h1]

theorem fmt_unsigned_large (n : Nat) (h : 10 ≤ n) :
    fmt_unsigned n = fmt_unsigned (n / 10) ++ [Nat.digitChar (n % 10)] := by
  have h0 : ¬ n / 10 = 0 := by omega
  have hlt : n / 10 < n := by omega
  have step : Nat.toDigitsCore 10 (n + 1) n [] =
      Nat.toDigitsCore 10 n (n / 10) [Nat.digitChar (n % 10)] := by
    simp [Nat.toDigitsCore, h0]
  show Nat.toDigitsCore 10 (n + 1) n [] =
    Nat.toDigitsCore 10 (n / 10 + 1) (n / 10) [] ++ [Nat.digitChar (n % 10)]
  rw [step, toDigitsCore_append n, toDigitsCore_fuel (n / 10) n hlt]

theorem digitChar_digit (d : Nat) (h : d < 10) :
    ('0' ≤ Nat.digitChar d ∧ Nat.digitChar d ≤ '9') ∧
      (Nat.digitChar d).toNat - '0'.toNat = d := by
  interval_cases d <;> decide

theorem fmt_unsigned_digits (n : Nat) : ∀ c ∈ fmt_unsigned n, '0' ≤ c ∧ c ≤ '9' := by
  induction n using Nat.strong_induction_on with
  | _ n ih =>
    intro c hc
    by_cases h : n < 10
    · rw [fmt_unsigned_small n h] at hc
      simp only [List.mem_singleton] at hc
      subst hc
      exact (digitChar_digit n h).1
    · rw [fmt_unsigned_large n (by omega)] at hc
      rcases List.mem_append.1 hc with hc | hc
      · exact ih (n / 10) (by omega) c hc
      · simp only [List.mem_singleton] at hc
        subst hc
        exact (digitChar_digit (n % 10) (by omega)).1

theorem fmt_unsigned_ne_nil (n : Nat) : fmt_unsigned n ≠ [] := by
  by_cases h : n < 10
  · rw [fmt_unsigned_small n h]; simp
  · rw [fmt_unsigned_large n (by omega)]; simp

theorem parse_decimal_from_append (s : Str) (c : Char) : ∀ value,
    parse_decimal_from (s ++ [c]) value =
      (parse_decimal_from s value).bind
        (fun w => if '0' ≤ c ∧ c ≤ '9' then some (10 * w + (c.toNat - '0'.toNat)) else none) := by
  induction s with
  | nil => intro value; simp [parse_decimal_from]
  | cons a s ih =>
    intro value
    simp only [List.cons_append, parse_decimal_from]
    by_cases h : '0' ≤ a ∧ a ≤ '9'
    · simp only [h, and_self, if_true]; exact ih _
    · simp [h]

theorem parse_decimal_from_fmt (n : Nat) : parse_decimal_from (fmt_unsigned n) 0 = some n := by
  induction n using Nat.strong_induction_on with
  | _ n ih =>
    by_cases h : n < 10
    · rw [fmt_unsigned_small n h]
      have hd := digitChar_digit n h
      have hv : (Nat.digitChar n).toNat - 48 = n := hd.2
      simp [parse_decimal_from, hd.1, hv]
    · rw [fmt_unsigned_large n (by omega), parse_decimal_from_append, ih (n / 10) (by omega)]
      have hd := digitChar_digit (n % 10) (by omega)
      simp only [Option.some_bind, hd.1, and_self, if_true, hd.2]
      congr 1
      omega

theorem parse_decimal_fmt (n : Nat) : parse_decimal (fmt_unsigned n) = some n := by
  simp [parse_decimal, fmt_unsigned_ne_nil, parse_decimal_from_fmt]

theorem not_mem_fmt_unsigned (n : Nat) (c : Char) (hc : c < '0') : c ∉ fmt_unsigned n := by
  intro hmem
  have h := (fmt_unsigned_digits n c hmem).1
  exact absurd hc (not_lt.2 h)

/-! ## The renderer -/

theorem render_loop_eq : ∀ (cs : List Int) (k : Nat) (acc : Str), cs ≠ [] →
    render_loop cs k acc = acc ++ elements_text (cs.map to_unsigned_char) k ++ [','] := by
  intro cs
  induction cs with
  | nil => intro k acc h; exact absurd rfl h
  | cons c rest ih =>
    intro k acc _
    have hand : (k &&& 0x1F = 0) = (k % 32 = 0) := by
      have := Nat.and_pow_two_sub_one_eq_mod k 5
      simp only [Nat.reducePow, Nat.add_one_sub_one] at this
      rw [show (0x1F : Nat) = 31 from rfl, this]
    cases rest with
    | nil =>
      simp only [render_loop, List.map, elements_text, element_text, hand]
      by_cases hk : k % 32 = 0 <;> simp [hk]
    | cons c2 rest2 =>
      rw [render_loop, ih (k + 1) _ (by simp)]
      simp only [List.map, elements_text, element_text, hand]
      by_cases hk : k % 32 = 0 <;> simp [hk]

theorem rfind_last (t : Str) (c : Char) : rfind (t ++ [c]) [c] = some t.length := by
  unfold rfind
  have hlen : (t ++ [c]).length + 1 = t.length + 1 + 1 := by simp
  rw [hlen, List.range_succ, List.range_succ]
  simp [List.find?, List.isPrefixOf]

theorem string_replace_last (t : Str) (c : Char) (count : Nat) (hc : 0 < count) (e : Str) :
    string_replace (t ++ [c]) t.length count e = t ++ e := by
  unfold string_replace
  have hmin : min count ((t ++ [c]).length - t.length) = 1 := by
    simp only [List.length_append, List.length_singleton]; omega
  rw [hmin]
  simp

theorem close_array_last (t : Str) : close_array (t ++ [',']) = t ++ end_token := by
  unfold close_array token_at_end
  rw [rfind_last]
  exact string_replace_last t ',' _ (by simp) end_token

theorem render_eq (id : Str) (cs : List Int) (h : cs ≠ []) :
    render id cs =
      array_header id cs.length ++ elements_text (cs.map to_unsigned_char) 0 ++ end_token := by
  unfold render array_before_close
  rw [render_loop_eq cs 0 _ h, close_array_last]

/-! ## Reading the element list back -/

theorem takeWhile_append_cons {p : Char → Bool} (l1 : Str) (c : Char) (l2 : Str)
    (h1 : ∀ x ∈ l1, p x = true) (hc : p c = false) :
    (l1 ++ c :: l2).takeWhile p = l1 := by
  induction l1 with
  | nil => simp [List.takeWhile, hc]
  | cons a l ih =>
    have ha : p a = true := h1 a (by simp)
    have hrest := ih (fun x hx => h1 x (by simp [hx]))
    simp [List.takeWhile_cons, ha, hrest]

theorem after_last_eq (pre suf : Str) (c : Char) (h : c ∉ suf) :
    ((pre ++ c :: suf).reverse.takeWhile (fun x => x ≠ c)).reverse = suf := by
  have hrev : (pre ++ c :: suf).reverse = suf.reverse ++ c :: pre.reverse := by simp
  rw [hrev, takeWhile_append_cons]
  · simp
  · intro x hx
    have hx2 : x ∈ suf := List.mem_reverse.1 hx
    have : x ≠ c := fun e => h (e ▸ hx2)
    simpa using this
  · simp

theorem mem_element_text (k b : Nat) (c : Char) (h : c ∈ element_text k b) :
    c = '\n' ∨ ('0' ≤ c ∧ c ≤ '9') := by
  unfold element_text at h
  rcases List.mem_append.1 h with h | h
  · left
    by_cases hk : k % 32 = 0
    · simpa [hk] using h
    · simp [hk] at h
  · exact Or.inr (fmt_unsigned_digits b c h)

theorem mem_elements_text : ∀ (bs : List Nat) (k : Nat) (c : Char), c ∈ elements_text bs k →
    c = ',' ∨ c = '\n' ∨ ('0' ≤ c ∧ c ≤ '9')
  | [], _, c, h => by simp [elements_text] at h
  | [b], k, c, h => Or.inr (mem_element_text k b c (by simpa [elements_text] using h))
  | b :: b2 :: rest, k, c, h => by
    rw [elements_text] at h
    rcases List.mem_append.1 h with h | h
    · rcases List.mem_append.1 h with h | h
      · exact Or.inr (mem_element_text k b c h)
      · exact Or.inl (by simpa using h)
    · exact mem_elements_text (b2 :: rest) (k + 1) c h

theorem not_mem_elements_text (bs : List Nat) (k : Nat) (c : Char)
    (h1 : c ≠ ',') (h2 : c ≠ '\n') (h3 : ¬ ('0' ≤ c ∧ c ≤ '9')) : c ∉ elements_text bs k := by
  intro h
  rcases mem_elements_text bs k c h with h | h | h
  · exact h1 h
  · exact h2 h
  · exact h3 h

theorem between_braces_render (id : Str) (n : Nat) (body : Str)
    (ho : '{' ∉ body) (hc : '}' ∉ body) :
    between_braces (array_header id n ++ body ++ end_token) = some body := by
  have hshape : array_header id n ++ body ++ end_token =
      ("constexpr const char ".toList ++ id ++ "[".toList ++ fmt_unsigned n ++ "] = ".toList)
        ++ '{' :: (body ++ end_token) := by
    simp [array_header]
  have hno : '{' ∉ body ++ end_token := by
    intro h
    rcases List.mem_append.1 h with h | h
    · exact ho h
    · revert h; decide
  unfold between_braces
  rw [hshape, after_last_eq _ _ _ hno]
  have hmem : '{' ∈ ("constexpr const char ".toList ++ id ++ "[".toList ++ fmt_unsigned n
      ++ "] = ".toList) ++ '{' :: (body ++ end_token) := by simp
  have hmem2 : '}' ∈ body ++ end_token := by simp [end_token]
  simp only [hmem, hmem2, if_true]
  congr 1
  have : body ++ end_token = body ++ '}' :: [';', '\n', '\n'] := rfl
  rw [this, takeWhile_append_cons]
  · intro x hx
    have : x ≠ '}' := fun e => hc (e ▸ hx)
    simpa using this
  · simp

theorem filter_element_text (k b : Nat) :
    (element_text k b).filter (fun c => c ≠ '\n') = fmt_unsigned b := by
  have hd : ∀ c ∈ fmt_unsigned b, ¬ c = '\n' := by
    intro c hc e
    subst e
    exact not_mem_fmt_unsigned b '\n' (by decide) hc
  unfold element_text
  by_cases hk : k % 32 = 0
  · simpa [hk] using hd
  · simpa [hk] using hd

theorem filter_elements_text : ∀ (bs : List Nat) (k : Nat), bs ≠ [] →
    (elements_text bs k).filter (fun c => c ≠ '\n') = [','].intercalate (bs.map fmt_unsigned)
  | [], _, h => absurd rfl h
  | [b], k, _ => by
    simpa [elements_text, List.intercalate] using filter_element_text k b
  | b :: b2 :: rest, k, _ => by
    rw [elements_text, List.filter_append, List.filter_append, filter_element_text,
      filter_elements_text (b2 :: rest) (k + 1) (by simp)]
    simp [List.intercalate]

theorem split_elements_text (bs : List Nat) (k : Nat) (h : bs ≠ []) :
    ((elements_text bs k).filter (fun c => c ≠ '\n')).splitOn ',' = bs.map fmt_unsigned := by
  rw [filter_elements_text bs k h]
  apply List.splitOn_intercalate
  · intro l hl
    obtain ⟨b, _, rfl⟩ := List.mem_map.1 hl
    exact not_mem_fmt_unsigned b ',' (by decide)
  · simpa using h

theorem parse_numbers_fmt : ∀ bs : List Nat, parse_numbers (bs.map fmt_unsigned) = some bs
  | [] => rfl
  | b :: rest => by
    simp [parse_numbers, parse_decimal_fmt, parse_numbers_fmt rest]

theorem parse_render (id : Str) (cs : List Int) (h : cs ≠ []) :
    parse_array_literal (render id cs) = some (cs.map to_unsigned_char) := by
  have hne : cs.map to_unsigned_char ≠ [] := by simpa using h
  rw [render_eq id cs h]
  unfold parse_array_literal
  rw [between_braces_render id cs.length _
    (not_mem_elements_text _ 0 '{' (by decide) (by decide) (by decide))
    (not_mem_elements_text _ 0 '}' (by decide) (by decide) (by decide))]
  simp only
  rw [split_elements_text _ 0 hne, parse_numbers_fmt]

theorem to_unsigned_char_of_byte (s : Bool) (b : Nat) (h : b < 256) :
    to_unsigned_char (char_of_byte s b) = b := by
  unfold to_unsigned_char char_of_byte
  by_cases hs : (s && decide (128 ≤ b)) = true
  · simp only [hs, if_true]
    omega
  · simp only [hs]
    omega

theorem map_to_unsigned_char_of_byte (s : Bool) (B : List Nat) (h : ∀ b ∈ B, b < 256) :
    (B.map (char_of_byte s)).map to_unsigned_char = B := by
  rw [List.map_map]
  conv_rhs => rw [← List.map_id B]
  apply List.map_congr_left
  intro b hb
  exact to_unsigned_char_of_byte s b (h b hb)

theorem count_comma_element_text (k b : Nat) : (element_text k b).count ',' = 0 := by
  apply List.count_eq_zero.2
  intro h
  rcases mem_element_text k b ',' h with h | h
  · revert h; decide
  · revert h; decide

theorem count_comma_elements_text : ∀ (bs : List Nat) (k : Nat),
    (elements_text bs k).count ',' = bs.length - 1
  | [], _ => by simp [elements_text]
  | [b], k => by simp [elements_text, count_comma_element_text]
  | b :: b2 :: rest, k => by
    rw [elements_text, List.count_append, List.count_append, count_comma_element_text,
      count_comma_elements_text (b2 :: rest) (k + 1)]
    simp only [List.count_singleton_self, List.length_cons]
    omega

theorem elements_text_last : ∀ (bs : List Nat) (k : Nat) (h : bs ≠ []),
    ∃ pre, elements_text bs k = pre ++ fmt_unsigned (bs.getLast h)
  | [], _, h => absurd rfl h
  | [b], k, _ => ⟨if k % 32 = 0 then ['\n'] else [], by simp [elements_text, element_text]⟩
  | b :: b2 :: rest, k, _ => by
    obtain ⟨pre, hpre⟩ := elements_text_last (b2 :: rest) (k + 1) (by simp)
    refine ⟨element_text k b ++ [','] ++ pre, ?_⟩
    rw [elements_text, hpre]
    simp

theorem fmt_unsigned_last (n : Nat) :
    ∃ digits d, fmt_unsigned n = digits ++ [d] ∧ d = Nat.digitChar (n % 10) := by
  by_cases h : n < 10
  · exact ⟨[], Nat.digitChar n, by simp [fmt_unsigned_small n h], by
      rw [Nat.mod_eq_of_lt h]⟩
  · exact ⟨fmt_unsigned (n / 10), Nat.digitChar (n % 10), fmt_unsigned_large n (by omega), rfl⟩

/-- C1: round trip. For every identifier and every non-empty sequence `B` of bytes, on a
platform with signed or unsigned `char`, the array literal rendered for `B` has the shape
header, element list, closing marker; the text between its braces is that element list, and
reading the comma-separated decimal numbers of it, line breaks ignored, gives exactly `B`,
element for element and in the same order. -/
theorem render_round_trip (char_is_signed : Bool) (id : Str) (B : List Nat)
    (hne : B ≠ []) (hbytes : ∀ b ∈ B, b < 256) :
    parse_array_literal (render id (B.map (char_of_byte char_is_signed))) = some B ∧
    ∃ body, render id (B.map (char_of_byte char_is_signed))
        = array_header id B.length ++ body ++ end_token ∧
      between_braces (render id (B.map (char_of_byte char_is_signed))) = some body ∧
      parse_numbers ((body.filter (fun c => c ≠ '\n')).splitOn ',') = some B := by
  have hcs : B.map (char_of_byte char_is_signed) ≠ [] := by simpa using hne
  have hmap := map_to_unsigned_char_of_byte char_is_signed B hbytes
  have hrender := render_eq id _ hcs
  rw [hmap, List.length_map] at hrender
  refine ⟨?_, elements_text B 0, hrender, ?_, ?_⟩
  · rw [parse_render id _ hcs, hmap]
  · rw [hrender]
    exact between_braces_render id B.length _
      (not_mem_elements_text _ 0 '{' (by decide) (by decide) (by decide))
      (not_mem_elements_text _ 0 '}' (by decide) (by decide) (by decide))
  · rw [split_elements_text B 0 hne, parse_numbers_fmt]

/-- Witness of C1: the bytes 72, 105, 200 of a file named `hello_txt`, `char` signed. -/
theorem render_round_trip_witness :
    parse_array_literal (render "hello_txt".toList ([72, 105, 200].map (char_of_byte true)))
        = some [72, 105, 200] ∧
    ∃ body, render "hello_txt".toList ([72, 105, 200].map (char_of_byte true))
        = array_header "hello_txt".toList [72, 105, 200].length ++ body ++ end_token ∧
      between_braces (render "hello_txt".toList ([72, 105, 200].map (char_of_byte true)))
        = some body ∧
      parse_numbers ((body.filter (fun c => c ≠ '\n')).splitOn ',') = some [72, 105, 200] :=
  render_round_trip true "hello_txt".toList [72, 105, 200] (by decide) (by decide)

/-- C2: declared length. For every identifier and every non-empty buffer, the rendered
array literal is the header `constexpr const char <id>[<n>] = {`, an element list and the
closing marker, where `<n>` is the decimal numeral of the number of bytes (read back as a
number it is that count), and the number of elements between the braces is that count
too. -/
theorem declared_length (id : Str) (binary_buffer : List Int) (hne : binary_buffer ≠ []) :
    (∃ body, render id binary_buffer =
      "constexpr const char ".toList ++ id ++ "[".toList ++ fmt_unsigned binary_buffer.length
        ++ "] = \x7b".toList ++ body ++ "\x7d;\n\n".toList) ∧
    parse_decimal (fmt_unsigned binary_buffer.length) = some binary_buffer.length ∧
    ∃ elements, parse_array_literal (render id binary_buffer) = some elements ∧
      elements.length = binary_buffer.length := by
  refine ⟨⟨elements_text (binary_buffer.map to_unsigned_char) 0, ?_⟩, parse_decimal_fmt _,
    binary_buffer.map to_unsigned_char, parse_render id binary_buffer hne, by simp⟩
  rw [render_eq id binary_buffer hne]
  simp [array_header, end_token]

/-- Witness of C2: a buffer of two bytes. -/
theorem declared_length_witness :
    (∃ body, render "hello_txt".toList [72, 105] =
      "constexpr const char ".toList ++ "hello_txt".toList ++ "[".toList
        ++ fmt_unsigned [(72 : Int), 105].length
        ++ "] = \x7b".toList ++ body ++ "\x7d;\n\n".toList) ∧
    parse_decimal (fmt_unsigned [(72 : Int), 105].length) = some [(72 : Int), 105].length ∧
    ∃ elements, parse_array_literal (render "hello_txt".toList [72, 105]) = some elements ∧
      elements.length = [(72 : Int), 105].length :=
  declared_length "hello_txt".toList [72, 105] (by decide)

/-- C4: the identifier of a file base name `s`. It has the length of `s`; at every position
where `s` has `.` it has `_`, at every other position it has the character of `s`; it
holds no `.`; and the resource name of a path is this identifier of its file name. -/
theorem resource_name_characters (s : Str) :
    (std_replace s '.' '_').length = s.length ∧
    (∀ (i : Nat) (c : Char), s[i]? = some c →
      (c = '.' → (std_replace s '.' '_')[i]? = some '_') ∧
      (c ≠ '.' → (std_replace s '.' '_')[i]? = some c)) ∧
    '.' ∉ std_replace s '.' '_' ∧
    ∀ file_path : Str, resource_name file_path = std_replace (path_filename file_path) '.' '_' := by
  refine ⟨by simp [std_replace], ?_, ?_, fun _ => rfl⟩
  · intro i c hc
    constructor
    · intro h
      simp [std_replace, hc, h]
    · intro h
      simp [std_replace, hc, h]
  · intro hmem
    simp only [std_replace, List.mem_map] at hmem
    obtain ⟨c, _, hc⟩ := hmem
    by_cases h : c = '.'
    · simp [h] at hc
    · rw [if_neg h] at hc
      exact h hc

/-- Witness of C4: the base name `a.b.c`. -/
theorem resource_name_characters_witness :
    std_replace "a.b.c".toList '.' '_' = "a_b_c".toList ∧
    ((std_replace "a.b.c".toList '.' '_').length = "a.b.c".toList.length ∧
    (∀ (i : Nat) (c : Char), "a.b.c".toList[i]? = some c →
      (c = '.' → (std_replace "a.b.c".toList '.' '_')[i]? = some '_') ∧
      (c ≠ '.' → (std_replace "a.b.c".toList '.' '_')[i]? = some c)) ∧
    '.' ∉ std_replace "a.b.c".toList '.' '_' ∧
    ∀ file_path : Str,
      resource_name file_path = std_replace (path_filename file_path) '.' '_') :=
  ⟨by decide, resource_name_characters "a.b.c".toList⟩

/-- C5: unsigned rendering. For every non-empty buffer of `char` values (signed or not), the
element list of the rendered literal, line breaks dropped and split at the separators, is
the list of the decimal numerals of `c mod 256` for the values `c` of the buffer in order;
each such number is below 256, and the element list holds no `-`. -/
theorem elements_unsigned (id : Str) (binary_buffer : List Int) (hne : binary_buffer ≠ []) :
    ∃ body, render id binary_buffer = array_header id binary_buffer.length ++ body ++ end_token ∧
      (body.filter (fun c => c ≠ '\n')).splitOn ','
        = binary_buffer.map (fun c => fmt_unsigned (c % 256).toNat) ∧
      (∀ c ∈ binary_buffer, (c % 256).toNat < 256 ∧ to_unsigned_char c = (c % 256).toNat) ∧
      '-' ∉ body := by
  refine ⟨elements_text (binary_buffer.map to_unsigned_char) 0, render_eq id binary_buffer hne,
    ?_, ?_, not_mem_elements_text _ 0 '-' (by decide) (by decide) (by decide)⟩
  · rw [split_elements_text _ 0 (by simpa using hne), List.map_map]
    rfl
  · intro c _
    refine ⟨?_, rfl⟩
    omega

/-- Witness of C5: the `char` values -1 and -128 are rendered as 255 and 128. -/
theorem elements_unsigned_witness :
    render "x".toList [-1, -128] = "constexpr const char x[2] = \x7b\n255,128\x7d;\n\n".toList ∧
    ∃ body, render "x".toList [-1, -128]
        = array_header "x".toList [(-1 : Int), -128].length ++ body ++ end_token ∧
      (body.filter (fun c => c ≠ '\n')).splitOn ','
        = [(-1 : Int), -128].map (fun c => fmt_unsigned (c % 256).toNat) ∧
      (∀ c ∈ [(-1 : Int), -128], (c % 256).toNat < 256 ∧ to_unsigned_char c = (c % 256).toNat) ∧
      '-' ∉ body :=
  ⟨by decide, elements_unsigned "x".toList [-1, -128] (by decide)⟩

/-- C6: the closing marker. For every identifier (one holding `,` included) and every
non-empty buffer of `n` bytes: the text before the replacement is header, element list and
one trailing `,`; the rendered literal is the same header and element list followed by
`};` and two line breaks, so exactly that `,` is gone; the element list ends with the
numeral of the last byte, whose last character is a digit and no separator; and the
element list holds exactly `n - 1` separators. -/
theorem closing_marker (id : Str) (binary_buffer : List Int) (hne : binary_buffer ≠ []) :
    ∃ body pre digits d,
      array_before_close id binary_buffer
        = array_header id binary_buffer.length ++ body ++ [','] ∧
      render id binary_buffer
        = array_header id binary_buffer.length ++ body ++ "\x7d;\n\n".toList ∧
      body = pre ++ digits ++ [d] ∧
      fmt_unsigned (to_unsigned_char (binary_buffer.getLast hne)) = digits ++ [d] ∧
      ('0' ≤ d ∧ d ≤ '9') ∧ d ≠ ',' ∧
      body.count ',' = binary_buffer.length - 1 := by
  have hne2 : binary_buffer.map to_unsigned_char ≠ [] := by simpa using hne
  obtain ⟨pre, hpre⟩ := elements_text_last (binary_buffer.map to_unsigned_char) 0 hne2
  have hlast : (binary_buffer.map to_unsigned_char).getLast hne2
      = to_unsigned_char (binary_buffer.getLast hne) := by
    rw [List.getLast_map]
  obtain ⟨digits, d, hd, hdc⟩ := fmt_unsigned_last (to_unsigned_char (binary_buffer.getLast hne))
  have hdig : '0' ≤ d ∧ d ≤ '9' :=
    fmt_unsigned_digits (to_unsigned_char (binary_buffer.getLast hne)) d (by rw [hd]; simp)
  refine ⟨elements_text (binary_buffer.map to_unsigned_char) 0, pre, digits, d, ?_, ?_, ?_, hd,
    hdig, ?_, ?_⟩
  · unfold array_before_close
    exact render_loop_eq binary_buffer 0 _ hne
  · exact render_eq id binary_buffer hne
  · rw [hpre, hlast, hd, List.append_assoc]
  · intro h
    rw [h] at hdig
    exact absurd hdig.1 (by decide)
  · rw [count_comma_elements_text, List.length_map]

/-- Witness of C6: an identifier with a `,` in it and three bytes. -/
theorem closing_marker_witness :
    render "a,b".toList [1, 20, 255] = "constexpr const char a,b[3] = \x7b\n1,20,255\x7d;\n\n".toList ∧
    ∃ body pre digits d,
      array_before_close "a,b".toList [1, 20, 255]
        = array_header "a,b".toList [(1 : Int), 20, 255].length ++ body ++ [','] ∧
      render "a,b".toList [1, 20, 255]
        = array_header "a,b".toList [(1 : Int), 20, 255].length ++ body ++ "\x7d;\n\n".toList ∧
      body = pre ++ digits ++ [d] ∧
      fmt_unsigned (to_unsigned_char ([(1 : Int), 20, 255].getLast (by decide))) = digits ++ [d] ∧
      ('0' ≤ d ∧ d ≤ '9') ∧ d ≠ ',' ∧
      body.count ',' = [(1 : Int), 20, 255].length - 1 :=
  ⟨by decide, closing_marker "a,b".toList [1, 20, 255] (by decide)⟩

/-! ## The loop over the source files -/

theorem to_unsigned_char_lt (c : Int) : to_unsigned_char c < 256 := by
  unfold to_unsigned_char
  omega

theorem fs_content_of_present (env : Env) (files : FileSystem) (p : Str)
    (h : file_present env files p = true) :
    ∃ content, fs_content env files p = some content := by
  unfold file_present at h
  obtain ⟨e, he, hp⟩ := List.any_eq_true.1 h
  unfold fs_content
  cases hf : files.find? (fun e => e.1 == env.file_id p) with
  | none =>
    have := List.find?_eq_none.1 hf e he
    exact absurd hp this
  | some e2 => exact ⟨e2.2, rfl⟩

theorem fs_content_of_not_present (env : Env) (files : FileSystem) (p : Str)
    (h : file_present env files p = false) : fs_content env files p = none := by
  unfold fs_content
  have : files.find? (fun e => e.1 == env.file_id p) = none := by
    apply List.find?_eq_none.2
    intro e he hk
    have : file_present env files p = true := List.any_eq_true.2 ⟨e, he, hk⟩
    rw [h] at this
    exact Bool.false_ne_true this
  rw [this]
  rfl

theorem fs_exists_ok_true (env : Env) (files : FileSystem) (p : Str)
    (h : fs_exists env files p = Except.ok true) :
    env.status_fails p = false ∧ file_present env files p = true := by
  unfold fs_exists at h
  by_cases hs : env.status_fails p = true
  · rw [if_pos hs] at h
    exact Except.noConfusion h
  · rw [if_neg hs] at h
    exact ⟨by simpa using hs, Except.ok.inj h⟩

theorem fs_file_size_ok (env : Env) (files : FileSystem) (p : Str) (n : Nat)
    (h : fs_file_size env files p = Except.ok n) :
    n = (file_bytes env files p).length ∧ env.status_fails p = false ∧
      file_present env files p = true := by
  unfold fs_file_size at h
  by_cases hs : env.status_fails p = true
  · rw [if_pos hs] at h
    exact Except.noConfusion h
  · rw [if_neg hs] at h
    cases hc : fs_content env files p with
    | none =>
      rw [hc] at h
      exact Except.noConfusion h
    | some content =>
      rw [hc] at h
      have hn : content.length = n := Except.ok.inj h
      refine ⟨by simp [file_bytes, hc, hn], by simpa using hs, ?_⟩
      by_contra hp
      have hp2 : file_present env files p = false := by simpa using hp
      rw [fs_content_of_not_present env files p hp2] at hc
      exact Option.noConfusion hc

theorem fs_file_size_of_exists (env : Env) (files : FileSystem) (p : Str)
    (h : fs_exists env files p = Except.ok true) :
    fs_file_size env files p = Except.ok (file_bytes env files p).length := by
  obtain ⟨hs, hp⟩ := fs_exists_ok_true env files p h
  obtain ⟨content, hc⟩ := fs_content_of_present env files p hp
  unfold fs_file_size
  rw [if_neg (by simp [hs]), hc]
  simp [file_bytes, hc]

theorem resources_read_cons (env : Env) (files : FileSystem) (p : Str) (rest : List Str) :
    resources_read env files (p :: rest)
      = (if 0 < (file_bytes env files p).length then
          [(resource_name p, read_buffer env files p (file_bytes env files p).length)]
        else []) ++ resources_read env files rest := by
  unfold resources_read
  rw [List.filter_cons]
  by_cases h : 0 < (file_bytes env files p).length
  · simp [h]
  · simp [h]

theorem process_files_ok (env : Env) (files : FileSystem) :
    ∀ (source_files : List Str) (result_data out : List file_entry),
      process_files env files source_files result_data = Except.ok out →
      out = result_data ++ (resources_read env files source_files).map entry_of ∧
        ∀ p ∈ source_files, fs_exists env files p = Except.ok true := by
  intro source_files
  induction source_files with
  | nil =>
    intro result_data out h
    rw [process_files] at h
    exact ⟨by simpa [resources_read] using (Except.ok.inj h).symm, by simp⟩
  | cons p rest ih =>
    intro result_data out h
    rw [process_files] at h
    cases hsz : fs_file_size env files p with
    | error e =>
      rw [hsz] at h
      exact Except.noConfusion h
    | ok n =>
      rw [hsz] at h
      obtain ⟨hn, hstat, hpres⟩ := fs_file_size_ok env files p n hsz
      have hex : fs_exists env files p = Except.ok true := by
        unfold fs_exists
        rw [if_neg (by simp [hstat]), hpres]
      simp only at h
      rw [resources_read_cons]
      by_cases hsize : n > 0
      · rw [if_pos hsize] at h
        obtain ⟨hout, hall⟩ := ih _ _ h
        refine ⟨?_, ?_⟩
        · rw [hout, if_pos (by omega), hn]
          simp [entry_of]
        · intro q hq
          rcases List.mem_cons.1 hq with hq | hq
          · rw [hq]; exact hex
          · exact hall q hq
      · rw [if_neg hsize] at h
        obtain ⟨hout, hall⟩ := ih _ _ h
        refine ⟨?_, ?_⟩
        · rw [hout, if_neg (by omega)]
          simp
        · intro q hq
          rcases List.mem_cons.1 hq with hq | hq
          · rw [hq]; exact hex
          · exact hall q hq

theorem process_files_eq (env : Env) (files : FileSystem) :
    ∀ (source_files : List Str) (result_data : List file_entry),
      (∀ p ∈ source_files, fs_exists env files p = Except.ok true) →
      process_files env files source_files result_data
        = Except.ok (result_data ++ (resources_read env files source_files).map entry_of) := by
  intro source_files
  induction source_files with
  | nil => intro result_data _; simp [process_files, resources_read]
  | cons p rest ih =>
    intro result_data hex
    have hrest : ∀ q ∈ rest, fs_exists env files q = Except.ok true :=
      fun q hq => hex q (by simp [hq])
    rw [process_files, fs_file_size_of_exists env files p (hex p (by simp)),
      resources_read_cons]
    simp only
    by_cases hsize : (file_bytes env files p).length > 0
    · rw [if_pos hsize, ih _ hrest, if_pos hsize]
      simp [entry_of]
    · rw [if_neg hsize, ih _ hrest, if_neg hsize]
      simp

theorem read_buffer_readable (env : Env) (files : FileSystem) (p : Str)
    (h : env.can_read p = true) :
    read_buffer env files p (file_bytes env files p).length
      = (file_bytes env files p).map (char_of_byte env.char_is_signed) := by
  unfold read_buffer file_bytes
  rw [if_pos h, List.take_length]

theorem read_buffer_length (env : Env) (files : FileSystem) (p : Str) :
    (read_buffer env files p (file_bytes env files p).length).length
      = (file_bytes env files p).length := by
  unfold read_buffer file_bytes
  by_cases h : env.can_read p = true
  · rw [if_pos h, List.take_length, List.length_map]
  · rw [if_neg h, List.length_replicate]

/-- C7: the compilation result. When every source file exists, the loop ends without an
exception and `result_data` holds, in the order of the source list, exactly one pair
(array literal, registration) for every source file of non-zero size and none for a file of
size zero; the number of pairs is the number of source files of non-zero size. The literal
of a pair renders the buffer the file was read into, which holds the bytes of the file when
the file can be read. -/
theorem compilation_result (env : Env) (files : FileSystem) (source_files : List Str)
    (hexists : ∀ p ∈ source_files, fs_exists env files p = Except.ok true) :
    ∃ result_data, process_files env files source_files [] = Except.ok result_data ∧
      result_data =
        (source_files.filter (fun p => decide (0 < (file_bytes env files p).length))).map
          (fun p => file_entry.mk
            (render (resource_name p)
              (read_buffer env files p (file_bytes env files p).length))
            (source_map_entry (resource_name p))) ∧
      result_data.length
        = source_files.countP (fun p => decide (0 < (file_bytes env files p).length)) ∧
      ∀ p, env.can_read p = true →
        read_buffer env files p (file_bytes env files p).length
          = (file_bytes env files p).map (char_of_byte env.char_is_signed) := by
  refine ⟨_, process_files_eq env files source_files [] hexists, ?_, ?_,
    fun p h => read_buffer_readable env files p h⟩
  · simp [resources_read, entry_of, List.map_map, Function.comp_def]
  · simp [resources_read, List.countP_eq_length_filter]

/-- Witness of C7: three source files, the second of size zero. -/
theorem compilation_result_witness :
    process_files (plain_env true (fun _ => true))
        [("a/x.bin".toList, [1, 2]), ("b".toList, []), ("c.d".toList, [200])]
        ["a/x.bin".toList, "b".toList, "c.d".toList] []
      = Except.ok
        [⟨"constexpr const char x_bin[2] = \x7b\n1,2\x7d;\n\n".toList,
          "  resources_.insert(\x7b\"x_bin\", std::string_view(x_bin, array_size(x_bin))\x7d);\n".toList⟩,
         ⟨"constexpr const char c_d[1] = \x7b\n200\x7d;\n\n".toList,
          "  resources_.insert(\x7b\"c_d\", std::string_view(c_d, array_size(c_d))\x7d);\n".toList⟩] ∧
    ∃ result_data, process_files (plain_env true (fun _ => true))
        [("a/x.bin".toList, [1, 2]), ("b".toList, []), ("c.d".toList, [200])]
        ["a/x.bin".toList, "b".toList, "c.d".toList] [] = Except.ok result_data ∧
      result_data =
        (["a/x.bin".toList, "b".toList, "c.d".toList].filter (fun p => decide (0 <
          (file_bytes (plain_env true (fun _ => true))
            [("a/x.bin".toList, [1, 2]), ("b".toList, []), ("c.d".toList, [200])]
            p).length))).map
          (fun p => file_entry.mk
            (render (resource_name p)
              (read_buffer (plain_env true (fun _ => true))
                [("a/x.bin".toList, [1, 2]), ("b".toList, []), ("c.d".toList, [200])] p
                (file_bytes (plain_env true (fun _ => true))
                  [("a/x.bin".toList, [1, 2]), ("b".toList, []), ("c.d".toList, [200])]
                  p).length))
            (source_map_entry (resource_name p))) ∧
      result_data.length
        = ["a/x.bin".toList, "b".toList, "c.d".toList].countP (fun p => decide (0 <
          (file_bytes (plain_env true (fun _ => true))
            [("a/x.bin".toList, [1, 2]), ("b".toList, []), ("c.d".toList, [200])]
            p).length)) ∧
      ∀ p, (plain_env true (fun _ => true)).can_read p = true →
        read_buffer (plain_env true (fun _ => true))
            [("a/x.bin".toList, [1, 2]), ("b".toList, []), ("c.d".toList, [200])] p
            (file_bytes (plain_env true (fun _ => true))
              [("a/x.bin".toList, [1, 2]), ("b".toList, []), ("c.d".toList, [200])] p).length
          = (file_bytes (plain_env true (fun _ => true))
              [("a/x.bin".toList, [1, 2]), ("b".toList, []), ("c.d".toList, [200])] p).map
            (char_of_byte (plain_env true (fun _ => true)).char_is_signed) :=
  ⟨rfl, compilation_result (plain_env true (fun _ => true))
    [("a/x.bin".toList, [1, 2]), ("b".toList, []), ("c.d".toList, [200])]
    ["a/x.bin".toList, "b".toList, "c.d".toList] (by
      intro p hp
      simp only [List.mem_cons, List.mem_singleton, List.not_mem_nil, or_false] at hp
      rcases hp with h | h | h <;> (rw [h]; rfl))⟩

/-! ## The two documents -/

theorem foldl_append_eq {α : Type} (f : α → Str) : ∀ (l : List α) (init : Str),
    l.foldl (fun acc x => acc ++ f x) init = init ++ (l.map f).flatten
  | [], init => by simp
  | x :: rest, init => by
    rw [List.foldl_cons, foldl_append_eq f rest (init ++ f x)]
    simp

theorem build_source_eq (header_filename : Str) (result_data : List file_entry) :
    build_source header_filename result_data =
      "#include \"".toList ++ header_filename ++ "\"\n\n/*".toList ++ kBanner ++ kSourceTop
        ++ (result_data.map (fun e => e.source_array_entry)).flatten ++ kSourceMiddle
        ++ (result_data.map (fun e => e.source_map_entry)).flatten ++ kSourceBottom := by
  unfold build_source
  simp only [foldl_append_eq]

theorem join_map_split {α : Type} (f : α → Str) (l : List α) (i : Nat) (h : i < l.length) :
    (l.map f).flatten =
      ((l.take i).map f).flatten ++ f (l.get ⟨i, h⟩) ++ ((l.drop (i + 1)).map f).flatten := by
  have hsplit : l = l.take i ++ l.get ⟨i, h⟩ :: l.drop (i + 1) := by
    conv_lhs => rw [← List.take_append_drop i l]
    congr 1
    exact List.drop_eq_getElem_cons h
  calc (l.map f).flatten
      = ((l.take i ++ l.get ⟨i, h⟩ :: l.drop (i + 1)).map f).flatten := by rw [← hsplit]
    _ = ((l.take i).map f).flatten ++ f (l.get ⟨i, h⟩)
          ++ ((l.drop (i + 1)).map f).flatten := by
      rw [List.map_append, List.map_cons, List.flatten_append, List.flatten_cons,
        List.append_assoc]

/-- C8: the order of the definition document. For every header file name and every ordered
list of entries the document is: preamble (include line, banner, `kSourceTop`), all array
literals in order, `kSourceMiddle`, all registrations in order, `kSourceBottom`. The text
`kSourceMiddle` is a helper section, the opening line of `manager::manager()` and a comment;
`kSourceBottom` is a comment, the closing brace of that routine and the accessor. Hence for
every position `i`, the document reads: preamble and the first `i` array literals, the
`i`-th array literal, the later literals and the helper section, the opening of the
initializer, the comment and the first `i` registrations, the `i`-th registration, the
later registrations and a comment, the closing brace of the initializer, the rest. -/
theorem definition_document_order (header_filename : Str) (result_data : List file_entry) :
    build_source header_filename result_data =
      ("#include \"".toList ++ header_filename ++ "\"\n\n/*".toList ++ kBanner ++ kSourceTop)
        ++ (result_data.map (fun e => e.source_array_entry)).flatten ++ kSourceMiddle
        ++ (result_data.map (fun e => e.source_map_entry)).flatten ++ kSourceBottom ∧
    ∃ helper comment_open comment_close rest,
      kSourceMiddle = helper ++ "manager::manager() \x7b\n".toList ++ comment_open ∧
      kSourceBottom = comment_close ++ "\x7d".toList ++ rest ∧
      comment_open = "  // resources list\n\n".toList ∧
      comment_close = "\n  // resources list\n".toList ∧
      ∀ (i : Nat) (h : i < result_data.length),
        build_source header_filename result_data =
          ("#include \"".toList ++ header_filename ++ "\"\n\n/*".toList ++ kBanner ++ kSourceTop
              ++ ((result_data.take i).map (fun e => e.source_array_entry)).flatten)
            ++ (result_data.get ⟨i, h⟩).source_array_entry
            ++ (((result_data.drop (i + 1)).map (fun e => e.source_array_entry)).flatten ++ helper)
            ++ "manager::manager() \x7b\n".toList
            ++ (comment_open ++ ((result_data.take i).map (fun e => e.source_map_entry)).flatten)
            ++ (result_data.get ⟨i, h⟩).source_map_entry
            ++ (((result_data.drop (i + 1)).map (fun e => e.source_map_entry)).flatten
              ++ comment_close)
            ++ "\x7d".toList ++ rest := by
  refine ⟨by rw [build_source_eq], kSourceMiddle.take 122, "  // resources list\n\n".toList,
    "\n  // resources list\n".toList, kSourceBottom.drop 22, rfl, rfl, rfl, rfl, ?_⟩
  intro i h
  have hmid : kSourceMiddle = kSourceMiddle.take 122 ++ "manager::manager() \x7b\n".toList
      ++ "  // resources list\n\n".toList := rfl
  have hbot : kSourceBottom = "\n  // resources list\n".toList ++ "\x7d".toList
      ++ kSourceBottom.drop 22 := rfl
  rw [build_source_eq, join_map_split (fun e => e.source_array_entry) result_data i h,
    join_map_split (fun e => e.source_map_entry) result_data i h]
  generalize kSourceMiddle.take 122 = helper at hmid ⊢
  generalize kSourceBottom.drop 22 = rest at hbot ⊢
  rw [hmid, hbot]
  simp only [List.append_assoc]

/-- Witness of C8: two entries, read at position 1. -/
theorem definition_document_order_witness :
    1 < [file_entry.mk "A0".toList "R0".toList, file_entry.mk "A1".toList "R1".toList].length ∧
    ∃ helper rest,
      kSourceMiddle = helper ++ "manager::manager() \x7b\n".toList
        ++ "  // resources list\n\n".toList ∧
      kSourceBottom = "\n  // resources list\n".toList ++ "\x7d".toList ++ rest ∧
      build_source "res.h".toList
          [file_entry.mk "A0".toList "R0".toList, file_entry.mk "A1".toList "R1".toList] =
        ("#include \"".toList ++ "res.h".toList ++ "\"\n\n/*".toList ++ kBanner ++ kSourceTop
            ++ "A0".toList)
          ++ "A1".toList ++ ([] ++ helper) ++ "manager::manager() \x7b\n".toList
          ++ ("  // resources list\n\n".toList ++ "R0".toList)
          ++ "R1".toList ++ ([] ++ "\n  // resources list\n".toList) ++ "\x7d".toList ++ rest := by
  obtain ⟨_, helper, comment_open, comment_close, rest, hmid, hbot, ho, hc, hall⟩ :=
    definition_document_order "res.h".toList
      [file_entry.mk "A0".toList "R0".toList, file_entry.mk "A1".toList "R1".toList]
  subst ho
  subst hc
  exact ⟨by decide, helper, rest, hmid, hbot, hall 1 (by decide)⟩

/-! ## The runs of `main` -/

theorem main_few_arguments (env : Env) (argv : List Str) (files : FileSystem)
    (h : argv.length < 2) :
    main env argv files = ⟨-1, ⟨files, []⟩⟩ := by
  unfold main
  rw [if_pos h]

theorem main_no_output (env : Env) (argv : List Str) (files : FileSystem)
    (hlen : 2 ≤ argv.length)
    (hout : (parse_arguments (argv.drop 1) [] none).2 = none ∨
      (parse_arguments (argv.drop 1) [] none).2 = some []) :
    main env argv files = ⟨-3, ⟨files, []⟩⟩ := by
  unfold main
  rw [if_neg (by omega)]
  rcases hparse : parse_arguments (argv.drop 1) [] none with ⟨source_files, output⟩
  rw [hparse] at hout
  rcases hout with hout | hout
  · simp only at hout
    subst hout
    rfl
  · simp only at hout
    subst hout
    simp

theorem main_run (env : Env) (argv : List Str) (files : FileSystem)
    (source_files : List Str) (output_file : Str)
    (hlen : 2 ≤ argv.length)
    (hargs : parse_arguments (argv.drop 1) [] none = (source_files, some output_file))
    (hout : output_file ≠ []) :
    main env argv files =
      match remove_stale env files (path_replace_extension output_file ".h".toList) with
      | Except.error _ => ⟨-255, ⟨files, []⟩⟩
      | Except.ok files1 =>
        match remove_stale env files1 (path_replace_extension output_file ".cpp".toList) with
        | Except.error _ => ⟨-255, ⟨files1, []⟩⟩
        | Except.ok files2 =>
          match process_files env files2 source_files [] with
          | Except.error _ => ⟨-255, ⟨files2, []⟩⟩
          | Except.ok result_data =>
            ⟨0, save_string_to_file env
              (save_string_to_file env ⟨files2, []⟩ build_header
                (path_replace_extension output_file ".h".toList))
              (build_source (path_filename (path_replace_extension output_file ".h".toList))
                result_data)
              (path_replace_extension output_file ".cpp".toList)⟩ := by
  unfold main
  rw [if_neg (by omega), hargs]
  have hlen0 : ¬ output_file.length = 0 := by
    intro h
    exact hout (List.length_eq_zero.1 h)
  simp only
  rw [if_neg hlen0]

theorem main_cases (argv : List Str) :
    argv.length < 2 ∨
    (2 ≤ argv.length ∧ ((parse_arguments (argv.drop 1) [] none).2 = none ∨
      (parse_arguments (argv.drop 1) [] none).2 = some [])) ∨
    ∃ source_files output_file, 2 ≤ argv.length ∧
      parse_arguments (argv.drop 1) [] none = (source_files, some output_file) ∧
      output_file ≠ [] := by
  by_cases hlen : argv.length < 2
  · exact Or.inl hlen
  · rcases hparse : parse_arguments (argv.drop 1) [] none with ⟨source_files, output⟩
    cases output with
    | none => exact Or.inr (Or.inl ⟨by omega, Or.inl rfl⟩)
    | some output_file =>
      by_cases hout : output_file = []
      · subst hout
        exact Or.inr (Or.inl ⟨by omega, Or.inr rfl⟩)
      · exact Or.inr (Or.inr ⟨source_files, output_file, by omega, rfl, hout⟩)

/-- A run of `main` either stops before the two documents are written, with a non-zero
exit code and nothing written, or ends with exit code 0 after the two calls of
`save_string_to_file` on the files left by the deletions, with the entries of a loop over
the source files that ended without an exception. -/
theorem main_outcome (env : Env) (argv : List Str) (files : FileSystem) :
    ((main env argv files).exit_code ≠ 0 ∧ (main env argv files).disk.written = []) ∨
    ∃ source_files output_file files1 files2 result_data,
      2 ≤ argv.length ∧
      parse_arguments (argv.drop 1) [] none = (source_files, some output_file) ∧
      output_file ≠ [] ∧
      remove_stale env files (path_replace_extension output_file ".h".toList)
        = Except.ok files1 ∧
      remove_stale env files1 (path_replace_extension output_file ".cpp".toList)
        = Except.ok files2 ∧
      process_files env files2 source_files [] = Except.ok result_data ∧
      main env argv files =
        ⟨0, save_string_to_file env
          (save_string_to_file env ⟨files2, []⟩ build_header
            (path_replace_extension output_file ".h".toList))
          (build_source (path_filename (path_replace_extension output_file ".h".toList))
            result_data)
          (path_replace_extension output_file ".cpp".toList)⟩ := by
  rcases main_cases argv with hlen | ⟨hlen, hno⟩ | ⟨source_files, output_file, hlen, hargs, hout⟩
  · rw [main_few_arguments env argv files hlen]
    exact Or.inl ⟨by simp, rfl⟩
  · rw [main_no_output env argv files hlen hno]
    exact Or.inl ⟨by simp, rfl⟩
  · have hrun := main_run env argv files source_files output_file hlen hargs hout
    cases h1 : remove_stale env files (path_replace_extension output_file ".h".toList) with
    | error e =>
      rw [h1] at hrun
      simp only at hrun
      rw [hrun]
      exact Or.inl ⟨by simp, rfl⟩
    | ok files1 =>
      rw [h1] at hrun
      simp only at hrun
      cases h2 : remove_stale env files1
          (path_replace_extension output_file ".cpp".toList) with
      | error e =>
        rw [h2] at hrun
        simp only at hrun
        rw [hrun]
        exact Or.inl ⟨by simp, rfl⟩
      | ok files2 =>
        rw [h2] at hrun
        simp only at hrun
        cases h3 : process_files env files2 source_files [] with
        | error e =>
          rw [h3] at hrun
          simp only at hrun
          rw [hrun]
          exact Or.inl ⟨by simp, rfl⟩
        | ok result_data =>
          rw [h3] at hrun
          simp only at hrun
          exact Or.inr ⟨source_files, output_file, files1, files2, result_data, hlen, hargs,
            hout, h1, h2, h3, hrun⟩

/-! ## What a run writes -/

theorem mem_written_save (env : Env) (disk : Disk) (data file_path : Str) (e : Str × Str)
    (h : e ∈ (save_string_to_file env disk data file_path).written) :
    e ∈ disk.written ∨ (e = (file_path, data) ∧ env.can_open file_path = true) := by
  unfold save_string_to_file at h
  by_cases hopen : env.can_open file_path = true
  · rw [if_pos hopen] at h
    rcases List.mem_append.1 h with h | h
    · exact Or.inl (List.mem_filter.1 h).1
    · exact Or.inr ⟨by simpa using h, hopen⟩
  · rw [if_neg hopen] at h
    exact Or.inl h

theorem save_twice_written (env : Env) (files : FileSystem) (d1 p1 d2 p2 : Str)
    (hne : p1 ≠ p2) :
    (save_string_to_file env (save_string_to_file env ⟨files, []⟩ d1 p1) d2 p2).written
      = (if env.can_open p1 then [(p1, d1)] else [])
        ++ (if env.can_open p2 then [(p2, d2)] else []) := by
  unfold save_string_to_file
  by_cases h1 : env.can_open p1 = true <;> by_cases h2 : env.can_open p2 = true <;>
    simp [h1, h2, hne]

theorem mem_written_main (env : Env) (argv : List Str) (files : FileSystem) (e : Str × Str)
    (h : e ∈ (main env argv files).disk.written) :
    ∃ output_file result_data,
      e = (path_replace_extension output_file ".h".toList, build_header) ∨
      e = (path_replace_extension output_file ".cpp".toList,
        build_source (path_filename (path_replace_extension output_file ".h".toList))
          result_data) := by
  rcases main_outcome env argv files with ⟨_, hnone⟩ |
    ⟨source_files, output_file, files1, files2, result_data, _, _, _, _, _, _, hmain⟩
  · rw [hnone] at h
    simp at h
  · rw [hmain] at h
    refine ⟨output_file, result_data, ?_⟩
    rcases mem_written_save _ _ _ _ e h with h | h
    · rcases mem_written_save _ _ _ _ e h with h | h
      · simp at h
      · exact Or.inl h.1
    · exact Or.inr h.1

theorem source_path_ends (output_file : Str) :
    ∃ stem, path_replace_extension output_file ".cpp".toList = stem ++ ".cpp".toList :=
  ⟨output_file.take (output_file.length - (path_extension output_file).length), by
    simp [path_replace_extension]⟩

theorem header_path_ends (output_file : Str) :
    ∃ stem, path_replace_extension output_file ".h".toList = stem ++ ".h".toList :=
  ⟨output_file.take (output_file.length - (path_extension output_file).length), by
    simp [path_replace_extension]⟩

theorem output_paths_differ (output_file : Str) :
    path_replace_extension output_file ".h".toList
      ≠ path_replace_extension output_file ".cpp".toList := by
  intro heq
  simp only [path_replace_extension] at heq
  have := List.append_cancel_left heq
  revert this
  decide

theorem written_header (env : Env) (argv : List Str) (files : FileSystem) (p d : Str)
    (h : (p, d) ∈ (main env argv files).disk.written) (hp : ∃ stem, p = stem ++ ".h".toList) :
    d = build_header := by
  obtain ⟨output_file, result_data, h | h⟩ := mem_written_main env argv files (p, d) h
  · exact (Prod.mk.inj h).2
  · exfalso
    obtain ⟨stem, hstem⟩ := hp
    obtain ⟨stem2, hstem2⟩ := source_path_ends output_file
    have hpath : stem ++ ".h".toList = stem2 ++ ".cpp".toList := by
      rw [← hstem, ← hstem2]; exact (Prod.mk.inj h).1
    have hlast := congrArg List.getLast? hpath
    simp at hlast

/-- C9: the declaration document. For any two runs of `main`, whatever their platforms,
arguments and files, a document written to a path with the extension `.h` (where `main`
writes the declaration document; the definition document goes to a `.cpp` path) is the
same text in both runs, namely `kHeaderTop ++ kBanner ++ kHeaderBottom`: it depends on no
source list, file content or number of resources. -/
theorem declaration_document_fixed (env1 env2 : Env) (argv1 argv2 : List Str)
    (files1 files2 : FileSystem) (p1 d1 p2 d2 : Str)
    (h1 : (p1, d1) ∈ (main env1 argv1 files1).disk.written)
    (hp1 : ∃ stem, p1 = stem ++ ".h".toList)
    (h2 : (p2, d2) ∈ (main env2 argv2 files2).disk.written)
    (hp2 : ∃ stem, p2 = stem ++ ".h".toList) :
    d1 = d2 ∧ d1 = kHeaderTop ++ kBanner ++ kHeaderBottom := by
  have e1 := written_header env1 argv1 files1 p1 d1 h1 hp1
  have e2 := written_header env2 argv2 files2 p2 d2 h2 hp2
  refine ⟨by rw [e1, e2], ?_⟩
  rw [e1]
  simp [build_header]

set_option maxRecDepth 100000 in
/-- Witness of C9: a run with no source file and a run with two source files, other
arguments, another platform; both write the same declaration document. -/
theorem declaration_document_fixed_witness :
    ((main (plain_env true (fun _ => true)) ["rc".toList, "--output=out/res".toList] []).exit_code = 0 ∧
     (main (plain_env false (fun _ => true))
        ["rc".toList, "--sources=a/hello.txt,b.bin".toList, "--output=gen/data".toList]
        [("a/hello.txt".toList, [72, 105]), ("b.bin".toList, [0, 255])]).exit_code = 0) ∧
    ("out/res.h".toList, kHeaderTop ++ kBanner ++ kHeaderBottom)
      ∈ (main (plain_env true (fun _ => true)) ["rc".toList, "--output=out/res".toList] []).disk.written ∧
    ("gen/data.h".toList, kHeaderTop ++ kBanner ++ kHeaderBottom)
      ∈ (main (plain_env false (fun _ => true))
        ["rc".toList, "--sources=a/hello.txt,b.bin".toList, "--output=gen/data".toList]
        [("a/hello.txt".toList, [72, 105]), ("b.bin".toList, [0, 255])]).disk.written ∧
    (kHeaderTop ++ kBanner ++ kHeaderBottom = kHeaderTop ++ kBanner ++ kHeaderBottom ∧
      kHeaderTop ++ kBanner ++ kHeaderBottom = kHeaderTop ++ kBanner ++ kHeaderBottom) :=
  ⟨by decide, by decide, by decide,
    declaration_document_fixed (plain_env true (fun _ => true)) (plain_env false (fun _ => true))
      ["rc".toList, "--output=out/res".toList]
      ["rc".toList, "--sources=a/hello.txt,b.bin".toList, "--output=gen/data".toList]
      [] [("a/hello.txt".toList, [72, 105]), ("b.bin".toList, [0, 255])]
      "out/res.h".toList (kHeaderTop ++ kBanner ++ kHeaderBottom)
      "gen/data.h".toList (kHeaderTop ++ kBanner ++ kHeaderBottom)
      (by decide) ⟨"out/res".toList, by decide⟩ (by decide) ⟨"gen/data".toList, by decide⟩⟩

/-! ## Slicing the source list -/

theorem splitOnP_no_sep (p : Char → Bool) : ∀ (xs : Str), ∀ l ∈ xs.splitOnP p, ∀ y ∈ l,
    p y = false := by
  intro xs
  induction xs with
  | nil => intro l hl y hy; simp at hl; subst hl; simp at hy
  | cons x xs ih =>
    intro l hl y hy
    rw [List.splitOnP_cons] at hl
    by_cases hx : p x = true
    · rw [if_pos hx] at hl
      rcases List.mem_cons.1 hl with hl | hl
      · subst hl; simp at hy
      · exact ih l hl y hy
    · rw [if_neg hx] at hl
      cases hsplit : xs.splitOnP p with
      | nil => exact absurd hsplit (List.splitOnP_ne_nil p xs)
      | cons hd tl =>
        rw [hsplit] at hl ih
        simp only [List.modifyHead_cons, List.mem_cons] at hl
        rcases hl with hl | hl
        · subst hl
          rcases List.mem_cons.1 hy with hy | hy
          · subst hy; simpa using hx
          · exact ih hd (by simp) y hy
        · exact ih l (by simp [hl]) y hy

theorem flatten_splitOnP (p : Char → Bool) : ∀ (xs : Str),
    (xs.splitOnP p).flatten = xs.filter (fun c => !p c) := by
  intro xs
  induction xs with
  | nil => simp
  | cons x xs ih =>
    rw [List.splitOnP_cons]
    by_cases hx : p x = true
    · rw [if_pos hx]
      simp [ih, hx]
    · rw [if_neg hx]
      cases hsplit : xs.splitOnP p with
      | nil => exact absurd hsplit (List.splitOnP_ne_nil p xs)
      | cons hd tl =>
        rw [hsplit] at ih
        have hx2 : p x = false := by simpa using hx
        simp only [List.modifyHead_cons, List.flatten_cons, List.cons_append, List.filter_cons,
          hx2, Bool.not_false, if_true]
        rw [← ih]
        simp

theorem flatten_filter_ne_nil : ∀ (ls : List Str),
    (ls.filter (fun piece => decide (piece ≠ []))).flatten = ls.flatten
  | [] => rfl
  | l :: rest => by
    have ih := flatten_filter_ne_nil rest
    by_cases h : l = []
    · have hd : decide (l ≠ []) = false := by simp [h]
      rw [List.filter_cons, hd, List.flatten_cons, h, List.nil_append]
      exact ih
    · have hd : decide (l ≠ []) = true := by simp [h]
      rw [List.filter_cons, hd, if_pos rfl, List.flatten_cons, List.flatten_cons, ih]

theorem slice_eq (pre seg rest : Str) (first current : Nat) (hf : first = pre.length)
    (hc : current = pre.length + seg.length) :
    ((pre ++ seg ++ rest).drop first).take (current - first) = seg := by
  subst hf
  subst hc
  simp

theorem flush_eq (s pre seg rest : Str) (first current : Nat) (container : List Str)
    (hs : s = pre ++ seg ++ rest) (hf : first = pre.length)
    (hc : current = pre.length + seg.length) :
    (if first ≠ current then container ++ [(s.drop first).take (current - first)]
      else container)
      = container ++ [seg].filter (fun piece => decide (piece ≠ [])) := by
  rw [hs, slice_eq pre seg rest first current hf hc]
  by_cases hnil : seg = []
  · have : first = current := by rw [hf, hc, hnil]; simp
    subst hnil
    simp [this]
  · have hlen : first ≠ current := by
      have : 0 < seg.length := List.length_pos.2 hnil
      omega
    simp [hlen, hnil]

theorem each_slice_view_loop_eq (s : Str) (delimiter : Char) :
    ∀ (rest pre seg : Str) (first current : Nat) (container : List Str),
      delimiter ∉ seg → s = pre ++ seg ++ rest → first = pre.length →
      current = pre.length + seg.length →
      ∀ (first2 current2 : Nat) (container2 : List Str),
        each_slice_view_loop s delimiter rest first current container
          = (first2, current2, container2) →
        (if first2 ≠ current2 then
            container2 ++ [(s.drop first2).take (current2 - first2)]
          else container2)
          = container
            ++ ((seg ++ rest).splitOn delimiter).filter (fun piece => decide (piece ≠ [])) := by
  intro rest
  induction rest with
  | nil =>
    intro pre seg first current container hseg hs hf hc first2 current2 container2 hloop
    have hsingle : (seg ++ []).splitOn delimiter = [seg] := by
      rw [List.append_nil]
      apply List.splitOnP_eq_single
      intro x hx hp
      exact hseg ((eq_of_beq hp) ▸ hx)
    rw [each_slice_view_loop] at hloop
    obtain ⟨h1, h2, h3⟩ := Prod.mk.inj hloop |>.imp id Prod.mk.inj
    subst h1 h2 h3
    rw [hsingle]
    exact flush_eq s pre seg [] first current container hs hf hc
  | cons c rest ih =>
    intro pre seg first current container hseg hs hf hc first2 current2 container2 hloop
    rw [each_slice_view_loop] at hloop
    by_cases hcd : c = delimiter
    · rw [if_pos hcd] at hloop
      subst hcd
      have hsplit : (seg ++ c :: rest).splitOn c = seg :: rest.splitOn c := by
        apply List.splitOnP_first
        · intro x hx hp
          exact hseg ((eq_of_beq hp) ▸ hx)
        · simp
      have hs2 : s = (pre ++ seg ++ [c]) ++ [] ++ rest := by rw [hs]; simp
      have hflush := flush_eq s pre seg (c :: rest) first current container hs hf hc
      simp only at hloop
      rw [hflush] at hloop
      have hnext := ih (pre ++ seg ++ [c]) [] (current + 1) (current + 1) _ (by simp) hs2
        (by rw [hc]; simp; omega) (by rw [hc]; simp; omega) first2 current2 container2 hloop
      rw [hnext, hsplit, List.filter_cons]
      by_cases hnil : seg = []
      · simp [hnil]
      · simp [hnil]
    · rw [if_neg hcd] at hloop
      have hseg2 : delimiter ∉ seg ++ [c] := by
        intro h
        rcases List.mem_append.1 h with h | h
        · exact hseg h
        · have hh : delimiter = c := by simpa using h
          exact hcd hh.symm
      have hs2 : s = pre ++ (seg ++ [c]) ++ rest := by rw [hs]; simp
      have hnext := ih pre (seg ++ [c]) first (current + 1) container hseg2 hs2 hf
        (by rw [hc]; simp; omega) first2 current2 container2 hloop
      rw [hnext]
      simp

theorem each_slice_view_eq (s : Str) (delimiter : Char) (container : List Str) :
    each_slice_view s delimiter container
      = container ++ (s.splitOn delimiter).filter (fun piece => decide (piece ≠ [])) := by
  unfold each_slice_view
  rcases hloop : each_slice_view_loop s delimiter s 0 0 container with ⟨first2, current2, c2⟩
  simp only
  have h := each_slice_view_loop_eq s delimiter s [] [] 0 0 container (by simp) (by simp)
    (by simp) (by simp) first2 current2 c2 hloop
  simpa using h

theorem begins_with_append (tag s : Str) : begins_with (tag ++ s) tag = true := by
  simp [begins_with]

/-- C11: the source list. For every text `s` given after `--sources=` and every container,
`each_slice_view` with the delimiter `,` appends to the container exactly the non-empty
pieces of `s` between commas, from left to right: no appended item is empty or holds a `,`,
the empty pieces of leading, trailing or repeated commas are skipped, the items
concatenated are `s` with its commas removed, and the argument `--sources=s` adds these
items to `source_files`. -/
theorem source_list_slices (s : Str) (container : List Str) (output_file : Option Str) :
    ∃ items, each_slice_view s ',' container = container ++ items ∧
      items = (s.splitOn ',').filter (fun piece => decide (piece ≠ [])) ∧
      (∀ item ∈ items, item ≠ [] ∧ ',' ∉ item) ∧
      items.flatten = s.filter (fun c => decide (c ≠ ',')) ∧
      parse_arguments [kSourcesListTag ++ s] container output_file
        = (container ++ items, output_file) := by
  refine ⟨_, each_slice_view_eq s ',' container, rfl, ?_, ?_, ?_⟩
  · intro item hitem
    obtain ⟨hmem, hne⟩ := List.mem_filter.1 hitem
    refine ⟨of_decide_eq_true hne, ?_⟩
    intro hcomma
    have := splitOnP_no_sep (fun c => c == ',') s item hmem ',' hcomma
    simp at this
  · rw [flatten_filter_ne_nil]
    have h := flatten_splitOnP (fun c => c == ',') s
    rw [List.splitOn, h]
    congr 1
    funext c
    by_cases hc : c = ','
    · simp [hc]
    · simp [hc]
  · rw [parse_arguments, if_pos (begins_with_append kSourcesListTag s)]
    simp only [List.drop_left, parse_arguments]
    rw [each_slice_view_eq]

/-- Witness of C11: leading, repeated and trailing commas. -/
theorem source_list_slices_witness :
    each_slice_view ",a,,bc,d,".toList ',' ["x".toList]
      = ["x".toList, "a".toList, "bc".toList, "d".toList] ∧
    ∃ items, each_slice_view ",a,,bc,d,".toList ',' ["x".toList] = ["x".toList] ++ items ∧
      items = (",a,,bc,d,".toList.splitOn ',').filter (fun piece => decide (piece ≠ [])) ∧
      (∀ item ∈ items, item ≠ [] ∧ ',' ∉ item) ∧
      items.flatten = ",a,,bc,d,".toList.filter (fun c => decide (c ≠ ',')) ∧
      parse_arguments [kSourcesListTag ++ ",a,,bc,d,".toList] ["x".toList] none
        = (["x".toList] ++ items, none) :=
  ⟨by decide, source_list_slices ",a,,bc,d,".toList ["x".toList] none⟩

/-! ## Faults of the file system -/

theorem process_files_can_open (env : Env) (can_open2 : Str → Bool) (files : FileSystem) :
    ∀ (source_files : List Str) (result_data : List file_entry),
      process_files { env with can_open := can_open2 } files source_files result_data
        = process_files env files source_files result_data := by
  intro source_files
  induction source_files with
  | nil => intro result_data; rfl
  | cons p rest ih =>
    intro result_data
    have hsize : fs_file_size { env with can_open := can_open2 } files p
        = fs_file_size env files p := rfl
    have hbuf : ∀ n, read_buffer { env with can_open := can_open2 } files p n
        = read_buffer env files p n := fun _ => rfl
    rw [process_files, process_files, hsize]
    cases fs_file_size env files p with
    | error e => rfl
    | ok n =>
      simp only
      by_cases hn : n > 0
      · rw [if_pos hn, if_pos hn, hbuf, ih]
      · rw [if_neg hn, if_neg hn, ih]

theorem remove_stale_can_open (env : Env) (can_open2 : Str → Bool) (files : FileSystem)
    (p : Str) :
    remove_stale { env with can_open := can_open2 } files p = remove_stale env files p := rfl

theorem mem_drop_file (env : Env) (files : FileSystem) (p : Str) (e : Str × List Nat)
    (h : e ∈ drop_file env files p) : e ∈ files :=
  (List.mem_filter.1 h).1

theorem file_present_drop_self (env : Env) (files : FileSystem) (p : Str) :
    file_present env (drop_file env files p) p = false := by
  rw [Bool.eq_false_iff]
  intro hex
  obtain ⟨e, he, hk⟩ := List.any_eq_true.1 hex
  have hne := (List.mem_filter.1 he).2
  have hk2 : e.1 = env.file_id p := by simpa using hk
  simp [hk2] at hne

theorem file_present_of_subset (env : Env) (files files2 : FileSystem) (p : Str)
    (hsub : ∀ e ∈ files2, e ∈ files) (h : file_present env files p = false) :
    file_present env files2 p = false := by
  rw [Bool.eq_false_iff] at h ⊢
  intro hex
  obtain ⟨e, he, hk⟩ := List.any_eq_true.1 hex
  exact h (List.any_eq_true.2 ⟨e, hsub e he, hk⟩)

theorem drop_file_of_not_present (env : Env) (files : FileSystem) (p : Str)
    (h : file_present env files p = false) : drop_file env files p = files := by
  unfold drop_file
  apply List.filter_eq_self.2
  intro e he
  have : ¬ (e.1 == env.file_id p) = true := by
    intro hk
    have : file_present env files p = true := List.any_eq_true.2 ⟨e, he, hk⟩
    rw [h] at this
    exact Bool.false_ne_true this
  simpa using this

theorem remove_stale_ok (env : Env) (files files2 : FileSystem) (p : Str)
    (h : remove_stale env files p = Except.ok files2) :
    files2 = drop_file env files p ∧ env.status_fails p = false := by
  unfold remove_stale fs_exists at h
  by_cases hs : env.status_fails p = true
  · rw [if_pos hs] at h
    exact Except.noConfusion h
  · rw [if_neg hs] at h
    have hs2 : env.status_fails p = false := by simpa using hs
    cases hp : file_present env files p with
    | false =>
      rw [hp] at h
      simp only at h
      exact ⟨by rw [drop_file_of_not_present env files p hp]; exact (Except.ok.inj h).symm, hs2⟩
    | true =>
      rw [hp] at h
      simp only at h
      unfold fs_remove at h
      rw [hp, if_pos rfl] at h
      by_cases hr : env.can_remove p = true
      · rw [if_pos hr] at h
        exact ⟨(Except.ok.inj h).symm, hs2⟩
      · rw [if_neg hr] at h
        exact Except.noConfusion h

theorem remove_stale_of_ok (env : Env) (files : FileSystem) (p : Str)
    (hs : env.status_fails p = false) (hr : env.can_remove p = true) :
    remove_stale env files p = Except.ok (drop_file env files p) := by
  unfold remove_stale fs_exists
  rw [if_neg (by simp [hs])]
  cases hp : file_present env files p with
  | false =>
    simp only
    rw [drop_file_of_not_present env files p hp]
  | true =>
    simp only
    unfold fs_remove
    rw [hp, if_pos rfl, if_pos hr]

theorem process_files_missing (env : Env) (files : FileSystem) :
    ∀ (source_files : List Str) (result_data : List file_entry),
      (∃ p ∈ source_files, file_present env files p = false) →
      ∃ e, process_files env files source_files result_data = Except.error e := by
  intro source_files result_data hmissing
  cases h : process_files env files source_files result_data with
  | error e => exact ⟨e, rfl⟩
  | ok out =>
    exfalso
    obtain ⟨p, hp, hmiss⟩ := hmissing
    have hex := (process_files_ok env files source_files result_data out h).2 p hp
    have hpres := (fs_exists_ok_true env files p hex).2
    rw [hmiss] at hpres
    exact Bool.false_ne_true hpres

/-- Counterexample to C12 as stated: a run with a valid output path in which no output
file can be opened for writing. It writes nothing and ends with exit code 0, not -255. -/
theorem unwritable_output_exits_zero :
    (main (plain_env true (fun _ => false))
      ["rc".toList, "--output=out/res".toList] []).exit_code = 0 ∧
    (main (plain_env true (fun _ => false))
      ["rc".toList, "--output=out/res".toList] []).disk.written = [] ∧
    (main (plain_env true (fun _ => false))
      ["rc".toList, "--output=out/res".toList] []).exit_code ≠ -255 := by
  decide

/-- C12 as amended: an output file that cannot be opened for writing is not fatal.
`save_string_to_file` writes nothing to a path that does not open and raises no exception:
whether the output files open has no effect on the exit code of a run. A run in which the
checks and deletions of the two output paths and the loop over the source files end
without an exception ends with exit code 0; in a run that ends with 0 each of the two
documents is written exactly when its own path opens; and a run ends with -255 only when
one of those file system steps throws. -/
theorem unwritable_output_not_fatal (env : Env) (argv : List Str) (files : FileSystem) :
    (∀ e ∈ (main env argv files).disk.written, env.can_open e.1 = true) ∧
    (∀ can_open2 : Str → Bool,
      (main { env with can_open := can_open2 } argv files).exit_code
        = (main env argv files).exit_code) ∧
    (∀ (source_files : List Str) (output_file : Str) (files1 files2 : FileSystem)
        (result_data : List file_entry),
      2 ≤ argv.length →
      parse_arguments (argv.drop 1) [] none = (source_files, some output_file) →
      output_file ≠ [] →
      remove_stale env files (path_replace_extension output_file ".h".toList)
        = Except.ok files1 →
      remove_stale env files1 (path_replace_extension output_file ".cpp".toList)
        = Except.ok files2 →
      process_files env files2 source_files [] = Except.ok result_data →
      (main env argv files).exit_code = 0) ∧
    ((main env argv files).exit_code = 0 →
      ∃ header_path source_path header_document source_document,
        header_path ≠ source_path ∧
        (main env argv files).disk.written
          = (if env.can_open header_path then [(header_path, header_document)] else [])
            ++ (if env.can_open source_path then [(source_path, source_document)]
              else [])) ∧
    ((main env argv files).exit_code = -255 →
      ∃ (source_files : List Str) (output_file : Str),
        parse_arguments (argv.drop 1) [] none = (source_files, some output_file) ∧
        ((∃ e, remove_stale env files (path_replace_extension output_file ".h".toList)
            = Except.error e) ∨
          ∃ files1, remove_stale env files (path_replace_extension output_file ".h".toList)
              = Except.ok files1 ∧
            ((∃ e, remove_stale env files1
                (path_replace_extension output_file ".cpp".toList) = Except.error e) ∨
              ∃ files2 e, remove_stale env files1
                  (path_replace_extension output_file ".cpp".toList) = Except.ok files2 ∧
                process_files env files2 source_files [] = Except.error e))) := by
  refine ⟨?_, ?_, ?_, ?_, ?_⟩
  · intro e he
    rcases main_outcome env argv files with ⟨_, hnone⟩ |
      ⟨_, _, _, _, _, _, _, _, _, _, _, hmain⟩
    · rw [hnone] at he
      simp at he
    · rw [hmain] at he
      rcases mem_written_save _ _ _ _ e he with he | ⟨he, hopen⟩
      · rcases mem_written_save _ _ _ _ e he with he | ⟨he, hopen⟩
        · simp at he
        · rw [he]; exact hopen
      · rw [he]; exact hopen
  · intro can_open2
    rcases main_cases argv with hlen | ⟨hlen, hno⟩ |
      ⟨source_files, output_file, hlen, hargs, hout⟩
    · rw [main_few_arguments env argv files hlen, main_few_arguments _ argv files hlen]
    · rw [main_no_output env argv files hlen hno, main_no_output _ argv files hlen hno]
    · rw [main_run env argv files source_files output_file hlen hargs hout,
        main_run _ argv files source_files output_file hlen hargs hout,
        remove_stale_can_open]
      cases remove_stale env files (path_replace_extension output_file ".h".toList) with
      | error e => rfl
      | ok files1 =>
        simp only
        rw [remove_stale_can_open]
        cases remove_stale env files1 (path_replace_extension output_file ".cpp".toList) with
        | error e => rfl
        | ok files2 =>
          simp only
          rw [process_files_can_open]
          cases process_files env files2 source_files [] with
          | error e => rfl
          | ok result_data => rfl
  · intro source_files output_file files1 files2 result_data hlen hargs hout h1 h2 h3
    rw [main_run env argv files source_files output_file hlen hargs hout, h1]
    simp only
    rw [h2]
    simp only
    rw [h3]
  · intro hexit
    rcases main_outcome env argv files with ⟨hne, _⟩ |
      ⟨_, output_file, _, files2, _, _, _, _, _, _, _, hmain⟩
    · exact absurd hexit hne
    · rw [hmain]
      exact ⟨_, _, _, _, output_paths_differ output_file,
        save_twice_written env files2 _ _ _ _ (output_paths_differ output_file)⟩
  · intro hexit
    rcases main_cases argv with hlen | ⟨hlen, hno⟩ |
      ⟨source_files, output_file, hlen, hargs, hout⟩
    · rw [main_few_arguments env argv files hlen] at hexit
      simp at hexit
    · rw [main_no_output env argv files hlen hno] at hexit
      simp at hexit
    · refine ⟨source_files, output_file, hargs, ?_⟩
      rw [main_run env argv files source_files output_file hlen hargs hout] at hexit
      cases h1 : remove_stale env files (path_replace_extension output_file ".h".toList) with
      | error e => exact Or.inl ⟨e, rfl⟩
      | ok files1 =>
        refine Or.inr ⟨files1, rfl, ?_⟩
        rw [h1] at hexit
        simp only at hexit
        cases h2 : remove_stale env files1
            (path_replace_extension output_file ".cpp".toList) with
        | error e => exact Or.inl ⟨e, rfl⟩
        | ok files2 =>
          refine Or.inr ⟨files2, ?_⟩
          rw [h2] at hexit
          simp only at hexit
          cases h3 : process_files env files2 source_files [] with
          | error e => exact ⟨e, rfl, rfl⟩
          | ok result_data =>
            rw [h3] at hexit
            simp at hexit

set_option maxRecDepth 100000 in
/-- Witness of the amended C12: the header path opens, the source path does not; the
header is written, the definition document is not, and the exit code is 0 as in the run in
which both paths open. -/
theorem unwritable_output_not_fatal_witness :
    (main (plain_env true (fun p => p == "out/res.h".toList))
        ["rc".toList, "--output=out/res".toList] []).exit_code = 0 ∧
    (main (plain_env true (fun p => p == "out/res.h".toList))
        ["rc".toList, "--output=out/res".toList] []).disk.written
      = [("out/res.h".toList, build_header)] ∧
    (main { plain_env true (fun p => p == "out/res.h".toList) with
          can_open := fun _ => true }
        ["rc".toList, "--output=out/res".toList] []).exit_code
      = (main (plain_env true (fun p => p == "out/res.h".toList))
        ["rc".toList, "--output=out/res".toList] []).exit_code ∧
    (main (plain_env true (fun p => p == "out/res.h".toList))
        ["rc".toList, "--output=out/res".toList] []).exit_code = 0 :=
  ⟨by decide, rfl,
    (unwritable_output_not_fatal (plain_env true (fun p => p == "out/res.h".toList))
      ["rc".toList, "--output=out/res".toList] []).2.1 (fun _ => true),
    (unwritable_output_not_fatal (plain_env true (fun p => p == "out/res.h".toList))
      ["rc".toList, "--output=out/res".toList] []).2.2.1 [] "out/res".toList [] [] []
      (by decide) (by decide) (by decide) rfl rfl rfl⟩

theorem begins_with_sources_not_output (a : Str) (h : begins_with a kSourcesListTag = true) :
    begins_with a kOutputPathTag = false := by
  unfold begins_with at h
  have htake : a.take kSourcesListTag.length = kSourcesListTag := by
    simp only [Bool.and_eq_true] at h
    exact eq_of_beq h.2
  have ha : a = kSourcesListTag ++ a.drop kSourcesListTag.length := by
    conv_lhs => rw [← List.take_append_drop kSourcesListTag.length a, htake]
  have htag : kSourcesListTag = ['-', '-', 's', 'o', 'u', 'r', 'c', 'e', 's', '='] := by decide
  have hout : kOutputPathTag = ['-', '-', 'o', 'u', 't', 'p', 'u', 't', '='] := by decide
  rw [ha, htag, hout]
  simp [begins_with]

theorem parse_arguments_output : ∀ (args source_files : List Str) (output_file : Option Str),
    (parse_arguments args source_files output_file).2 =
      match (args.filter (fun a => begins_with a kOutputPathTag)).getLast? with
      | none => output_file
      | some a => some (a.drop kOutputPathTag.length)
  | [], source_files, output_file => rfl
  | a :: rest, source_files, output_file => by
    rw [parse_arguments]
    by_cases hs : begins_with a kSourcesListTag = true
    · rw [if_pos hs, parse_arguments_output rest, List.filter_cons,
        begins_with_sources_not_output a hs]
      rfl
    · rw [if_neg hs]
      by_cases ho : begins_with a kOutputPathTag = true
      · rw [if_pos ho, parse_arguments_output rest, List.filter_cons, ho, if_pos rfl]
        cases hf : rest.filter (fun a => begins_with a kOutputPathTag) with
        | nil => rfl
        | cons c tl =>
          rw [List.getLast?_cons_cons, List.getLast?_eq_getLast _ (List.cons_ne_nil c tl)]
      · rw [if_neg ho, parse_arguments_output rest, List.filter_cons]
        have ho2 : begins_with a kOutputPathTag = false := by simpa using ho
        rw [ho2]
        rfl

/-- C13: usage errors. Called with no argument (only the program name, or not even that)
`main` returns -1. Called with at least one argument, it returns -3 when no argument begins
with `--output=` or when the last argument that does has an empty value, whatever
`--sources=` arguments and unknown options there are. In both cases the files are left as
they were found and nothing is written, for every file system: no file is looked at. -/
theorem usage_errors (env : Env) (argv : List Str) (files : FileSystem) :
    (argv.length < 2 →
      (main env argv files).exit_code = -1 ∧ (main env argv files).disk.files = files ∧
        (main env argv files).disk.written = []) ∧
    (2 ≤ argv.length →
      ((argv.drop 1).filter (fun a => begins_with a kOutputPathTag) = [] ∨
        ∃ a, ((argv.drop 1).filter (fun a => begins_with a kOutputPathTag)).getLast? = some a ∧
          a.drop kOutputPathTag.length = []) →
      (main env argv files).exit_code = -3 ∧ (main env argv files).disk.files = files ∧
        (main env argv files).disk.written = []) := by
  constructor
  · intro hlen
    rw [main_few_arguments env argv files hlen]
    exact ⟨rfl, rfl, rfl⟩
  · intro hlen hout
    have hno : (parse_arguments (argv.drop 1) [] none).2 = none ∨
        (parse_arguments (argv.drop 1) [] none).2 = some [] := by
      rw [parse_arguments_output]
      rcases hout with hnil | ⟨a, hlast, hempty⟩
      · rw [hnil]; exact Or.inl rfl
      · rw [hlast]; exact Or.inr (by simp only; rw [hempty])
    rw [main_no_output env argv files hlen hno]
    exact ⟨rfl, rfl, rfl⟩

/-- Witness of C13: no argument; sources and an unknown option but no output; an output
argument followed by one with an empty value. -/
theorem usage_errors_witness :
    ((main (plain_env true (fun _ => true)) ["rc".toList] [("a".toList, [1])]).exit_code = -1 ∧
      (main (plain_env true (fun _ => true)) ["rc".toList] [("a".toList, [1])]).disk.files
        = [("a".toList, [1])] ∧
      (main (plain_env true (fun _ => true)) ["rc".toList] [("a".toList, [1])]).disk.written = []) ∧
    ((main (plain_env true (fun _ => true)) ["rc".toList, "--sources=a,zz".toList, "-v".toList]
        [("a".toList, [1])]).exit_code = -3 ∧
      (main (plain_env true (fun _ => true)) ["rc".toList, "--sources=a,zz".toList, "-v".toList]
        [("a".toList, [1])]).disk.files = [("a".toList, [1])] ∧
      (main (plain_env true (fun _ => true)) ["rc".toList, "--sources=a,zz".toList, "-v".toList]
        [("a".toList, [1])]).disk.written = []) ∧
    ((main (plain_env true (fun _ => true)) ["rc".toList, "--output=a".toList, "--output=".toList]
        [("a.h".toList, [1])]).exit_code = -3 ∧
      (main (plain_env true (fun _ => true)) ["rc".toList, "--output=a".toList, "--output=".toList]
        [("a.h".toList, [1])]).disk.files = [("a.h".toList, [1])] ∧
      (main (plain_env true (fun _ => true)) ["rc".toList, "--output=a".toList, "--output=".toList]
        [("a.h".toList, [1])]).disk.written = []) :=
  ⟨(usage_errors (plain_env true (fun _ => true)) ["rc".toList] [("a".toList, [1])]).1 (by decide),
    (usage_errors (plain_env true (fun _ => true)) ["rc".toList, "--sources=a,zz".toList, "-v".toList]
      [("a".toList, [1])]).2 (by decide) (Or.inl (by decide)),
    (usage_errors (plain_env true (fun _ => true)) ["rc".toList, "--output=a".toList, "--output=".toList]
      [("a.h".toList, [1])]).2 (by decide) (Or.inr ⟨"--output=".toList, by decide, by decide⟩)⟩

/-- Counterexample to C14 as stated: the file at the header path cannot be removed
(`fs::remove` throws) and the source does not exist. The run ends with -255 and writes
nothing, but the file that was at the header path before the run is still there. -/
theorem stale_output_not_deleted :
    (main no_remove_env ["rc".toList, "--sources=gone.bin".toList, "--output=out/res".toList]
        [("out/res.h".toList, [2])]).exit_code = -255 ∧
    (main no_remove_env ["rc".toList, "--sources=gone.bin".toList, "--output=out/res".toList]
        [("out/res.h".toList, [2])]).disk.written = [] ∧
    file_present no_remove_env [("out/res.h".toList, [2])] "gone.bin".toList = false ∧
    file_present no_remove_env [("out/res.h".toList, [2])] "out/res.h".toList = true ∧
    file_present no_remove_env
      (main no_remove_env ["rc".toList, "--sources=gone.bin".toList, "--output=out/res".toList]
        [("out/res.h".toList, [2])]).disk.files "out/res.h".toList = true := by
  decide

/-- C14 as amended: a missing source file. In a run with an output path, when some path of
the source list does not exist, `main` returns -255 and writes neither document, also when
the files before the missing one were read, and no file is added or changed. When the
status of the two output paths can be read and a file found there can be removed, the
files left are the files found without the two output paths: a file that was at the header
path or at the source path is deleted and stays deleted. -/
theorem missing_source_file (env : Env) (argv : List Str) (files : FileSystem)
    (source_files : List Str) (output_file : Str)
    (hlen : 2 ≤ argv.length)
    (hargs : parse_arguments (argv.drop 1) [] none = (source_files, some output_file))
    (hout : output_file ≠ [])
    (hmissing : ∃ p ∈ source_files, file_present env files p = false) :
    (main env argv files).exit_code = -255 ∧
    (main env argv files).disk.written = [] ∧
    (∀ e ∈ (main env argv files).disk.files, e ∈ files) ∧
    (env.status_fails (path_replace_extension output_file ".h".toList) = false →
      env.can_remove (path_replace_extension output_file ".h".toList) = true →
      env.status_fails (path_replace_extension output_file ".cpp".toList) = false →
      env.can_remove (path_replace_extension output_file ".cpp".toList) = true →
      (main env argv files).disk.files
        = drop_file env (drop_file env files (path_replace_extension output_file ".h".toList))
            (path_replace_extension output_file ".cpp".toList) ∧
      file_present env (main env argv files).disk.files
        (path_replace_extension output_file ".h".toList) = false ∧
      file_present env (main env argv files).disk.files
        (path_replace_extension output_file ".cpp".toList) = false) := by
  have hrun := main_run env argv files source_files output_file hlen hargs hout
  have hkey : ∀ files2 : FileSystem, (∀ e ∈ files2, e ∈ files) →
      ∃ e, process_files env files2 source_files [] = Except.error e := by
    intro files2 hsub
    obtain ⟨p, hp, hex⟩ := hmissing
    exact process_files_missing env files2 source_files []
      ⟨p, hp, file_present_of_subset env files files2 p hsub hex⟩
  refine ⟨?_, ?_, ?_, ?_⟩
  · rw [hrun]
    cases h1 : remove_stale env files (path_replace_extension output_file ".h".toList) with
    | error e => rfl
    | ok files1 =>
      simp only
      cases h2 : remove_stale env files1
          (path_replace_extension output_file ".cpp".toList) with
      | error e => rfl
      | ok files2 =>
        simp only
        obtain ⟨e, herr⟩ := hkey files2 (by
          intro x hx
          rw [(remove_stale_ok env files1 files2 _ h2).1] at hx
          have hx1 := mem_drop_file env files1 _ x hx
          rw [(remove_stale_ok env files files1 _ h1).1] at hx1
          exact mem_drop_file env files _ x hx1)
        rw [herr]
  · rw [hrun]
    cases h1 : remove_stale env files (path_replace_extension output_file ".h".toList) with
    | error e => rfl
    | ok files1 =>
      simp only
      cases h2 : remove_stale env files1
          (path_replace_extension output_file ".cpp".toList) with
      | error e => rfl
      | ok files2 =>
        simp only
        cases h3 : process_files env files2 source_files [] with
        | error e => rfl
        | ok result_data =>
          obtain ⟨e, herr⟩ := hkey files2 (by
            intro x hx
            rw [(remove_stale_ok env files1 files2 _ h2).1] at hx
            have hx1 := mem_drop_file env files1 _ x hx
            rw [(remove_stale_ok env files files1 _ h1).1] at hx1
            exact mem_drop_file env files _ x hx1)
          rw [h3] at herr
          exact Except.noConfusion herr
  · rw [hrun]
    cases h1 : remove_stale env files (path_replace_extension output_file ".h".toList) with
    | error e => exact fun x hx => hx
    | ok files1 =>
      simp only
      have hsub1 : ∀ x ∈ files1, x ∈ files := by
        intro x hx
        rw [(remove_stale_ok env files files1 _ h1).1] at hx
        exact mem_drop_file env files _ x hx
      cases h2 : remove_stale env files1
          (path_replace_extension output_file ".cpp".toList) with
      | error e => exact hsub1
      | ok files2 =>
        simp only
        have hsub2 : ∀ x ∈ files2, x ∈ files := by
          intro x hx
          rw [(remove_stale_ok env files1 files2 _ h2).1] at hx
          exact hsub1 x (mem_drop_file env files1 _ x hx)
        obtain ⟨e, herr⟩ := hkey files2 hsub2
        rw [herr]
        exact hsub2
  · intro hs1 hr1 hs2 hr2
    have hfiles : (main env argv files).disk.files
        = drop_file env (drop_file env files (path_replace_extension output_file ".h".toList))
            (path_replace_extension output_file ".cpp".toList) := by
      rw [hrun, remove_stale_of_ok env files _ hs1 hr1]
      simp only
      rw [remove_stale_of_ok env _ _ hs2 hr2]
      simp only
      obtain ⟨e, herr⟩ := hkey (drop_file env (drop_file env files
          (path_replace_extension output_file ".h".toList))
          (path_replace_extension output_file ".cpp".toList)) (by
        intro x hx
        exact mem_drop_file env files _ x (mem_drop_file env _ _ x hx))
      rw [herr]
    refine ⟨hfiles, ?_, ?_⟩
    · rw [hfiles]
      exact file_present_of_subset env _ _ _ (fun x hx => mem_drop_file env _ _ x hx)
        (file_present_drop_self env files _)
    · rw [hfiles]
      exact file_present_drop_self env _ _

set_option maxRecDepth 100000 in
/-- Witness of the amended C14: the first source file exists, the second does not, and both
output paths hold a file before the run; afterwards only the source file is left. -/
theorem missing_source_file_witness :
    (main (plain_env true (fun _ => true))
        ["rc".toList, "--sources=a.bin,gone.bin".toList, "--output=out/res".toList]
        [("a.bin".toList, [1]), ("out/res.h".toList, [2]), ("out/res.cpp".toList, [3])]).disk.files
      = [("a.bin".toList, [1])] ∧
    ((main (plain_env true (fun _ => true))
        ["rc".toList, "--sources=a.bin,gone.bin".toList, "--output=out/res".toList]
        [("a.bin".toList, [1]), ("out/res.h".toList, [2]), ("out/res.cpp".toList, [3])]).exit_code
      = -255 ∧
    (main (plain_env true (fun _ => true))
        ["rc".toList, "--sources=a.bin,gone.bin".toList, "--output=out/res".toList]
        [("a.bin".toList, [1]), ("out/res.h".toList, [2]), ("out/res.cpp".toList, [3])]).disk.written
      = [] ∧
    (∀ e ∈ (main (plain_env true (fun _ => true))
        ["rc".toList, "--sources=a.bin,gone.bin".toList, "--output=out/res".toList]
        [("a.bin".toList, [1]), ("out/res.h".toList, [2]),
          ("out/res.cpp".toList, [3])]).disk.files,
      e ∈ [("a.bin".toList, [1]), ("out/res.h".toList, [2]), ("out/res.cpp".toList, [3])]) ∧
    ((plain_env true (fun _ => true)).status_fails
        (path_replace_extension "out/res".toList ".h".toList) = false →
      (plain_env true (fun _ => true)).can_remove
        (path_replace_extension "out/res".toList ".h".toList) = true →
      (plain_env true (fun _ => true)).status_fails
        (path_replace_extension "out/res".toList ".cpp".toList) = false →
      (plain_env true (fun _ => true)).can_remove
        (path_replace_extension "out/res".toList ".cpp".toList) = true →
      (main (plain_env true (fun _ => true))
        ["rc".toList, "--sources=a.bin,gone.bin".toList, "--output=out/res".toList]
        [("a.bin".toList, [1]), ("out/res.h".toList, [2]), ("out/res.cpp".toList, [3])]).disk.files
        = drop_file (plain_env true (fun _ => true))
            (drop_file (plain_env true (fun _ => true))
              [("a.bin".toList, [1]), ("out/res.h".toList, [2]), ("out/res.cpp".toList, [3])]
              (path_replace_extension "out/res".toList ".h".toList))
            (path_replace_extension "out/res".toList ".cpp".toList) ∧
      file_present (plain_env true (fun _ => true))
        (main (plain_env true (fun _ => true))
        ["rc".toList, "--sources=a.bin,gone.bin".toList, "--output=out/res".toList]
        [("a.bin".toList, [1]), ("out/res.h".toList, [2]), ("out/res.cpp".toList, [3])]).disk.files
        (path_replace_extension "out/res".toList ".h".toList) = false ∧
      file_present (plain_env true (fun _ => true))
        (main (plain_env true (fun _ => true))
        ["rc".toList, "--sources=a.bin,gone.bin".toList, "--output=out/res".toList]
        [("a.bin".toList, [1]), ("out/res.h".toList, [2]), ("out/res.cpp".toList, [3])]).disk.files
        (path_replace_extension "out/res".toList ".cpp".toList) = false)) :=
  ⟨by decide,
    missing_source_file (plain_env true (fun _ => true))
      ["rc".toList, "--sources=a.bin,gone.bin".toList, "--output=out/res".toList]
      [("a.bin".toList, [1]), ("out/res.h".toList, [2]), ("out/res.cpp".toList, [3])]
      ["a.bin".toList, "gone.bin".toList] "out/res".toList (by decide) (by decide) (by decide)
      ⟨"gone.bin".toList, by decide, by decide⟩⟩

/-! ## The element loop, line by line -/

theorem render_loop_text : ∀ (cs : List Int) (k : Nat) (acc : Str),
    render_loop cs k acc = acc ++ loop_text cs k := by
  intro cs
  induction cs with
  | nil => intro k acc; simp [render_loop, loop_text]
  | cons c rest ih =>
    intro k acc
    have hand : (k &&& 0x1F = 0) = (k % 32 = 0) := by
      have := Nat.and_pow_two_sub_one_eq_mod k 5
      simp only [Nat.reducePow, Nat.add_one_sub_one] at this
      rw [show (0x1F : Nat) = 31 from rfl, this]
    rw [render_loop, ih, loop_text]
    simp only [hand]
    by_cases hk : k % 32 = 0 <;> simp [hk]

theorem loop_text_enum : ∀ (cs : List Int) (k : Nat),
    loop_text cs k = ((cs.enumFrom k).map (fun ic =>
      (if ic.1 % 32 = 0 then ['\n'] else []) ++ fmt_unsigned (to_unsigned_char ic.2)
        ++ [','])).flatten
  | [], _ => rfl
  | c :: rest, k => by
    rw [loop_text, loop_text_enum rest (k + 1)]
    simp [List.enumFrom_cons]

theorem loop_text_append : ∀ (l1 l2 : List Int) (k : Nat),
    loop_text (l1 ++ l2) k = loop_text l1 k ++ loop_text l2 (k + l1.length)
  | [], l2, k => by simp [loop_text]
  | c :: rest, l2, k => by
    rw [List.cons_append, loop_text, loop_text, loop_text_append rest l2 (k + 1)]
    simp only [List.length_cons, List.append_assoc]
    rw [show k + 1 + rest.length = k + (rest.length + 1) from by omega]

theorem loop_text_no_break : ∀ (l : List Int) (k m : Nat), k % 32 = 0 → 0 < m →
    m + l.length ≤ 32 → loop_text l (k + m) = line_text l
  | [], _, _, _, _, _ => rfl
  | c :: rest, k, m, hk, hm, hlen => by
    have hmod : ¬ (k + m) % 32 = 0 := by
      simp only [List.length_cons] at hlen
      omega
    rw [loop_text, if_neg hmod]
    have ih := loop_text_no_break rest k (m + 1) hk (by omega)
      (by simp only [List.length_cons] at hlen; omega)
    rw [show k + m + 1 = k + (m + 1) from by omega, ih]
    simp [line_text]

theorem loop_text_chunk (l : List Int) (k : Nat) (hk : k % 32 = 0) (hne : l ≠ []) :
    loop_text l k = '\n' :: line_text (l.take 32) ++ loop_text (l.drop 32) (k + 32) := by
  obtain ⟨c, rest, rfl⟩ := List.exists_cons_of_ne_nil hne
  have hsplit : rest = rest.take 31 ++ rest.drop 31 := (List.take_append_drop 31 rest).symm
  have hhead : loop_text (rest.take 31) (k + 1) = line_text (rest.take 31) :=
    loop_text_no_break _ k 1 hk (by omega) (by
      have := List.length_take_le 31 rest
      omega)
  have htail : loop_text (rest.drop 31) (k + 1 + (rest.take 31).length)
      = loop_text (rest.drop 31) (k + 32) := by
    by_cases hlen : 31 ≤ rest.length
    · rw [List.length_take, Nat.min_eq_left hlen]
    · have : rest.drop 31 = [] := List.drop_eq_nil_of_le (by omega)
      rw [this]
      rfl
  rw [loop_text, if_pos hk]
  conv_lhs => rw [hsplit, loop_text_append, hhead, htail]
  simp [line_text]

theorem loop_text_lines : ∀ (m : Nat) (l : List Int) (k : Nat), k % 32 = 0 →
    (l.length + 31) / 32 = m →
    loop_text l k
      = ((List.range m).map (fun j => '\n' :: line_text ((l.drop (32 * j)).take 32))).flatten
  | 0, l, k, _, hm => by
    have : l = [] := List.length_eq_zero.1 (by omega)
    subst this
    rfl
  | m + 1, l, k, hk, hm => by
    have hne : l ≠ [] := by
      intro h
      subst h
      simp at hm
    have ih := loop_text_lines m (l.drop 32) (k + 32) (by omega) (by
      rw [List.length_drop]
      omega)
    rw [loop_text_chunk l k hk hne, ih, List.range_succ_eq_map]
    simp only [List.map_cons, List.map_map, List.flatten_cons, Nat.mul_zero, List.drop_zero,
      List.cons_append, List.drop_drop]
    congr 2
    apply congrArg
    apply List.map_congr_left
    intro j _
    simp only [Function.comp_apply, Nat.succ_eq_add_one]
    rw [show 32 + 32 * j = 32 * (j + 1) from by omega]

theorem not_mem_line_text (chunk : List Int) : '\n' ∉ line_text chunk := by
  intro h
  unfold line_text at h
  obtain ⟨piece, hpiece, hmem⟩ := List.mem_flatten.1 h
  obtain ⟨c, _, rfl⟩ := List.mem_map.1 hpiece
  rcases List.mem_append.1 hmem with hmem | hmem
  · exact not_mem_fmt_unsigned _ '\n' (by decide) hmem
  · revert hmem; decide

theorem loop_text_ne_nil (cs : List Int) (k : Nat) (h : cs ≠ []) :
    ∃ t, loop_text cs k = t ++ [','] := by
  have h1 := render_loop_eq cs k [] h
  have h2 := render_loop_text cs k []
  rw [h2] at h1
  exact ⟨_, by simpa using h1⟩

/-- C15: the fallback of the renderer is not reached. For every identifier and every
buffer of at least one byte, the text built by the loop ends with `,`, the search for `,`
from the end succeeds and returns the index of the last character of that text, and the
literal is the text without that character followed by the closing marker, not the text
with the closing marker appended. Every resource a run renders has at least one byte. -/
theorem fallback_unreachable (id : Str) (binary_buffer : List Int) (hne : binary_buffer ≠ []) :
    (array_before_close id binary_buffer).getLast? = some ',' ∧
    rfind (array_before_close id binary_buffer) token_at_end
      = some ((array_before_close id binary_buffer).length - 1) ∧
    rfind (array_before_close id binary_buffer) token_at_end ≠ none ∧
    render id binary_buffer
      = (array_before_close id binary_buffer).dropLast ++ end_token ∧
    render id binary_buffer ≠ array_before_close id binary_buffer ++ end_token ∧
    ∀ (env : Env) (files : FileSystem) (source_files : List Str),
      ∀ r ∈ resources_read env files source_files, r.2 ≠ [] := by
  have hshape : array_before_close id binary_buffer
      = (array_header id binary_buffer.length
          ++ elements_text (binary_buffer.map to_unsigned_char) 0) ++ [','] := by
    unfold array_before_close
    rw [render_loop_eq binary_buffer 0 _ hne]
  have hfind : rfind (array_before_close id binary_buffer) token_at_end
      = some ((array_before_close id binary_buffer).length - 1) := by
    rw [hshape]
    unfold token_at_end
    rw [rfind_last]
    simp
  have hrender : render id binary_buffer
      = (array_before_close id binary_buffer).dropLast ++ end_token := by
    unfold render
    rw [hshape, close_array_last]
    simp
  refine ⟨by rw [hshape]; simp, hfind, by rw [hfind]; simp, hrender, ?_, ?_⟩
  · intro h
    have hlen := congrArg List.length h
    rw [hrender] at hlen
    simp only [List.length_append, List.length_dropLast] at hlen
    have hpos : 0 < (array_before_close id binary_buffer).length := by
      rw [hshape]; simp
    omega
  · intro env files source_files r hr
    unfold resources_read at hr
    obtain ⟨p, hp, rfl⟩ := List.mem_map.1 hr
    have hsize : 0 < (file_bytes env files p).length :=
      of_decide_eq_true (List.mem_filter.1 hp).2
    intro h
    have hlen := read_buffer_length env files p
    simp only at h
    rw [h] at hlen
    simp only [List.length_nil] at hlen
    omega

/-- Witness of C15: an identifier with a `,` in it and two bytes. -/
theorem fallback_unreachable_witness :
    array_before_close "a,b".toList [7, 8]
      = "constexpr const char a,b[2] = \x7b\n7,8,".toList ∧
    ((array_before_close "a,b".toList [7, 8]).getLast? = some ',' ∧
    rfind (array_before_close "a,b".toList [7, 8]) token_at_end
      = some ((array_before_close "a,b".toList [7, 8]).length - 1) ∧
    rfind (array_before_close "a,b".toList [7, 8]) token_at_end ≠ none ∧
    render "a,b".toList [7, 8]
      = (array_before_close "a,b".toList [7, 8]).dropLast ++ end_token ∧
    render "a,b".toList [7, 8] ≠ array_before_close "a,b".toList [7, 8] ++ end_token ∧
    ∀ (env : Env) (files : FileSystem) (source_files : List Str),
      ∀ r ∈ resources_read env files source_files, r.2 ≠ []) :=
  ⟨by decide, fallback_unreachable "a,b".toList [7, 8] (by decide)⟩

/-- C16: a line break every 32 bytes. For every identifier and every non-empty buffer of
`n` bytes, the loop appends, for the byte at 0-based position `i`, a line break exactly
when `i` is a multiple of 32, then the numeral and a `,`. So the element list with its last
separator is `(n + 31) / 32` lines, each a line break followed by the values of one run of
32 consecutive bytes (every value followed by `,`, no line break inside): line `j` holds
the bytes from position `32 * j` on, at least one and at most 32 of them, and exactly 32
when it is not the last line. -/
theorem line_break_every_32 (id : Str) (binary_buffer : List Int) (hne : binary_buffer ≠ []) :
    array_before_close id binary_buffer
      = array_header id binary_buffer.length
        ++ (binary_buffer.enum.map (fun ic =>
            (if ic.1 % 32 = 0 then ['\n'] else []) ++ fmt_unsigned (to_unsigned_char ic.2)
              ++ [','])).flatten ∧
    ∃ body,
      array_before_close id binary_buffer
        = array_header id binary_buffer.length ++ body ++ [','] ∧
      render id binary_buffer = array_header id binary_buffer.length ++ body ++ end_token ∧
      body ++ [','] =
        ((List.range ((binary_buffer.length + 31) / 32)).map (fun j =>
          '\n' :: line_text ((binary_buffer.drop (32 * j)).take 32))).flatten ∧
      ∀ j, j < (binary_buffer.length + 31) / 32 →
        '\n' ∉ line_text ((binary_buffer.drop (32 * j)).take 32) ∧
        1 ≤ ((binary_buffer.drop (32 * j)).take 32).length ∧
        ((binary_buffer.drop (32 * j)).take 32).length ≤ 32 ∧
        (j + 1 < (binary_buffer.length + 31) / 32 →
          ((binary_buffer.drop (32 * j)).take 32).length = 32) := by
  have hbefore : array_before_close id binary_buffer
      = array_header id binary_buffer.length ++ loop_text binary_buffer 0 := by
    unfold array_before_close
    rw [render_loop_text]
  obtain ⟨body, hbody⟩ := loop_text_ne_nil binary_buffer 0 hne
  refine ⟨?_, body, ?_, ?_, ?_, ?_⟩
  · rw [hbefore, loop_text_enum]
    rfl
  · rw [hbefore, hbody, List.append_assoc]
  · unfold render
    rw [hbefore, hbody, ← List.append_assoc, close_array_last]
  · rw [← hbody]
    exact loop_text_lines _ binary_buffer 0 rfl rfl
  · intro j hj
    refine ⟨not_mem_line_text _, ?_, ?_, ?_⟩
    · rw [List.length_take, List.length_drop]
      omega
    · rw [List.length_take]
      omega
    · intro hj2
      rw [List.length_take, List.length_drop]
      omega

/-- Witness of C16: 33 bytes are laid out on two lines, 32 values and 1 value. -/
theorem line_break_every_32_witness :
    render "x".toList (List.replicate 33 7)
      = ("constexpr const char x[33] = \x7b\n".toList
          ++ "7,7,7,7,7,7,7,7,7,7,7,7,7,7,7,7,7,7,7,7,7,7,7,7,7,7,7,7,7,7,7,7,\n7".toList)
        ++ "\x7d;\n\n".toList ∧
    ∃ body,
      array_before_close "x".toList (List.replicate 33 7)
        = array_header "x".toList (List.replicate 33 (7 : Int)).length ++ body ++ [','] ∧
      render "x".toList (List.replicate 33 7)
        = array_header "x".toList (List.replicate 33 (7 : Int)).length ++ body ++ end_token ∧
      body ++ [','] =
        ((List.range (((List.replicate 33 (7 : Int)).length + 31) / 32)).map (fun j =>
          '\n' :: line_text (((List.replicate 33 (7 : Int)).drop (32 * j)).take 32))).flatten ∧
      ∀ j, j < ((List.replicate 33 (7 : Int)).length + 31) / 32 →
        '\n' ∉ line_text (((List.replicate 33 (7 : Int)).drop (32 * j)).take 32) ∧
        1 ≤ (((List.replicate 33 (7 : Int)).drop (32 * j)).take 32).length ∧
        (((List.replicate 33 (7 : Int)).drop (32 * j)).take 32).length ≤ 32 ∧
        (j + 1 < ((List.replicate 33 (7 : Int)).length + 31) / 32 →
          (((List.replicate 33 (7 : Int)).drop (32 * j)).take 32).length = 32) :=
  ⟨by decide, (line_break_every_32 "x".toList (List.replicate 33 7) (by decide)).2⟩

theorem path_replace_extension_plain (p replacement : Str) (hext : path_extension p = [])
    (hdot : replacement.head? = some '.') :
    path_replace_extension p replacement = p ++ replacement := by
  unfold path_replace_extension
  rw [hext]
  simp [hdot]

theorem path_filename_append (p suffix : Str) (h : '/' ∉ suffix) :
    path_filename (p ++ suffix) = path_filename p ++ suffix := by
  unfold path_filename
  rw [List.reverse_append, List.takeWhile_append_of_pos]
  · simp
  · intro c hc
    have hc2 : c ∈ suffix := List.mem_reverse.1 hc
    have : c ≠ '/' := fun e => h (e ▸ hc2)
    simpa using this

/-- C18: the output paths. In a run that ends with exit code 0 and whose output stem `P`
has a file name without extension, the header path is `P.h` and the source path `P.cpp`;
the declaration document is written to `P.h` and the definition document to `P.cpp` (each
when its path opens for writing, nothing else is written), and the definition document
begins with `#include "<file name of P>.h"`, an empty line, and the banner in a comment.
For the output `out/res` and no source file the run writes `out/res.h` and `out/res.cpp`,
the definition document begins with the line `#include "res.h"`, and its initializer
routine holds the two comment lines and no registration statement. -/
theorem output_documents (env : Env) (argv : List Str) (files : FileSystem)
    (source_files : List Str) (P : Str)
    (hlen : 2 ≤ argv.length)
    (hargs : parse_arguments (argv.drop 1) [] none = (source_files, some P))
    (hP : P ≠ []) (hext : path_extension P = [])
    (hexit : (main env argv files).exit_code = 0) :
    path_replace_extension P ".h".toList = P ++ ".h".toList ∧
    path_replace_extension P ".cpp".toList = P ++ ".cpp".toList ∧
    ∃ result_data : List file_entry,
      (main env argv files).disk.written
        = (if env.can_open (P ++ ".h".toList) then
            [(P ++ ".h".toList, kHeaderTop ++ kBanner ++ kHeaderBottom)] else [])
          ++ (if env.can_open (P ++ ".cpp".toList) then
            [(P ++ ".cpp".toList,
              "#include \"".toList ++ (path_filename P ++ ".h".toList) ++ "\"\n\n/*".toList
                ++ kBanner ++ kSourceTop
                ++ (result_data.map (fun e => e.source_array_entry)).flatten ++ kSourceMiddle
                ++ (result_data.map (fun e => e.source_map_entry)).flatten ++ kSourceBottom)]
            else []) := by
  have hh : path_replace_extension P ".h".toList = P ++ ".h".toList :=
    path_replace_extension_plain P _ hext (by decide)
  have hc : path_replace_extension P ".cpp".toList = P ++ ".cpp".toList :=
    path_replace_extension_plain P _ hext (by decide)
  refine ⟨hh, hc, ?_⟩
  have _ := hlen
  rcases main_outcome env argv files with ⟨hne, _⟩ |
    ⟨source_files2, output_file, files1, files2, result_data, _, hargs2, _, _, _, _, hmain⟩
  · exact absurd hexit hne
  · have hsame : output_file = P := by
      rw [hargs] at hargs2
      exact (Option.some.inj (Prod.mk.inj hargs2).2).symm
    subst hsame
    refine ⟨result_data, ?_⟩
    have hne : output_file ++ ".h".toList ≠ output_file ++ ".cpp".toList := by
      intro h
      have := List.append_cancel_left h
      revert this
      decide
    rw [hmain]
    simp only
    rw [hh, hc, save_twice_written env _ _ _ _ _ hne, build_source_eq,
      path_filename_append output_file ".h".toList (by decide)]
    simp [build_header]

set_option maxRecDepth 100000 in
/-- Witness of C18: the output `out/res` and no source file. -/
theorem output_documents_witness :
    (main (plain_env true (fun _ => true)) ["rc".toList, "--output=out/res".toList] []).disk.written
      = [("out/res.h".toList, kHeaderTop ++ kBanner ++ kHeaderBottom),
         ("out/res.cpp".toList,
          "#include \"res.h\"\n\n/*".toList ++ kBanner ++ kSourceTop
            ++ (kSourceMiddle.take 122
              ++ "manager::manager() \x7b\n  // resources list\n\n\n  // resources list\n\x7d".toList
              ++ kSourceBottom.drop 22))] ∧
    generated_program (plain_env true (fun _ => true))
      (build_source "res.h".toList []) = Except.ok [] ∧
    (path_replace_extension "out/res".toList ".h".toList = "out/res".toList ++ ".h".toList ∧
    path_replace_extension "out/res".toList ".cpp".toList = "out/res".toList ++ ".cpp".toList ∧
    ∃ result_data : List file_entry,
      (main (plain_env true (fun _ => true)) ["rc".toList, "--output=out/res".toList] []).disk.written
        = (if (plain_env true (fun _ => true)).can_open ("out/res".toList ++ ".h".toList) then
            [("out/res".toList ++ ".h".toList, kHeaderTop ++ kBanner ++ kHeaderBottom)] else [])
          ++ (if (plain_env true (fun _ => true)).can_open ("out/res".toList ++ ".cpp".toList) then
            [("out/res".toList ++ ".cpp".toList,
              "#include \"".toList ++ (path_filename "out/res".toList ++ ".h".toList)
                ++ "\"\n\n/*".toList
                ++ kBanner ++ kSourceTop
                ++ (result_data.map (fun e => e.source_array_entry)).flatten ++ kSourceMiddle
                ++ (result_data.map (fun e => e.source_map_entry)).flatten ++ kSourceBottom)]
            else [])) :=
  ⟨rfl, rfl, output_documents (plain_env true (fun _ => true))
    ["rc".toList, "--output=out/res".toList] [] [] "out/res".toList (by decide) (by decide)
    (by decide) (by decide) (by decide)⟩

/-! ## Sizes and numerals -/

theorem fmt_unsigned_length_le (n : Nat) (h : n < 1000) : (fmt_unsigned n).length ≤ 3 := by
  by_cases h1 : n < 10
  · rw [fmt_unsigned_small n h1]; simp
  · rw [fmt_unsigned_large n (by omega)]
    by_cases h2 : n / 10 < 10
    · rw [fmt_unsigned_small _ h2]; simp
    · rw [fmt_unsigned_large (n / 10) (by omega),
        fmt_unsigned_small (n / 10 / 10) (by omega)]
      simp

theorem fmt_unsigned_length_pos (n : Nat) : 1 ≤ (fmt_unsigned n).length :=
  List.length_pos.2 (fmt_unsigned_ne_nil n)

theorem loop_text_length : ∀ (cs : List Int) (k : Nat),
    (loop_text cs k).length + (k + 31) / 32 ≤ 4 * cs.length + (k + cs.length + 31) / 32
  | [], k => by simp [loop_text]
  | c :: rest, k => by
    have ih := loop_text_length rest (k + 1)
    have hfmt := fmt_unsigned_length_le (to_unsigned_char c)
      (by have := to_unsigned_char_lt c; omega)
    rw [loop_text]
    simp only [List.length_append, List.length_cons, List.length_nil]
    by_cases hk : k % 32 = 0
    · rw [if_pos hk]
      simp only [List.length_cons, List.length_nil]
      omega
    · rw [if_neg hk]
      simp only [List.length_nil]
      omega

theorem array_header_length (id : Str) (n : Nat) :
    (array_header id n).length = 27 + id.length + (fmt_unsigned n).length := by
  have h1 : "constexpr const char ".toList.length = 21 := by decide
  have h2 : "[".toList.length = 1 := by decide
  have h3 : "] = ".toList.length = 4 := by decide
  unfold array_header
  simp only [List.length_append, h1, h2, h3, List.length_cons, List.length_nil]
  omega

theorem render_length (id : Str) (cs : List Int) (h : cs ≠ []) :
    (render id cs).length = (array_before_close id cs).length + 3 ∧
    (array_before_close id cs).length
      = 27 + id.length + (fmt_unsigned cs.length).length + (loop_text cs 0).length := by
  obtain ⟨t, ht⟩ := loop_text_ne_nil cs 0 h
  have hbefore : array_before_close id cs = array_header id cs.length ++ loop_text cs 0 := by
    unfold array_before_close
    rw [render_loop_text]
  constructor
  · unfold render
    rw [hbefore, ht, ← List.append_assoc, close_array_last]
    simp only [List.length_append, end_token, List.length_cons, List.length_nil]
  · rw [hbefore, List.length_append, array_header_length]

theorem loop_state_length (id : Str) (cs : List Int) (j : Nat) :
    (render_loop (cs.take j) 0 (array_header id cs.length)).length
      ≤ (array_before_close id cs).length := by
  have hsplit : loop_text cs 0
      = loop_text (cs.take j) 0 ++ loop_text (cs.drop j) (0 + (cs.take j).length) := by
    conv_lhs => rw [← List.take_append_drop j cs, loop_text_append]
  unfold array_before_close
  rw [render_loop_text, render_loop_text, hsplit]
  simp only [List.length_append]
  omega

/-- Counterexample to C19 as stated: for an identifier of 34 characters and one byte of
value 255 the rendered literal has 70 characters, more than the 68 reserved. -/
theorem reserved_size_exceeded :
    "material_properties_default_values".toList.length = 34 ∧
    precalc_stirng_size [(-1 : Int)].length = 68 ∧
    (render "material_properties_default_values".toList [-1]).length = 70 ∧
    ¬ ((render "material_properties_default_values".toList [-1]).length
      ≤ precalc_stirng_size [(-1 : Int)].length) := by
  decide

/-- C19 as amended: the size of the array literal. For every identifier and every
non-empty buffer of `n` bytes, the text built by the loop after any number of bytes is no
longer than the rendered literal, and the rendered literal has at most
`4 * n + n / 31 + 31` characters plus the length of the identifier plus the number of
digits of `n`; so it stays within the reserved size `4 * n + n / 31 + 64` whenever the
identifier and the digits of `n` take at most 33 characters together. -/
theorem rendered_size (id : Str) (binary_buffer : List Int) (hne : binary_buffer ≠ []) :
    (∀ j, (render_loop (binary_buffer.take j) 0
        (array_header id binary_buffer.length)).length ≤ (render id binary_buffer).length) ∧
    (render id binary_buffer).length
      ≤ 4 * binary_buffer.length + binary_buffer.length / 31 + 31 + id.length
        + (fmt_unsigned binary_buffer.length).length ∧
    (id.length + (fmt_unsigned binary_buffer.length).length ≤ 33 →
      (render id binary_buffer).length ≤ precalc_stirng_size binary_buffer.length) := by
  obtain ⟨hr, hb⟩ := render_length id binary_buffer hne
  have hloop := loop_text_length binary_buffer 0
  have hbound : (render id binary_buffer).length
      ≤ 4 * binary_buffer.length + binary_buffer.length / 31 + 31 + id.length
        + (fmt_unsigned binary_buffer.length).length := by
    rw [hr, hb]
    omega
  refine ⟨?_, hbound, ?_⟩
  · intro j
    have := loop_state_length id binary_buffer j
    omega
  · intro hshort
    unfold precalc_stirng_size
    omega

/-- Witness of the amended C19: the identifier `hello_txt` and two bytes; the literal has
48 characters, 72 are reserved. -/
theorem rendered_size_witness :
    (render "hello_txt".toList [72, 105]).length = 48 ∧
    precalc_stirng_size [(72 : Int), 105].length = 72 ∧
    (render "hello_txt".toList [72, 105]).length
      ≤ precalc_stirng_size [(72 : Int), 105].length :=
  ⟨by decide, by decide,
    (rendered_size "hello_txt".toList [72, 105] (by decide)).2.2 (by decide)⟩

theorem fmt_unsigned_head (n : Nat) (h : 0 < n) : (fmt_unsigned n).head? ≠ some '0' := by
  induction n using Nat.strong_induction_on with
  | _ n ih =>
    by_cases h1 : n < 10
    · rw [fmt_unsigned_small n h1]
      simp only [List.head?_cons, ne_eq, Option.some.injEq]
      interval_cases n <;> decide
    · rw [fmt_unsigned_large n (by omega)]
      have hne := fmt_unsigned_ne_nil (n / 10)
      have hrec := ih (n / 10) (by omega) (by omega)
      cases hd : fmt_unsigned (n / 10) with
      | nil => exact absurd hd hne
      | cons a rest =>
        rw [hd] at hrec
        simpa using hrec

/-- C20: canonical numerals. For every identifier and every non-empty buffer, the text
between the braces of the rendered literal holds only decimal digits, `,` and line breaks;
its elements are the numerals of the bytes, and the numeral of a byte has one to three
characters, all of them digits, reads back as the value of the byte, and begins with `0`
only when the value is 0 and the numeral is the single digit `0`: no element of value 8 or
more begins with `0`. -/
theorem canonical_numerals (id : Str) (binary_buffer : List Int) (hne : binary_buffer ≠ []) :
    ∃ body, render id binary_buffer = array_header id binary_buffer.length ++ body ++ end_token ∧
      between_braces (render id binary_buffer) = some body ∧
      (∀ c ∈ body, ('0' ≤ c ∧ c ≤ '9') ∨ c = ',' ∨ c = '\n') ∧
      (body.filter (fun c => c ≠ '\n')).splitOn ','
        = binary_buffer.map (fun c => fmt_unsigned (to_unsigned_char c)) ∧
      ∀ c ∈ binary_buffer,
        1 ≤ (fmt_unsigned (to_unsigned_char c)).length ∧
        (fmt_unsigned (to_unsigned_char c)).length ≤ 3 ∧
        (∀ d ∈ fmt_unsigned (to_unsigned_char c), '0' ≤ d ∧ d ≤ '9') ∧
        parse_decimal (fmt_unsigned (to_unsigned_char c)) = some (to_unsigned_char c) ∧
        ((fmt_unsigned (to_unsigned_char c)).head? = some '0' →
          to_unsigned_char c = 0 ∧ fmt_unsigned (to_unsigned_char c) = ['0']) ∧
        (8 ≤ to_unsigned_char c → (fmt_unsigned (to_unsigned_char c)).head? ≠ some '0') := by
  have hrender := render_eq id binary_buffer hne
  refine ⟨elements_text (binary_buffer.map to_unsigned_char) 0, hrender, ?_, ?_, ?_, ?_⟩
  · rw [hrender]
    exact between_braces_render id binary_buffer.length _
      (not_mem_elements_text _ 0 '{' (by decide) (by decide) (by decide))
      (not_mem_elements_text _ 0 '}' (by decide) (by decide) (by decide))
  · intro c hc
    rcases mem_elements_text _ 0 c hc with h | h | h
    · exact Or.inr (Or.inl h)
    · exact Or.inr (Or.inr h)
    · exact Or.inl h
  · rw [split_elements_text _ 0 (by simpa using hne), List.map_map]
    rfl
  · intro c _
    refine ⟨fmt_unsigned_length_pos _, fmt_unsigned_length_le _
      (by have := to_unsigned_char_lt c; omega), fmt_unsigned_digits _, parse_decimal_fmt _,
      ?_, ?_⟩
    · intro hzero
      have hz : to_unsigned_char c = 0 := by
        by_contra hpos
        exact fmt_unsigned_head _ (Nat.pos_of_ne_zero hpos) hzero
      exact ⟨hz, by rw [hz]; rfl⟩
    · intro h8
      exact fmt_unsigned_head _ (by omega)

/-- Witness of C20: the bytes 0, 8, 10 and 200. -/
theorem canonical_numerals_witness :
    render "x".toList [0, 8, 10, -56]
      = "constexpr const char x[4] = \x7b\n0,8,10,200\x7d;\n\n".toList ∧
    ∃ body, render "x".toList [0, 8, 10, -56]
        = array_header "x".toList [(0 : Int), 8, 10, -56].length ++ body ++ end_token ∧
      between_braces (render "x".toList [0, 8, 10, -56]) = some body ∧
      (∀ c ∈ body, ('0' ≤ c ∧ c ≤ '9') ∨ c = ',' ∨ c = '\n') ∧
      (body.filter (fun c => c ≠ '\n')).splitOn ','
        = [(0 : Int), 8, 10, -56].map (fun c => fmt_unsigned (to_unsigned_char c)) ∧
      ∀ c ∈ [(0 : Int), 8, 10, -56],
        1 ≤ (fmt_unsigned (to_unsigned_char c)).length ∧
        (fmt_unsigned (to_unsigned_char c)).length ≤ 3 ∧
        (∀ d ∈ fmt_unsigned (to_unsigned_char c), '0' ≤ d ∧ d ≤ '9') ∧
        parse_decimal (fmt_unsigned (to_unsigned_char c)) = some (to_unsigned_char c) ∧
        ((fmt_unsigned (to_unsigned_char c)).head? = some '0' →
          to_unsigned_char c = 0 ∧ fmt_unsigned (to_unsigned_char c) = ['0']) ∧
        (8 ≤ to_unsigned_char c → (fmt_unsigned (to_unsigned_char c)).head? ≠ some '0') :=
  ⟨by decide, canonical_numerals "x".toList [0, 8, 10, -56] (by decide)⟩

/-! ## The definition document read back -/

theorem expect_text_append (expected rest : Str) :
    expect_text expected (expected ++ rest) = some rest := by
  unfold expect_text
  rw [if_pos (List.isPrefixOf_iff_prefix.2 (List.prefix_append expected rest)),
    List.drop_left]

theorem dropWhile_append_cons {p : Char → Bool} (l1 : Str) (c : Char) (l2 : Str)
    (h1 : ∀ x ∈ l1, p x = true) (hc : p c = false) :
    (l1 ++ c :: l2).dropWhile p = c :: l2 := by
  induction l1 with
  | nil => simp [List.dropWhile_cons, hc]
  | cons x xs ih =>
    have hx : p x = true := h1 x (List.mem_cons_self x xs)
    rw [List.cons_append, List.dropWhile_cons, hx]
    exact ih (fun y hy => h1 y (List.mem_cons_of_mem x hy))

theorem usable_identifier_chars (env : Env) (id : Str) (h : usable_identifier env id = true) :
    ∀ c ∈ id, is_identifier_char c = true := by
  unfold usable_identifier at h
  simp only [Bool.and_eq_true] at h
  exact List.all_eq_true.1 h.1.1.1.1

theorem read_identifier_append (env : Env) (id : Str) (c : Char) (rest : Str)
    (h : usable_identifier env id = true) (hc : is_identifier_char c = false) :
    read_identifier env (id ++ c :: rest) = some (id, c :: rest) := by
  unfold read_identifier
  rw [takeWhile_append_cons id c rest (usable_identifier_chars env id h) hc,
    dropWhile_append_cons id c rest (usable_identifier_chars env id h) hc, if_pos h]

theorem fmt_unsigned_is_digit (n : Nat) : ∀ c ∈ fmt_unsigned n, is_digit c = true := by
  intro c hc
  unfold is_digit
  exact decide_eq_true (fmt_unsigned_digits n c hc)

theorem fmt_unsigned_zero_head (n : Nat) (h : (fmt_unsigned n).head? = some '0') :
    fmt_unsigned n = ['0'] := by
  rcases Nat.eq_zero_or_pos n with h0 | hpos
  · rw [h0]; rfl
  · exact absurd h (fmt_unsigned_head n hpos)

theorem read_number_append (n : Nat) (c : Char) (rest : Str) (hc : is_digit c = false) :
    read_number (fmt_unsigned n ++ c :: rest) = some (n, c :: rest) := by
  unfold read_number
  rw [takeWhile_append_cons (fmt_unsigned n) c rest (fmt_unsigned_is_digit n) hc,
    dropWhile_append_cons (fmt_unsigned n) c rest (fmt_unsigned_is_digit n) hc,
    if_neg (fun h => h.2 (fmt_unsigned_zero_head n h.1)), parse_decimal_fmt]

theorem skip_line_break_element (k b : Nat) (rest : Str) :
    skip_line_break (element_text k b ++ rest) = fmt_unsigned b ++ rest := by
  unfold element_text
  by_cases hk : k % 32 = 0
  · rw [if_pos hk]
    rfl
  · rw [if_neg hk, List.nil_append]
    cases hf : fmt_unsigned b with
    | nil => exact absurd hf (fmt_unsigned_ne_nil b)
    | cons d ds =>
      have hd : is_digit d = true := fmt_unsigned_is_digit b d (by rw [hf]; simp)
      have hne : d ≠ '\n' := by
        intro h
        rw [h] at hd
        revert hd
        decide
      unfold skip_line_break
      split
      · rename_i r heq
        rw [List.cons_append] at heq
        exact absurd (List.cons.inj heq).1 hne
      · rfl

theorem parse_elements_text : ∀ (bs : List Nat) (k fuel : Nat) (values : List Nat) (rest : Str),
    bs ≠ [] → bs.length ≤ fuel →
    parse_elements fuel (elements_text bs k ++ end_token ++ rest) values
      = some (values ++ bs, rest)
  | [], _, _, _, _, h, _ => absurd rfl h
  | [b], k, 0, _, _, _, hfuel => by simp at hfuel
  | [b], k, fuel + 1, values, rest, _, _ => by
    rw [parse_elements, elements_text, List.append_assoc, skip_line_break_element,
      show end_token ++ rest = '\x7d' :: (';' :: '\n' :: '\n' :: rest) from rfl,
      read_number_append b _ _ (by decide)]
    simp only
    rw [show ('\x7d' :: ';' :: '\n' :: '\n' :: rest) = "\x7d;\n\n".toList ++ rest from rfl,
      expect_text_append]
    rfl
  | b :: b2 :: tl, k, 0, _, _, _, hfuel => by simp at hfuel
  | b :: b2 :: tl, k, fuel + 1, values, rest, _, hfuel => by
    rw [parse_elements, elements_text]
    simp only [List.append_assoc, List.singleton_append]
    rw [skip_line_break_element, List.cons_append, read_number_append b _ _ (by decide)]
    simp only
    have ih := parse_elements_text (b2 :: tl) (k + 1) fuel (values ++ [b]) rest
      (List.cons_ne_nil b2 tl) (by simpa using hfuel)
    rw [List.append_assoc] at ih
    rw [ih]
    simp

theorem parse_array_header (env : Env) (id : Str) (n : Nat) (T : Str)
    (hid : usable_identifier env id = true) :
    parse_array env (array_header id n ++ T)
      = match parse_elements T.length T [] with
        | none => none
        | some (values, s6) => some (ArrayDecl.mk id n values, s6) := by
  have h1 : expect_text "constexpr const char ".toList (array_header id n ++ T)
      = some (id ++ '[' :: (fmt_unsigned n ++ ']' :: (" = \x7b".toList ++ T))) := by
    unfold array_header
    simp only [List.append_assoc]
    exact expect_text_append _ _
  have h2 : read_identifier env (id ++ '[' :: (fmt_unsigned n ++ ']' :: (" = \x7b".toList ++ T)))
      = some (id, '[' :: (fmt_unsigned n ++ ']' :: (" = \x7b".toList ++ T))) :=
    read_identifier_append env id '[' _ hid (by decide)
  have h3 : expect_text "[".toList ('[' :: (fmt_unsigned n ++ ']' :: (" = \x7b".toList ++ T)))
      = some (fmt_unsigned n ++ ']' :: (" = \x7b".toList ++ T)) :=
    expect_text_append "[".toList _
  have h4 : read_number (fmt_unsigned n ++ ']' :: (" = \x7b".toList ++ T))
      = some (n, ']' :: (" = \x7b".toList ++ T)) :=
    read_number_append n ']' _ (by decide)
  have h5 : expect_text "] = \x7b".toList (']' :: (" = \x7b".toList ++ T)) = some T :=
    expect_text_append "] = \x7b".toList T
  rw [parse_array, h1]
  simp only
  rw [h2]
  simp only
  rw [h3]
  simp only
  rw [h4]
  simp only
  rw [h5]

theorem length_le_elements_text : ∀ (bs : List Nat) (k : Nat),
    bs.length ≤ (elements_text bs k).length
  | [], _ => by simp
  | [b], k => by
    have := fmt_unsigned_length_pos b
    simp only [elements_text, element_text, List.length_append, List.length_singleton]
    omega
  | b :: b2 :: tl, k => by
    have ih := length_le_elements_text (b2 :: tl) (k + 1)
    simp only [elements_text, List.length_append, List.length_cons] at ih ⊢
    omega

theorem parse_array_render (env : Env) (id : Str) (cs : List Int) (rest : Str)
    (hid : usable_identifier env id = true) (hne : cs ≠ []) :
    parse_array env (render id cs ++ rest)
      = some (ArrayDecl.mk id cs.length (cs.map to_unsigned_char), rest) := by
  have hvals : cs.map to_unsigned_char ≠ [] := by simpa using hne
  have hfuel : (cs.map to_unsigned_char).length
      ≤ (elements_text (cs.map to_unsigned_char) 0 ++ end_token ++ rest).length := by
    have := length_le_elements_text (cs.map to_unsigned_char) 0
    simp only [List.length_append]
    omega
  rw [render_eq id cs hne, List.append_assoc, List.append_assoc,
    ← List.append_assoc (elements_text (cs.map to_unsigned_char) 0),
    parse_array_header env id cs.length _ hid,
    parse_elements_text (cs.map to_unsigned_char) 0 _ [] rest hvals hfuel]
  rfl

theorem not_prefix_of_head (p s : Str) (a b : Char) (hab : a ≠ b) :
    (a :: p).isPrefixOf (b :: s) = false := by
  simp [List.isPrefixOf, hab]

theorem render_begins (id : Str) (cs : List Int) (rest : Str) (hne : cs ≠ []) :
    "constexpr const char ".toList.isPrefixOf (render id cs ++ rest) = true := by
  rw [render_eq id cs hne, array_header]
  simp only [List.append_assoc]
  exact List.isPrefixOf_iff_prefix.2 (List.prefix_append _ _)

theorem render_ne_nil (id : Str) (cs : List Int) (hne : cs ≠ []) : render id cs ≠ [] := by
  intro h
  have := (render_length id cs hne).1
  rw [h] at this
  simp at this

theorem length_le_flatten {α : Type} (f : α → Str) : ∀ (l : List α),
    (∀ x ∈ l, f x ≠ []) → l.length ≤ (l.map f).flatten.length
  | [], _ => by simp
  | x :: rest, h => by
    have ih := length_le_flatten f rest (fun y hy => h y (List.mem_cons_of_mem x hy))
    have hx : 0 < (f x).length := List.length_pos.2 (h x (List.mem_cons_self x rest))
    simp only [List.map_cons, List.flatten_cons, List.length_append, List.length_cons]
    omega

theorem parse_arrays_entries (env : Env) : ∀ (rs : List (Str × List Int)) (fuel : Nat)
    (arrays : List ArrayDecl) (tail : Str),
    (∀ r ∈ rs, usable_identifier env r.1 = true ∧ r.2 ≠ []) →
    "constexpr const char ".toList.isPrefixOf tail = false →
    rs.length < fuel →
    parse_arrays env fuel ((rs.map (fun r => render r.1 r.2)).flatten ++ tail) arrays
      = some (arrays ++ rs.map (fun r => ArrayDecl.mk r.1 r.2.length
          (r.2.map to_unsigned_char)), tail)
  | _, 0, _, _, _, _, hfuel => by simp at hfuel
  | [], fuel + 1, arrays, tail, _, htail, _ => by
    rw [parse_arrays]
    simp only [List.map_nil, List.flatten_nil, List.nil_append, List.append_nil]
    rw [if_neg (by rw [htail]; exact Bool.false_ne_true)]
  | r :: rest, fuel + 1, arrays, tail, hrs, htail, hfuel => by
    have hr := hrs r (List.mem_cons_self r rest)
    rw [parse_arrays]
    simp only [List.map_cons, List.flatten_cons, List.append_assoc]
    rw [if_pos (render_begins r.1 r.2 _ hr.2), parse_array_render env r.1 r.2 _ hr.1 hr.2]
    simp only
    rw [parse_arrays_entries env rest fuel _ tail
      (fun y hy => hrs y (List.mem_cons_of_mem r hy)) htail (by simpa using hfuel)]
    simp

theorem identifier_char_key (c : Char) (h : is_identifier_char c = true) :
    (c != '"' && c != '\\' && c != '\n') = true := by
  have h1 : c ≠ '"' := by
    intro e; rw [e] at h; revert h; decide
  have h2 : c ≠ '\\' := by
    intro e; rw [e] at h; revert h; decide
  have h3 : c ≠ '\n' := by
    intro e; rw [e] at h; revert h; decide
  simp [h1, h2, h3]

theorem parse_registration_entry (env : Env) (id : Str) (rest : Str)
    (hid : usable_identifier env id = true) :
    parse_registration env (source_map_entry id ++ rest)
      = some (Registration.mk id id id, rest) := by
  have hchars : ∀ c ∈ id, (fun c => c != '"' && c != '\\' && c != '\n') c = true :=
    fun c hc => identifier_char_key c (usable_identifier_chars env id hid c hc)
  have h1 : expect_text "  resources_.insert(\x7b\"".toList (source_map_entry id ++ rest)
      = some (id ++ '"' :: (", std::string_view(".toList ++ (id ++ ',' ::
          (" array_size(".toList ++ (id ++ ')' :: (")\x7d);\n".toList ++ rest)))))) := by
    unfold source_map_entry
    simp only [List.append_assoc]
    exact expect_text_append _ _
  have h2 : (id ++ '"' :: (", std::string_view(".toList ++ (id ++ ',' ::
          (" array_size(".toList ++ (id ++ ')' :: (")\x7d);\n".toList ++ rest)))))).dropWhile
        (fun c => c != '"' && c != '\\' && c != '\n')
      = '"' :: (", std::string_view(".toList ++ (id ++ ',' ::
          (" array_size(".toList ++ (id ++ ')' :: (")\x7d);\n".toList ++ rest))))) :=
    dropWhile_append_cons id '"' _ hchars (by decide)
  have h3 : (id ++ '"' :: (", std::string_view(".toList ++ (id ++ ',' ::
          (" array_size(".toList ++ (id ++ ')' :: (")\x7d);\n".toList ++ rest)))))).takeWhile
        (fun c => c != '"' && c != '\\' && c != '\n') = id :=
    takeWhile_append_cons id '"' _ hchars (by decide)
  have h4 : expect_text "\", std::string_view(".toList
      ('"' :: (", std::string_view(".toList ++ (id ++ ',' ::
          (" array_size(".toList ++ (id ++ ')' :: (")\x7d);\n".toList ++ rest))))))
      = some (id ++ ',' :: (" array_size(".toList ++ (id ++ ')' ::
          (")\x7d);\n".toList ++ rest)))) :=
    expect_text_append "\", std::string_view(".toList _
  have h5 : read_identifier env (id ++ ',' :: (" array_size(".toList ++ (id ++ ')' ::
          (")\x7d);\n".toList ++ rest))))
      = some (id, ',' :: (" array_size(".toList ++ (id ++ ')' ::
          (")\x7d);\n".toList ++ rest)))) :=
    read_identifier_append env id ',' _ hid (by decide)
  have h6 : expect_text ", array_size(".toList (',' :: (" array_size(".toList ++ (id ++ ')' ::
          (")\x7d);\n".toList ++ rest))))
      = some (id ++ ')' :: (")\x7d);\n".toList ++ rest)) :=
    expect_text_append ", array_size(".toList _
  have h7 : read_identifier env (id ++ ')' :: (")\x7d);\n".toList ++ rest))
      = some (id, ')' :: (")\x7d);\n".toList ++ rest)) :=
    read_identifier_append env id ')' _ hid (by decide)
  have h8 : expect_text "))\x7d);\n".toList (')' :: (")\x7d);\n".toList ++ rest))
      = some rest :=
    expect_text_append "))\x7d);\n".toList rest
  rw [parse_registration, h1]
  simp only
  rw [h2, h3, h4]
  simp only
  rw [h5]
  simp only
  rw [h6]
  simp only
  rw [h7]
  simp only
  rw [h8]

theorem source_map_entry_begins (id rest : Str) :
    "  resources_.insert(".toList.isPrefixOf (source_map_entry id ++ rest) = true := by
  have h : source_map_entry id ++ rest
      = "  resources_.insert(".toList ++ ("\x7b\"".toList ++ (id
        ++ ("\", std::string_view(".toList ++ id ++ ", array_size(".toList ++ id
          ++ "))\x7d);\n".toList ++ rest))) := by
    unfold source_map_entry
    simp only [List.append_assoc]
    rfl
  rw [h]
  exact List.isPrefixOf_iff_prefix.2 (List.prefix_append _ _)

theorem source_map_entry_ne_nil (id : Str) : source_map_entry id ≠ [] := by
  unfold source_map_entry
  simp only [List.append_assoc]
  exact List.cons_ne_nil _ _

theorem parse_registrations_entries (env : Env) : ∀ (ids : List Str) (fuel : Nat)
    (registrations : List Registration) (tail : Str),
    (∀ id ∈ ids, usable_identifier env id = true) →
    "  resources_.insert(".toList.isPrefixOf tail = false →
    ids.length < fuel →
    parse_registrations env fuel ((ids.map source_map_entry).flatten ++ tail) registrations
      = some (registrations ++ ids.map (fun id => Registration.mk id id id), tail)
  | _, 0, _, _, _, _, hfuel => by simp at hfuel
  | [], fuel + 1, registrations, tail, _, htail, _ => by
    rw [parse_registrations]
    simp only [List.map_nil, List.flatten_nil, List.nil_append, List.append_nil]
    rw [if_neg (by rw [htail]; exact Bool.false_ne_true)]
  | id :: rest, fuel + 1, registrations, tail, hids, htail, hfuel => by
    have hid := hids id (List.mem_cons_self id rest)
    rw [parse_registrations]
    simp only [List.map_cons, List.flatten_cons, List.append_assoc]
    rw [if_pos (source_map_entry_begins id _), parse_registration_entry env id _ hid]
    simp only
    rw [parse_registrations_entries env rest fuel _ tail
      (fun y hy => hids y (List.mem_cons_of_mem id hy)) htail (by simpa using hfuel)]
    simp

theorem parse_document_text (env : Env) (header_filename : Str) (rs : List (Str × List Int))
    (hheader : ∀ c ∈ header_filename, c ≠ '"' ∧ c ≠ '\n')
    (hrs : ∀ r ∈ rs, usable_identifier env r.1 = true ∧ r.2 ≠ []) :
    parse_document env
        ("#include \"".toList ++ (header_filename ++ '"' :: ("\n\n/*".toList ++ (kBanner
          ++ (kSourceTop ++ ((rs.map (fun r => render r.1 r.2)).flatten ++ (kSourceMiddle
            ++ (((rs.map (fun r => r.1)).map source_map_entry).flatten ++ kSourceBottom))))))))
      = some (TranslationUnit.mk
          (rs.map (fun r => ArrayDecl.mk r.1 r.2.length (r.2.map to_unsigned_char)))
          (rs.map (fun r => Registration.mk r.1 r.1 r.1))) := by
  have hq : ∀ c ∈ header_filename, (fun c => c != '"' && c != '\n') c = true := by
    intro c hc
    have := hheader c hc
    simp [this.1, this.2]
  have h1 : ∀ X : Str, expect_text "#include \"".toList
      ("#include \"".toList ++ (header_filename ++ '"' :: X))
        = some (header_filename ++ '"' :: X) := fun X => expect_text_append _ _
  have h2 : ∀ X : Str, (header_filename ++ '"' :: X).dropWhile (fun c => c != '"' && c != '\n')
      = '"' :: X := fun X => dropWhile_append_cons header_filename '"' X hq (by decide)
  have h3 : ∀ S2 : Str, expect_text ("\"\n\n/*".toList ++ kBanner ++ kSourceTop)
      ('"' :: ("\n\n/*".toList ++ (kBanner ++ (kSourceTop ++ S2)))) = some S2 := by
    intro S2
    have e : '"' :: ("\n\n/*".toList ++ (kBanner ++ (kSourceTop ++ S2)))
        = ("\"\n\n/*".toList ++ kBanner ++ kSourceTop) ++ S2 := by
      simp only [List.append_assoc]
      rfl
    rw [e, expect_text_append]
  have hmiddle : ∀ S4 : Str,
      "constexpr const char ".toList.isPrefixOf (kSourceMiddle ++ S4) = false := by
    intro S4
    have e : kSourceMiddle ++ S4 = '/' :: (kSourceMiddle.drop 1 ++ S4) := rfl
    rw [e]
    exact not_prefix_of_head _ _ 'c' '/' (by decide)
  have hbottom : "  resources_.insert(".toList.isPrefixOf kSourceBottom = false := by
    have e : kSourceBottom = '\n' :: kSourceBottom.drop 1 := rfl
    rw [e]
    exact not_prefix_of_head _ _ ' ' '\n' (by decide)
  have hlen1 : rs.length ≤ ((rs.map (fun r => render r.1 r.2)).flatten ++ (kSourceMiddle
      ++ (((rs.map (fun r => r.1)).map source_map_entry).flatten ++ kSourceBottom))).length := by
    have := length_le_flatten (fun r : Str × List Int => render r.1 r.2) rs
      (fun r hr => render_ne_nil r.1 r.2 (hrs r hr).2)
    rw [List.length_append]
    omega
  have hlen2 : (rs.map (fun r => r.1)).length
      ≤ (((rs.map (fun r => r.1)).map source_map_entry).flatten ++ kSourceBottom).length := by
    have := length_le_flatten source_map_entry (rs.map (fun r => r.1))
      (fun id _ => source_map_entry_ne_nil id)
    rw [List.length_append]
    omega
  have hids : ∀ id ∈ rs.map (fun r => r.1), usable_identifier env id = true := by
    intro id hid
    obtain ⟨r, hr, rfl⟩ := List.mem_map.1 hid
    exact (hrs r hr).1
  rw [parse_document, h1]
  simp only
  rw [h2, h3]
  simp only
  rw [parse_arrays_entries env rs _ [] _ hrs (hmiddle _) (Nat.lt_succ_of_le hlen1)]
  simp only
  rw [expect_text_append]
  simp only
  rw [parse_registrations_entries env _ _ [] _ hids hbottom (Nat.lt_succ_of_le hlen2)]
  simp only [List.nil_append, List.map_map, if_true]
  rfl

theorem parse_document_entries (env : Env) (header_filename : Str)
    (rs : List (Str × List Int))
    (hheader : ∀ c ∈ header_filename, c ≠ '"' ∧ c ≠ '\n')
    (hrs : ∀ r ∈ rs, usable_identifier env r.1 = true ∧ r.2 ≠ []) :
    parse_document env (build_source header_filename (rs.map entry_of))
      = some (TranslationUnit.mk
          (rs.map (fun r => ArrayDecl.mk r.1 r.2.length (r.2.map to_unsigned_char)))
          (rs.map (fun r => Registration.mk r.1 r.1 r.1))) := by
  have harr : (rs.map entry_of).map (fun e => e.source_array_entry)
      = rs.map (fun r => render r.1 r.2) := by
    rw [List.map_map]
    rfl
  have hreg : (rs.map entry_of).map (fun e => e.source_map_entry)
      = (rs.map (fun r => r.1)).map source_map_entry := by
    rw [List.map_map, List.map_map]
    rfl
  rw [← parse_document_text env header_filename rs hheader hrs, build_source_eq, harr, hreg]
  simp only [List.append_assoc]
  rfl

/-! ## The initializer of the generated program -/

theorem any_name_false (declared : List ArrayDecl) (name : Str)
    (h : name ∉ declared.map (fun d => d.name)) :
    declared.any (fun a => a.name == name) = false := by
  rw [Bool.eq_false_iff]
  intro hany
  obtain ⟨a, ha, hk⟩ := List.any_eq_true.1 hany
  exact h (List.mem_map.2 ⟨a, ha, by simpa using hk⟩)

theorem check_arrays_ok (char_is_signed : Bool) : ∀ (ds declared : List ArrayDecl),
    (declared.map (fun d => d.name) ++ ds.map (fun d => d.name)).Nodup →
    (∀ d ∈ ds, d.values.length ≤ d.size ∧ ∀ v ∈ d.values, v ≤ char_max char_is_signed) →
    check_arrays char_is_signed ds declared = Except.ok (declared ++ ds)
  | [], declared, _, _ => by simp [check_arrays]
  | d :: rest, declared, hnd, hok => by
    have hd := hok d (List.mem_cons_self d rest)
    have hfresh : d.name ∉ declared.map (fun d => d.name) := by
      intro hmem
      rw [List.nodup_append] at hnd
      exact hnd.2.2 hmem (by simp)
    have hfind : d.values.find? (fun v => decide (char_max char_is_signed < v)) = none := by
      apply List.find?_eq_none.2
      intro v hv
      have := hd.2 v hv
      simp only [decide_eq_true_eq]
      omega
    rw [check_arrays, any_name_false declared d.name hfresh]
    simp only [Bool.false_eq_true, if_false]
    rw [if_neg (by omega), hfind]
    simp only
    rw [check_arrays_ok char_is_signed rest (declared ++ [d]) (by simpa using hnd)
      (fun x hx => hok x (List.mem_cons_of_mem d hx))]
    simp

theorem check_arrays_redefinition (char_is_signed : Bool) :
    ∀ (ds declared : List ArrayDecl),
    (declared.map (fun d => d.name)).Nodup →
    ¬ (declared.map (fun d => d.name) ++ ds.map (fun d => d.name)).Nodup →
    ∃ e, check_arrays char_is_signed ds declared = Except.error e ∧
      ((∀ d ∈ ds, d.values.length ≤ d.size ∧ ∀ v ∈ d.values, v ≤ char_max char_is_signed) →
        ∃ name ∈ ds.map (fun d => d.name), e = ProgramError.redefinition name)
  | [], declared, hnd, hdup => by
    exfalso
    apply hdup
    simpa using hnd
  | d :: rest, declared, hnd, hdup => by
    rw [check_arrays]
    by_cases hany : declared.any (fun a => a.name == d.name) = true
    · rw [if_pos hany]
      exact ⟨_, rfl, fun _ => ⟨d.name, by simp, rfl⟩⟩
    · rw [if_neg hany]
      have hfresh : d.name ∉ declared.map (fun d => d.name) := by
        intro hmem
        obtain ⟨a, ha, hk⟩ := List.mem_map.1 hmem
        exact hany (List.any_eq_true.2 ⟨a, ha, by simpa using hk⟩)
      by_cases hsize : d.size < d.values.length
      · rw [if_pos hsize]
        refine ⟨_, rfl, fun hok => ?_⟩
        have := (hok d (List.mem_cons_self d rest)).1
        omega
      · rw [if_neg hsize]
        cases hfind : d.values.find? (fun v => decide (char_max char_is_signed < v)) with
        | some v =>
          simp only
          refine ⟨_, rfl, fun hok => ?_⟩
          have hv := List.find?_some hfind
          have hmem := List.mem_of_find?_eq_some hfind
          have := (hok d (List.mem_cons_self d rest)).2 v hmem
          simp only [decide_eq_true_eq] at hv
          omega
        | none =>
          simp only
          have hnd2 : ((declared ++ [d]).map (fun d => d.name)).Nodup := by
            rw [List.map_append, List.nodup_append]
            refine ⟨hnd, by simp, ?_⟩
            intro a ha hb
            have : a = d.name := by simpa using hb
            exact hfresh (this ▸ ha)
          obtain ⟨e, he, hname⟩ := check_arrays_redefinition char_is_signed rest
            (declared ++ [d]) hnd2 (by simpa using hdup)
          refine ⟨e, he, fun hok => ?_⟩
          obtain ⟨name, hmem, hname⟩ := hname (fun x hx => hok x (List.mem_cons_of_mem d hx))
          exact ⟨name, by simp [List.mem_map] at hmem ⊢; exact Or.inr hmem, hname⟩

theorem find_declared : ∀ (ds : List ArrayDecl) (d : ArrayDecl),
    (ds.map (fun d => d.name)).Nodup → d ∈ ds →
    ds.find? (fun a => a.name == d.name) = some d
  | [], d, _, hd => by simp at hd
  | x :: xs, d, hnd, hd => by
    rw [List.map_cons, List.nodup_cons] at hnd
    rcases List.mem_cons.1 hd with hdx | hdx
    · subst hdx
      simp [List.find?_cons]
    · have hne : x.name ≠ d.name := fun e => hnd.1 (e ▸ List.mem_map.2 ⟨d, hdx, rfl⟩)
      rw [List.find?_cons]
      have hk : (x.name == d.name) = false := by simpa using hne
      rw [hk]
      exact find_declared xs d hnd.2 hdx

theorem run_registration_declared (ds : List ArrayDecl) (d : ArrayDecl)
    (hnd : (ds.map (fun d => d.name)).Nodup) (hd : d ∈ ds) (hsize : d.size = d.values.length)
    (resources_ : List (Str × View)) :
    run_registration ds resources_ (Registration.mk d.name d.name d.name)
      = Except.ok (umap_insert resources_ d.name d.values) := by
  rw [run_registration]
  simp only
  rw [find_declared ds d hnd hd]
  simp only
  rw [if_pos (Nat.le_refl _)]
  have : (array_object d).take (array_size d) = d.values := by
    unfold array_object array_size
    rw [hsize]
    simp
  rw [this]

theorem run_registrations_declared (ds : List ArrayDecl)
    (hnd : (ds.map (fun d => d.name)).Nodup) :
    ∀ (sub : List ArrayDecl) (resources_ : List (Str × View)),
      (∀ d ∈ sub, d ∈ ds ∧ d.size = d.values.length) →
      run_registrations ds (sub.map (fun d => Registration.mk d.name d.name d.name)) resources_
        = Except.ok (sub.foldl (fun m d => umap_insert m d.name d.values) resources_)
  | [], resources_, _ => rfl
  | d :: rest, resources_, hsub => by
    have hd := hsub d (List.mem_cons_self d rest)
    rw [List.map_cons, run_registrations, run_registration_declared ds d hnd hd.1 hd.2]
    simp only
    rw [run_registrations_declared ds hnd rest _
      (fun q hq => hsub q (List.mem_cons_of_mem d hq))]
    rfl

theorem foldl_umap_insert : ∀ (sub : List ArrayDecl) (resources_ : List (Str × View)),
    (sub.map (fun d => d.name)).Nodup →
    (∀ d ∈ sub, d.name ∉ resources_.map (fun e => e.1)) →
    sub.foldl (fun m d => umap_insert m d.name d.values) resources_
      = resources_ ++ sub.map (fun d => (d.name, d.values))
  | [], resources_, _, _ => by simp
  | d :: rest, resources_, hnd, hfresh => by
    rw [List.map_cons, List.nodup_cons] at hnd
    have hnot : resources_.any (fun e => e.1 == d.name) = false := by
      have h := hfresh d (by simp)
      rw [Bool.eq_false_iff]
      intro hany
      obtain ⟨e, he, hk⟩ := List.any_eq_true.1 hany
      exact h (List.mem_map.2 ⟨e, he, by simpa using hk⟩)
    rw [List.foldl_cons, umap_insert, hnot]
    simp only [Bool.false_eq_true, if_false]
    rw [foldl_umap_insert rest _ hnd.2]
    · simp
    · intro q hq hmem
      rw [List.map_append, List.mem_append] at hmem
      rcases hmem with hmem | hmem
      · exact hfresh q (by simp [hq]) hmem
      · have : q.name = d.name := by simpa using hmem
        exact hnd.1 (this ▸ List.mem_map.2 ⟨q, hq, rfl⟩)

theorem manager_ctor_eq (char_is_signed : Bool) (ds : List ArrayDecl)
    (hnd : (ds.map (fun d => d.name)).Nodup)
    (hsize : ∀ d ∈ ds, d.size = d.values.length)
    (hchar : ∀ d ∈ ds, ∀ v ∈ d.values, v ≤ char_max char_is_signed) :
    manager_ctor char_is_signed
        (TranslationUnit.mk ds (ds.map (fun d => Registration.mk d.name d.name d.name)))
      = Except.ok (ds.map (fun d => (d.name, d.values))) := by
  unfold manager_ctor
  simp only
  rw [check_arrays_ok char_is_signed ds [] (by simpa using hnd)
    (fun d hd => ⟨by rw [hsize d hd], hchar d hd⟩)]
  simp only [List.nil_append]
  rw [run_registrations_declared ds hnd ds [] (fun d hd => ⟨hd, hsize d hd⟩),
    foldl_umap_insert ds [] hnd (by simp)]
  simp

theorem manager_ctor_redefinition (char_is_signed : Bool) (ds : List ArrayDecl)
    (regs : List Registration) (hdup : ¬ (ds.map (fun d => d.name)).Nodup) :
    ∃ e, manager_ctor char_is_signed (TranslationUnit.mk ds regs) = Except.error e ∧
      ((∀ d ∈ ds, d.values.length ≤ d.size ∧ ∀ v ∈ d.values, v ≤ char_max char_is_signed) →
        ∃ name ∈ ds.map (fun d => d.name), e = ProgramError.redefinition name) := by
  obtain ⟨e, he, hname⟩ := check_arrays_redefinition char_is_signed ds [] (by simp)
    (by simpa using hdup)
  refine ⟨e, ?_, hname⟩
  unfold manager_ctor
  simp only
  rw [he]

theorem generated_program_entries (env : Env) (header_filename : Str)
    (rs : List (Str × List Int))
    (hheader : ∀ c ∈ header_filename, c ≠ '"' ∧ c ≠ '\n')
    (hrs : ∀ r ∈ rs, usable_identifier env r.1 = true ∧ r.2 ≠ [])
    (hnd : (rs.map (fun r => r.1)).Nodup)
    (hchar : ∀ r ∈ rs, ∀ c ∈ r.2, to_unsigned_char c ≤ char_max env.char_is_signed) :
    generated_program env (build_source header_filename (rs.map entry_of))
      = Except.ok (rs.map (fun r => (r.1, r.2.map to_unsigned_char))) := by
  unfold generated_program
  rw [parse_document_entries env header_filename rs hheader hrs]
  simp only
  have hregs : rs.map (fun r => Registration.mk r.1 r.1 r.1)
      = (rs.map (fun r => ArrayDecl.mk r.1 r.2.length (r.2.map to_unsigned_char))).map
          (fun d => Registration.mk d.name d.name d.name) := by
    rw [List.map_map]
    rfl
  rw [hregs, manager_ctor_eq]
  · rw [List.map_map]
    rfl
  · rw [List.map_map]
    exact hnd
  · intro d hd
    obtain ⟨r, _, rfl⟩ := List.mem_map.1 hd
    simp
  · intro d hd v hv
    obtain ⟨r, hr, rfl⟩ := List.mem_map.1 hd
    obtain ⟨c, hc, rfl⟩ := List.mem_map.1 hv
    exact hchar r hr c hc

theorem generated_program_collision (env : Env) (header_filename : Str)
    (rs : List (Str × List Int))
    (hheader : ∀ c ∈ header_filename, c ≠ '"' ∧ c ≠ '\n')
    (hrs : ∀ r ∈ rs, usable_identifier env r.1 = true ∧ r.2 ≠ [])
    (hdup : ¬ (rs.map (fun r => r.1)).Nodup) :
    ∃ e, generated_program env (build_source header_filename (rs.map entry_of))
        = Except.error e ∧
      ((∀ r ∈ rs, ∀ c ∈ r.2, to_unsigned_char c ≤ char_max env.char_is_signed) →
        ∃ name ∈ rs.map (fun r => r.1), e = ProgramError.redefinition name) := by
  obtain ⟨e, he, hname⟩ := manager_ctor_redefinition env.char_is_signed
    (rs.map (fun r => ArrayDecl.mk r.1 r.2.length (r.2.map to_unsigned_char)))
    (rs.map (fun r => Registration.mk r.1 r.1 r.1))
    (by rw [List.map_map]; exact hdup)
  refine ⟨e, ?_, fun hchar => ?_⟩
  · unfold generated_program
    rw [parse_document_entries env header_filename rs hheader hrs]
    simp only
    exact he
  · obtain ⟨name, hmem, hn⟩ := hname (by
      intro d hd
      obtain ⟨r, hr, rfl⟩ := List.mem_map.1 hd
      refine ⟨by simp, ?_⟩
      intro v hv
      obtain ⟨c, hc, rfl⟩ := List.mem_map.1 hv
      exact hchar r hr c hc)
    rw [List.map_map] at hmem
    exact ⟨name, hmem, hn⟩

theorem resources_read_names (env : Env) (files : FileSystem) (source_files : List Str) :
    (resources_read env files source_files).map (fun r => r.1)
      = (source_files.filter (fun p => decide (0 < (file_bytes env files p).length))).map
          resource_name := by
  simp [resources_read, List.map_map, Function.comp_def]

theorem read_buffer_values (env : Env) (files : FileSystem) (p : Str)
    (hchar : ∀ b ∈ file_bytes env files p, b ≤ char_max env.char_is_signed) :
    ∀ c ∈ read_buffer env files p (file_bytes env files p).length,
      to_unsigned_char c ≤ char_max env.char_is_signed := by
  intro c hc
  by_cases hread : env.can_read p = true
  · rw [read_buffer_readable env files p hread] at hc
    obtain ⟨b, hb, rfl⟩ := List.mem_map.1 hc
    have hle := hchar b hb
    have hlt : b < 256 := by
      have : char_max env.char_is_signed ≤ 255 := by
        unfold char_max
        split <;> omega
      omega
    rw [to_unsigned_char_of_byte _ b hlt]
    exact hle
  · unfold read_buffer at hc
    rw [if_neg hread] at hc
    rw [List.eq_of_mem_replicate hc]
    exact Nat.zero_le _

theorem resources_read_entries (env : Env) (files : FileSystem) (source_files : List Str)
    (hident : ∀ p ∈ source_files, 0 < (file_bytes env files p).length →
      usable_identifier env (resource_name p) = true) :
    ∀ r ∈ resources_read env files source_files,
      usable_identifier env r.1 = true ∧ r.2 ≠ [] := by
  intro r hr
  obtain ⟨p, hp, rfl⟩ := List.mem_map.1 hr
  have hsize : 0 < (file_bytes env files p).length :=
    of_decide_eq_true (List.mem_filter.1 hp).2
  refine ⟨hident p (List.mem_filter.1 hp).1 hsize, ?_⟩
  intro hnil
  have := read_buffer_length env files p
  simp only at hnil
  rw [hnil] at this
  simp at this
  omega

theorem resources_read_values (env : Env) (files : FileSystem) (source_files : List Str)
    (hchar : ∀ p ∈ source_files, ∀ b ∈ file_bytes env files p,
      b ≤ char_max env.char_is_signed) :
    ∀ r ∈ resources_read env files source_files, ∀ c ∈ r.2,
      to_unsigned_char c ≤ char_max env.char_is_signed := by
  intro r hr
  obtain ⟨p, hp, rfl⟩ := List.mem_map.1 hr
  exact read_buffer_values env files p (hchar p (List.mem_filter.1 hp).1)

/-! ## The lookup contract -/

set_option maxRecDepth 100000 in
/-- Counterexample to C10 as stated: the files `a.b.c` (one byte, 1) and `a_b.c` (one
byte, 2) have the same resource name `a_b_c`. The run ends with exit code 0 and writes a
definition document that declares the array `a_b_c` twice: it is no program, so no
initializer leaves a map in which `get` of `a_b_c` gives the later bytes. And
`std::unordered_map::insert` itself does not overwrite: the two registrations run on the
empty map leave `get` of `a_b_c` at the view registered first. -/
theorem last_registration_does_not_win :
    (resource_name "a.b.c".toList = "a_b_c".toList ∧
      resource_name "a_b.c".toList = "a_b_c".toList) ∧
    (main (plain_env false (fun _ => true))
        ["rc".toList, "--sources=a.b.c,a_b.c".toList, "--output=out/res".toList]
        [("a.b.c".toList, [1]), ("a_b.c".toList, [2])]).exit_code = 0 ∧
    (main (plain_env false (fun _ => true))
        ["rc".toList, "--sources=a.b.c,a_b.c".toList, "--output=out/res".toList]
        [("a.b.c".toList, [1]), ("a_b.c".toList, [2])]).disk.written
      = [("out/res.h".toList, build_header),
         ("out/res.cpp".toList, build_source "res.h".toList
            [entry_of ("a_b_c".toList, [1]), entry_of ("a_b_c".toList, [2])])] ∧
    generated_program (plain_env false (fun _ => true))
        (build_source "res.h".toList
          [entry_of ("a_b_c".toList, [1]), entry_of ("a_b_c".toList, [2])])
      = Except.error (ProgramError.redefinition "a_b_c".toList) ∧
    (¬ ∃ resources_, generated_program (plain_env false (fun _ => true))
        (build_source "res.h".toList
          [entry_of ("a_b_c".toList, [1]), entry_of ("a_b_c".toList, [2])])
          = Except.ok resources_ ∧
        manager_get resources_ "a_b_c".toList = [2]) ∧
    manager_get (umap_insert (umap_insert [] "a_b_c".toList [1]) "a_b_c".toList [2])
      "a_b_c".toList ≠ [2] := by
  have h : generated_program (plain_env false (fun _ => true))
      (build_source "res.h".toList
        [entry_of ("a_b_c".toList, [1]), entry_of ("a_b_c".toList, [2])])
      = Except.error (ProgramError.redefinition "a_b_c".toList) := rfl
  refine ⟨by decide, by decide, rfl, h, ?_, by decide⟩
  rintro ⟨resources_, hok, _⟩
  rw [h] at hok
  exact Except.noConfusion hok

/-- C10 as amended: there are distinct base names with the same identifier (`a.b.c` and
`a_b.c` both give `a_b_c`). When the source files of non-zero size of a run do not have
pairwise distinct resource names, the definition document built from the compilation
result (names that are identifiers, a header name without `"` and line break) is no
program: its initializer never runs and no lookup map exists; and when no byte exceeds the
maximum of `char`, the reason is the redefinition of the array of a resource name. -/
theorem collision_redefinition :
    ("a.b.c".toList ≠ "a_b.c".toList ∧
      resource_name "a.b.c".toList = "a_b_c".toList ∧
      resource_name "a_b.c".toList = "a_b_c".toList) ∧
    ∀ (env : Env) (files : FileSystem) (source_files : List Str) (header_filename : Str)
      (result_data : List file_entry),
      process_files env files source_files [] = Except.ok result_data →
      (∀ c ∈ header_filename, c ≠ '"' ∧ c ≠ '\n') →
      (∀ p ∈ source_files, 0 < (file_bytes env files p).length →
        usable_identifier env (resource_name p) = true) →
      ¬ ((source_files.filter
        (fun p => decide (0 < (file_bytes env files p).length))).map resource_name).Nodup →
      ∃ e, generated_program env (build_source header_filename result_data)
          = Except.error e ∧
        (∀ resources_, generated_program env (build_source header_filename result_data)
          ≠ Except.ok resources_) ∧
        ((∀ p ∈ source_files, ∀ b ∈ file_bytes env files p,
            b ≤ char_max env.char_is_signed) →
          ∃ name ∈ (source_files.filter
              (fun p => decide (0 < (file_bytes env files p).length))).map resource_name,
            e = ProgramError.redefinition name) := by
  refine ⟨by decide, ?_⟩
  intro env files source_files header_filename result_data hproc hheader hident hdup
  have hres : result_data = (resources_read env files source_files).map entry_of := by
    have := (process_files_ok env files source_files [] result_data hproc).1
    rw [this]
    rfl
  obtain ⟨e, he, hname⟩ := generated_program_collision env header_filename
    (resources_read env files source_files) hheader
    (resources_read_entries env files source_files hident)
    (by rw [resources_read_names]; exact hdup)
  rw [hres]
  refine ⟨e, he, ?_, ?_⟩
  · intro resources_ hok
    rw [he] at hok
    exact Except.noConfusion hok
  · intro hchar
    obtain ⟨name, hmem, hn⟩ := hname (resources_read_values env files source_files hchar)
    rw [resources_read_names] at hmem
    exact ⟨name, hmem, hn⟩

set_option maxRecDepth 100000 in
/-- Witness of the amended C10: the files `a.b.c` and `a_b.c`. -/
theorem collision_redefinition_witness :
    ∃ e, generated_program (plain_env false (fun _ => true))
        (build_source "res.h".toList
          [entry_of ("a_b_c".toList, [1]), entry_of ("a_b_c".toList, [2])])
        = Except.error e ∧
      (∀ resources_, generated_program (plain_env false (fun _ => true))
        (build_source "res.h".toList
          [entry_of ("a_b_c".toList, [1]), entry_of ("a_b_c".toList, [2])])
        ≠ Except.ok resources_) ∧
      ((∀ p ∈ ["a.b.c".toList, "a_b.c".toList],
          ∀ b ∈ file_bytes (plain_env false (fun _ => true))
            [("a.b.c".toList, [1]), ("a_b.c".toList, [2])] p,
          b ≤ char_max (plain_env false (fun _ => true)).char_is_signed) →
        ∃ name ∈ (["a.b.c".toList, "a_b.c".toList].filter
            (fun p => decide (0 < (file_bytes (plain_env false (fun _ => true))
              [("a.b.c".toList, [1]), ("a_b.c".toList, [2])] p).length))).map resource_name,
          e = ProgramError.redefinition name) :=
  collision_redefinition.2 (plain_env false (fun _ => true))
    [("a.b.c".toList, [1]), ("a_b.c".toList, [2])] ["a.b.c".toList, "a_b.c".toList]
    "res.h".toList [entry_of ("a_b_c".toList, [1]), entry_of ("a_b_c".toList, [2])]
    rfl (by decide) (by decide) (by decide)

/-! ## The registration statement and the output paths -/

/-- C17: the registration statement. For every identifier the statement is the text
`  resources_.insert({"<id>", std::string_view(<id>, array_size(<id>))});` and one line
break; when the identifier holds no `"`, the quoted key read back from the statement is the
identifier, and what follows it names the identifier as the array and as the argument of
`array_size`. For the file `hello.txt` with the bytes 72, 105 the identifier is
`hello_txt`, the entry of the run is the array literal `constexpr const char hello_txt[2]
= {`, line break, `72,105};` (and two line breaks) with the registration of `hello_txt`,
and in the generated program `get` of `hello_txt` gives the bytes 72, 105. -/
theorem registration_statement (id : Str) :
    source_map_entry id
      = "  resources_.insert(\x7b\"".toList ++ id ++ "\", std::string_view(".toList ++ id
        ++ ", array_size(".toList ++ id ++ "))\x7d);".toList ++ ['\n'] ∧
    ('"' ∉ id →
      (source_map_entry id).splitOn '"'
        = ["  resources_.insert(\x7b".toList, id,
            ", std::string_view(".toList ++ id ++ ", array_size(".toList ++ id
              ++ "))\x7d);\n".toList]) ∧
    (∀ (env : Env) (rest : Str), usable_identifier env id = true →
      parse_registration env (source_map_entry id ++ rest)
        = some (Registration.mk id id id, rest)) ∧
    resource_name "hello.txt".toList = "hello_txt".toList ∧
    (∀ (char_is_signed : Bool) (can_open : Str → Bool),
      process_files (plain_env char_is_signed can_open)
          [("hello.txt".toList, [72, 105])] ["hello.txt".toList] []
        = Except.ok [file_entry.mk
            "constexpr const char hello_txt[2] = \x7b\n72,105\x7d;\n\n".toList
            ("  resources_.insert(\x7b\"hello_txt\", ".toList
              ++ "std::string_view(hello_txt, array_size(hello_txt))\x7d);\n".toList)] ∧
      ∀ header_filename : Str, (∀ c ∈ header_filename, c ≠ '"' ∧ c ≠ '\n') →
        ∃ resources_,
          generated_program (plain_env char_is_signed can_open)
            (build_source header_filename [file_entry.mk
              "constexpr const char hello_txt[2] = \x7b\n72,105\x7d;\n\n".toList
              ("  resources_.insert(\x7b\"hello_txt\", ".toList
                ++ "std::string_view(hello_txt, array_size(hello_txt))\x7d);\n".toList)])
            = Except.ok resources_ ∧
          manager_get resources_ "hello_txt".toList = [72, 105] ∧
          manager_get resources_ "missing".toList = []) := by
  refine ⟨?_, ?_, fun env rest hid => parse_registration_entry env id rest hid, by decide, ?_⟩
  · simp [source_map_entry]
  · intro hq
    have hshape : source_map_entry id
        = ['"'].intercalate ["  resources_.insert(\x7b".toList, id,
            ", std::string_view(".toList ++ id ++ ", array_size(".toList ++ id
              ++ "))\x7d);\n".toList] := by
      simp [source_map_entry, List.intercalate]
    rw [hshape]
    apply List.splitOn_intercalate
    · intro l hl
      simp only [List.mem_cons, List.mem_singleton, List.not_mem_nil, or_false] at hl
      rcases hl with h | h | h
      · rw [h]; decide
      · rw [h]; exact hq
      · rw [h]
        simp only [List.mem_append, not_or]
        exact ⟨⟨⟨⟨by decide, hq⟩, by decide⟩, hq⟩, by decide⟩
    · simp
  · intro char_is_signed can_open
    have hproc : process_files (plain_env char_is_signed can_open)
        [("hello.txt".toList, [72, 105])] ["hello.txt".toList] []
        = Except.ok [file_entry.mk
            "constexpr const char hello_txt[2] = \x7b\n72,105\x7d;\n\n".toList
            ("  resources_.insert(\x7b\"hello_txt\", ".toList
              ++ "std::string_view(hello_txt, array_size(hello_txt))\x7d);\n".toList)] := by
      have henv : plain_env char_is_signed can_open
          = { plain_env char_is_signed (fun _ => true) with can_open := can_open } := rfl
      rw [henv, process_files_can_open]
      cases char_is_signed <;> rfl
    refine ⟨hproc, ?_⟩
    intro header_filename hheader
    have hentry : [file_entry.mk
        "constexpr const char hello_txt[2] = \x7b\n72,105\x7d;\n\n".toList
        ("  resources_.insert(\x7b\"hello_txt\", ".toList
          ++ "std::string_view(hello_txt, array_size(hello_txt))\x7d);\n".toList)]
        = [("hello_txt".toList, [(72 : Int), 105])].map entry_of := by decide
    have hprog := generated_program_entries (plain_env char_is_signed can_open)
      header_filename [("hello_txt".toList, [(72 : Int), 105])] hheader
      (by
        intro r hr
        rw [List.mem_singleton.1 hr]
        exact ⟨rfl, by decide⟩)
      (by decide)
      (by
        intro r hr c hc
        rw [List.mem_singleton.1 hr] at hc
        simp only [List.mem_cons, List.mem_singleton, List.not_mem_nil, or_false] at hc
        have hmax : ∀ s : Bool, 105 ≤ char_max s := by
          intro s
          cases s <;> decide
        rcases hc with h | h
        · rw [h]
          exact Nat.le_trans (by decide : to_unsigned_char 72 ≤ 105) (hmax _)
        · rw [h]
          exact Nat.le_trans (by decide : to_unsigned_char 105 ≤ 105) (hmax _))
    rw [hentry, hprog]
    exact ⟨_, rfl, by decide, by decide⟩

/-- Witness of C17: the identifier `hello_txt`. -/
theorem registration_statement_witness :
    (source_map_entry "hello_txt".toList).splitOn '"'
      = ["  resources_.insert(\x7b".toList, "hello_txt".toList,
          ", std::string_view(".toList ++ "hello_txt".toList ++ ", array_size(".toList
            ++ "hello_txt".toList ++ "))\x7d);\n".toList] :=
  (registration_statement "hello_txt".toList).2.1 (by decide)

end ResourcesCompiler
